import Mathlib

/-!
The program bmf-to-obj in a shallow embedding of its source file `main.cc`.

The program reads one or more BMF files (`Read`) into one `BMF_Object` and
writes that object as Wavefront OBJ text (`ExportToOBJ`).

Conventions of the embedding.

* A file is the list of its bytes.  `uint32_t` values are natural numbers below
  `2^32`; every `uint32_t` operation of the source that can wrap is written with
  an explicit `% U32`.  `size_t` is taken to be 64 bits wide, so the sizes of
  vectors are plain natural numbers.
* A `float` is represented by its 32 bits (a natural number below `2^32`); the
  program only copies floats and prints them, the printing function
  (`std::to_string(float)`) is a parameter of the renderer.
* Multi-byte values are read in little-endian order (the source reads them in
  the byte order of the host).
* `assert` aborts the run: a failed assertion is the result
  `Fault.assertFailed`.  Indexing a `std::vector` outside its bounds is
  undefined behaviour in the source; the embedding reports it as
  `Fault.outOfBounds` instead of continuing.
* The loops of `ExportToOBJ`, which are controlled by a wrapping `uint32_t`
  counter, and the loop over the meshes in `Read` are written with a fuel
  argument; `Fault.outOfFuel` is returned when the fuel is used up.  In `Read`
  this never happens (`Read_ne_outOfFuel`).
-/

namespace BMF

/-! ## Data model -/

/-- One byte of a file. -/
abbrev Byte := Fin 256

/-- The modulus of `uint32_t` arithmetic. -/
def U32 : Nat := 4294967296

/-- The ways in which a run can end without a result. -/
inductive Fault where
  /-- an `assert` of the source failed -/
  | assertFailed
  /-- a `std::vector` was indexed outside its bounds -/
  | outOfBounds
  /-- the fuel of a loop of the embedding was used up -/
  | outOfFuel
deriving DecidableEq, Repr

/-- The `struct BMF_Geometry`; a `std::string` is a string, a `std::vector` a list. -/
structure BMF_Geometry where
  name : String := ""
  indices : List Nat := []
  uvs : List Nat := []
  normals : List Nat := []
  positions : List Nat := []
  colors : List Nat := []
deriving DecidableEq, Repr

/-- The `struct BMF_Object`. -/
structure BMF_Object where
  geometries : List BMF_Geometry := []
deriving DecidableEq, Repr

/-! ## The file reader -/

/-- The state of the `FILE*` of `Read`: the bytes not yet read and the current
offset.  `tags` is a ghost field: the offsets of the words that an assertion of
`Read` compared with one fixed tag; nothing reads it. -/
structure Stream where
  rest : List Byte
  pos : Nat := 0
  tags : List Nat := []
deriving DecidableEq, Repr

/-- A step of `Read`: it may abort, otherwise it returns a value and the new
state of the file. -/
def Rd (α : Type) : Type := Stream → Except Fault (α × Stream)

/-- Sequencing of two steps. -/
def Rd.bind {α β : Type} (x : Rd α) (f : α → Rd β) : Rd β := fun st =>
  match x st with
  | .ok (a, st') => f a st'
  | .error e => .error e

/-- The step that reads nothing. -/
def Rd.pure {α : Type} (a : α) : Rd α := fun st => .ok (a, st)

instance : Monad Rd where
  pure := Rd.pure
  bind := Rd.bind

/-- The step that aborts. -/
def Rd.fail {α : Type} (e : Fault) : Rd α := fun _ => .error e

/-- A computation without access to the file, run as a step. -/
def Rd.lift {α : Type} (x : Except Fault α) : Rd α := fun st =>
  match x with
  | .ok a => .ok (a, st)
  | .error e => .error e

/-- The lambda `Assert` of `Read`: `assert(value && "Bad BMF File")`. -/
def Assert (value : Bool) : Except Fault Unit :=
  if value then .ok () else .error .assertFailed

/-- The lambda `AssertEq` of `Read`: `assert(a == b && "Not Equal")`. -/
def AssertEq (a b : Nat) : Except Fault Unit :=
  if a = b then .ok () else .error .assertFailed

/-- The lambda `GetData`: `AssertEq((uint32_t)fread(pData, size, 1, pFile), 1)`.
`fread` returns the number of complete items read: `0` when `size` is zero and
`0` when fewer than `size` bytes are left, so both cases fail the assertion. -/
def GetData (size : Nat) : Rd (List Byte) := fun st =>
  if size = 0 then .error .assertFailed
  else if size ≤ st.rest.length then
    .ok (st.rest.take size, { st with rest := st.rest.drop size, pos := st.pos + size })
  else .error .assertFailed

/-- The value of a little-endian sequence of bytes. -/
def leValue : List Byte → Nat
  | [] => 0
  | b :: bs => b.val + 256 * leValue bs

/-- The 32-bit words stored in a sequence of bytes, four bytes each. -/
def words : List Byte → List Nat
  | b0 :: b1 :: b2 :: b3 :: bs => leValue [b0, b1, b2, b3] :: words bs
  | _ => []

/-- The lambda `GetUint32`. -/
def GetUint32 : Rd Nat := do
  let bytes ← GetData 4
  pure (leValue bytes)

/-- The lambda `GetUint32Array`: `std::vector<uint32_t> data(size)` is filled
with zeros, then `GetData(size * sizeof(data[0]), data.data())` overwrites its
first bytes; the byte count is converted to the `uint32_t` parameter of
`GetData`, that is, taken modulo `2^32`. -/
def GetUint32Array (size : Nat) : Rd (List Nat) := do
  let bytes ← GetData ((size * 4) % U32)
  let data := words bytes
  pure (data ++ List.replicate (size - data.length) 0)

/-- The lambda `GetFloat32Array`; a float is kept as its 32 bits, and the
zero-initialised float has all bits zero. -/
def GetFloat32Array (size : Nat) : Rd (List Nat) := GetUint32Array size

/-- A `char` of a `std::string`, as a character with the same code. -/
def byteChar (b : Byte) : Char := Char.ofNat b.val

/-- The lambda `GetString`: a 32-bit length followed by that many bytes. -/
def GetString : Rd String := do
  let n ← GetUint32
  let bytes ← GetData n
  pure (String.mk (bytes.map byteChar))

/-- The statement `AssertEq(GetUint32(), tag)` (for `BMF_HAS_BMF` it is written
`Assert(tag == GetUint32(), ...)`): read a word and compare it with one fixed
tag.  The offset of the word is recorded in the ghost field `tags`. -/
def GetTag (tag : Nat) : Rd Unit := fun st =>
  match GetUint32 st with
  | .ok (v, st') =>
    if v = tag then .ok ((), { st' with tags := st'.tags ++ [st.pos] })
    else .error .assertFailed
  | .error e => .error e

/-! The tags of the format, the constants of `Read`. -/

def BMF_HAS_BMF : Nat := 1112360496
def BMF_GOT_BMF : Nat := 1179468336
def BMF_HAS_POSITIONS : Nat := 1399805488
def BMF_GOT_POSITIONS : Nat := 1164924464
def BMF_HAS_COLORS : Nat := 1399800624
def BMF_GOT_COLORS : Nat := 1164919600
def BMF_HAS_MESH : Nat := 1399801648
def BMF_GOT_MESH : Nat := 1164920624
def BMF_HAS_NAME : Nat := 1298232368
def BMF_GOT_NAME : Nat := 1399801392
def BMF_GOT_INDICES : Nat := 1164920368
def BMF_HAS_UVS : Nat := 1399805232
def BMF_GOT_UVS : Nat := 1164924208
def BMF_HAS_NORMALS : Nat := 1399803440
def BMF_GOT_NORMALS : Nat := 1164922416

/-- Reading `v[i]` of a `std::vector`. -/
def vecGet (v : List Nat) (i : Nat) : Except Fault Nat :=
  match v[i]? with
  | some x => .ok x
  | none => .error .outOfBounds

/-- Writing `v[i] = x` of a `std::vector`. -/
def vecSet (v : List Nat) (i : Nat) (x : Nat) : Except Fault (List Nat) :=
  if i < v.length then .ok (v.set i x) else .error .outOfBounds

/-- The call `v.resize(n)`: the vector is cut, or extended with zeros. -/
def vecResize (v : List Nat) (n : Nat) : List Nat :=
  v.take n ++ List.replicate (n - v.length) 0

/-- The loop over the geometries of the object that renames a mesh whose name
is taken: `if (g.name == geometry.name) geometry.name += "." + std::to_string(n)`,
where `n` is `object.geometries.size()`.  The loop goes on after a match, with
the new name. -/
def resolveName (n : Nat) : List BMF_Geometry → String → String
  | [], name => name
  | g :: gs, name =>
    resolveName n gs (if g.name = name then name ++ "." ++ toString n else name)

/-- The body of the loop "Process positions" for the corner `k`, on the
vector `out` (`geometry.positions`). -/
def positionStep (positions : List Nat) (idx k : Nat) (out : List Nat) :
    Except Fault (List Nat) := do
  Assert (decide (idx < positions.length))
  let x ← vecGet positions ((3 * idx + 0) % U32)
  let out ← vecSet out ((3 * k + 0) % U32) x
  let z ← vecGet positions ((3 * idx + 2) % U32)
  let out ← vecSet out ((3 * k + 1) % U32) z
  let y ← vecGet positions ((3 * idx + 1) % U32)
  vecSet out ((3 * k + 2) % U32) y

/-- The loop "Process positions" from the corner `k` on; `indices` holds the
indices of the corners `k, k+1, ...`. -/
def positionLoop (positions : List Nat) : List Nat → Nat → List Nat → Except Fault (List Nat)
  | [], _, out => .ok out
  | idx :: rest, k, out => do
    let out ← positionStep positions idx k out
    positionLoop positions rest (k + 1) out

/-- The block "Process positions": `geometry.positions.resize(3 * indices.size())`
and the loop over the corners. -/
def processPositions (positions indices : List Nat) : Except Fault (List Nat) :=
  positionLoop positions indices 0 (vecResize [] (3 * indices.length))

/-- The body of the loop "Process colors" for the corner `k`, on the vector
`out` (`geometry.colors`). -/
def colorStep (colors : List Nat) (idx k : Nat) (out : List Nat) :
    Except Fault (List Nat) := do
  Assert (decide (idx < colors.length))
  let r ← vecGet colors ((3 * idx + 0) % U32)
  let out ← vecSet out ((3 * k + 0) % U32) r
  let g ← vecGet colors ((3 * idx + 1) % U32)
  let out ← vecSet out ((3 * k + 1) % U32) g
  let b ← vecGet colors ((3 * idx + 2) % U32)
  vecSet out ((3 * k + 2) % U32) b

/-- The loop "Process colors" from the corner `k` on. -/
def colorLoop (colors : List Nat) : List Nat → Nat → List Nat → Except Fault (List Nat)
  | [], _, out => .ok out
  | idx :: rest, k, out => do
    let out ← colorStep colors idx k out
    colorLoop colors rest (k + 1) out

/-- The block "Process colors".  The source resizes the pool `colors` of the
file (not `geometry.colors`, which keeps its size 0) and then writes into
`geometry.colors`.  The result is the new pool and the colours of the
geometry. -/
def processColors (colors indices : List Nat) : Except Fault (List Nat × List Nat) :=
  if colors.length ≠ 0 then do
    let colors := vecResize colors (3 * indices.length)
    let out ← colorLoop colors indices 0 []
    pure (colors, out)
  else pure (colors, [])

/-- The fields of a mesh as they are read from the file, before the part
"Process mesh": the name given to the geometry, `triangleCount`, the vectors
and the word `d` read after the mesh. -/
structure MeshData where
  name : String
  triangleCount : Nat
  indices : List Nat
  uvs : List Nat
  normals : List Nat
  d : Nat
deriving DecidableEq, Repr

/-- The fields of a mesh that are read up to the tag `GOT_INDICES`, and the
word `d` that follows the tag. -/
structure MeshHead where
  name : String
  triangleCount : Nat
  indices : List Nat
  d : Nat
deriving DecidableEq, Repr

/-- What one pass through the body of `while (d == BMF_HAS_MESH)` produces:
the geometry that is pushed, the pool of colours and the word `d` read after
the mesh. -/
structure MeshResult where
  geometry : BMF_Geometry
  colors : List Nat
  d : Nat
deriving DecidableEq, Repr

/-- The part "Read name" of a mesh. -/
def readName (geometries : List BMF_Geometry) : Rd String := do
  let d ← GetUint32
  if d = BMF_HAS_NAME then do
    let name ← GetString
    GetTag BMF_GOT_NAME
    pure (resolveName geometries.length geometries name)
  else
    pure ("Object." ++ toString geometries.length)

/-- An optional block of floats of a mesh ("Read UVs", "Read normals"): entered
when the word `d` is `has`; `width` floats per corner.  The result is the
vector and the next word `d`. -/
def readAttribute (has got width triangleCount d : Nat) : Rd (List Nat × Nat) :=
  if d = has then do
    let count ← GetUint32
    Rd.lift (AssertEq count ((3 * triangleCount) % U32))
    let data ← GetFloat32Array ((width * count) % U32)
    GetTag got
    let d ← GetUint32
    pure (data, d)
  else
    pure ([], d)

/-- The parts "Read name" and "Read Indices.." of a mesh, and the word `d`
read after the tag `GOT_INDICES`. -/
def readMeshHead (geometries : List BMF_Geometry) : Rd MeshHead := do
  let name ← readName geometries
  let triangleCount ← GetUint32
  let indices ← GetUint32Array ((3 * triangleCount) % U32)
  GetTag BMF_GOT_INDICES
  let d ← GetUint32
  pure { name := name, triangleCount := triangleCount, indices := indices, d := d }

/-- The body of `while (d == BMF_HAS_MESH)` up to "End of mesh": everything
that is read from the file. -/
def readMeshData (geometries : List BMF_Geometry) : Rd MeshData := do
  let h ← readMeshHead geometries
  let uv ← readAttribute BMF_HAS_UVS BMF_GOT_UVS 2 h.triangleCount h.d
  let nr ← readAttribute BMF_HAS_NORMALS BMF_GOT_NORMALS 3 h.triangleCount uv.2
  Rd.lift (AssertEq nr.2 BMF_GOT_MESH)
  let d ← GetUint32
  pure { name := h.name, triangleCount := h.triangleCount, indices := h.indices,
         uvs := uv.1, normals := nr.1, d := d }

/-- The part "Process mesh" of the loop body, which does not read the file. -/
def processMesh (positions colors : List Nat) (m : MeshData) : Except Fault MeshResult := do
  AssertEq (m.indices.length % U32) ((3 * m.triangleCount) % U32)
  let ps ← processPositions positions m.indices
  let cs ← processColors colors m.indices
  pure { geometry := { name := m.name, indices := m.indices, uvs := m.uvs,
                       normals := m.normals, positions := ps, colors := cs.2 },
         colors := cs.1, d := m.d }

/-- The body of `while (d == BMF_HAS_MESH)`. -/
def readMesh (positions colors : List Nat) (geometries : List BMF_Geometry) :
    Rd MeshResult := do
  let m ← readMeshData geometries
  Rd.lift (processMesh positions colors m)

/-- The loop `while (d == BMF_HAS_MESH)`; the result is the list of geometries
of the object and the word `d` on which the loop ended. -/
def meshLoop (positions : List Nat) :
    Nat → List Nat → List BMF_Geometry → Nat → Rd (List BMF_Geometry × Nat)
  | 0, _, geometries, d =>
    if d = BMF_HAS_MESH then Rd.fail .outOfFuel else pure (geometries, d)
  | fuel + 1, colors, geometries, d =>
    if d = BMF_HAS_MESH then do
      let r ← readMesh positions colors geometries
      meshLoop positions fuel r.colors (geometries ++ [r.geometry]) r.d
    else pure (geometries, d)

/-- The start of `Read`: the tag `BMF_HAS_BMF` and the block "Read global
positions".  The result is `positionCount` and the pool `positions`. -/
def readPositions : Rd (Nat × List Nat) := do
  GetTag BMF_HAS_BMF
  GetTag BMF_HAS_POSITIONS
  let positionCount ← GetUint32
  let positions ← GetFloat32Array ((3 * positionCount) % U32)
  GetTag BMF_GOT_POSITIONS
  pure (positionCount, positions)

/-- The block "Read global colors": the pool of colours and the next word. -/
def readColors (positionCount : Nat) : Rd (List Nat × Nat) := do
  let d ← GetUint32
  if d = BMF_HAS_COLORS then do
    let colorCount ← GetUint32
    Rd.lift (AssertEq colorCount positionCount)
    let colors ← GetFloat32Array ((3 * colorCount) % U32)
    GetTag BMF_GOT_COLORS
    let d ← GetUint32
    pure (colors, d)
  else
    pure ([], d)

/-- The body of `Read` between `fopen_s` and `fclose`, as a step on the file;
`fuel` bounds the number of passes through the mesh loop. -/
def decode (fuel : Nat) (object : BMF_Object) : Rd BMF_Object := do
  let p ← readPositions
  let c ← readColors p.1
  let r ← meshLoop p.2 fuel c.1 object.geometries c.2
  Rd.lift (AssertEq r.2 BMF_GOT_BMF)
  pure { geometries := r.1 }

/-- The state of a file that has just been opened. -/
def openFile (file : List Byte) : Stream := { rest := file, pos := 0, tags := [] }

/-- The run of `Read` on the contents `file` of the file at `path`: the new
object and the final state of the file.  Every pass through the mesh loop reads
at least one byte, so `file.length + 1` passes are never used up. -/
def decodeFile (object : BMF_Object) (file : List Byte) : Except Fault (BMF_Object × Stream) :=
  decode (file.length + 1) object (openFile file)

/-- The function `Read`: the object after the call. -/
def Read (object : BMF_Object) (file : List Byte) : Except Fault BMF_Object :=
  (decodeFile object file).map Prod.fst

/-- The little-endian bytes of a 32-bit word. -/
def u32 (n : Nat) : List Byte :=
  [Fin.ofNat (n % 256), Fin.ofNat (n / 256 % 256), Fin.ofNat (n / 65536 % 256),
   Fin.ofNat (n / 16777216 % 256)]

/-- The bytes of a sequence of 32-bit words. -/
def u32s (ws : List Nat) : List Byte := ws.flatMap u32

/-! ## The exporter -/

/-- The three fields of one corner of an `f` line; `0` stands for a field
that is left empty (`p ? std::to_string(p) : ""`). -/
structure Corner where
  p : Nat
  u : Nat
  n : Nat
deriving DecidableEq, Repr

/-- The lines that `ExportToOBJ` writes. -/
inductive Line where
  | v (x y z : Nat)
  | vt (u v : Nat)
  | vn (x y z : Nat)
  | o (name : String)
  | f (a b c : Corner)
deriving DecidableEq, Repr

/-- The loop "Write all positions", from the counter value `i` on. -/
def positionLines (positions : List Nat) : Nat → Nat → Except Fault (List Line)
  | 0, i => if i < positions.length then .error .outOfFuel else .ok []
  | fuel + 1, i =>
    if i < positions.length then do
      let x ← vecGet positions ((i + 0) % U32)
      let y ← vecGet positions ((i + 1) % U32)
      let z ← vecGet positions ((i + 2) % U32)
      let rest ← positionLines positions fuel ((i + 3) % U32)
      pure (Line.v x y z :: rest)
    else .ok []

/-- The loop "Write all uvs", from the counter value `i` on. -/
def uvLines (uvs : List Nat) : Nat → Nat → Except Fault (List Line)
  | 0, i => if i < uvs.length then .error .outOfFuel else .ok []
  | fuel + 1, i =>
    if i < uvs.length then do
      let u ← vecGet uvs ((i + 0) % U32)
      let v ← vecGet uvs ((i + 1) % U32)
      let rest ← uvLines uvs fuel ((i + 2) % U32)
      pure (Line.vt u v :: rest)
    else .ok []

/-- The loop "Write all normals", from the counter value `i` on. -/
def normalLines (normals : List Nat) : Nat → Nat → Except Fault (List Line)
  | 0, i => if i < normals.length then .error .outOfFuel else .ok []
  | fuel + 1, i =>
    if i < normals.length then do
      let x ← vecGet normals ((i + 0) % U32)
      let y ← vecGet normals ((i + 1) % U32)
      let z ← vecGet normals ((i + 2) % U32)
      let rest ← normalLines normals fuel ((i + 3) % U32)
      pure (Line.vn x y z :: rest)
    else .ok []

/-- The body of the first loop over the geometries ("Write out the elements"). -/
def elementLines (fuel : Nat) (geometry : BMF_Geometry) : Except Fault (List Line) := do
  let ps ← positionLines geometry.positions fuel 0
  let us ← uvLines geometry.uvs fuel 0
  let ns ← normalLines geometry.normals fuel 0
  pure (ps ++ us ++ ns)

/-- The first loop over the geometries. -/
def elementPass (fuel : Nat) : List BMF_Geometry → Except Fault (List Line)
  | [] => .ok []
  | g :: gs => do
    let ls ← elementLines fuel g
    let rest ← elementPass fuel gs
    pure (ls ++ rest)

/-- The body of `for (uint32_t j = 0; j < 3; ++j)` for the corner `idx = i + j`. -/
def faceCorner (geometry : BMF_Geometry) (po uo no idx : Nat) : Corner :=
  { p := if idx < geometry.positions.length then (idx + po) % U32 else 0,
    u := if idx < geometry.uvs.length then (idx + uo) % U32 else 0,
    n := if idx < geometry.normals.length then (idx + no) % U32 else 0 }

/-- The loop over the triangles of one geometry, from the counter value `i` on. -/
def faceLines (geometry : BMF_Geometry) (po uo no : Nat) : Nat → Nat → Except Fault (List Line)
  | 0, i => if i < geometry.indices.length then .error .outOfFuel else .ok []
  | fuel + 1, i =>
    if i < geometry.indices.length then do
      let rest ← faceLines geometry po uo no fuel ((i + 3) % U32)
      pure (Line.f (faceCorner geometry po uo no ((i + 0) % U32))
                   (faceCorner geometry po uo no ((i + 1) % U32))
                   (faceCorner geometry po uo no ((i + 2) % U32)) :: rest)
    else .ok []

/-- The statement `po += geometry.positions.size() ? (uint32_t)geometry.indices.size() : 0`
(and the same for `uo`, `no`): `size` is the size of the attribute vector. -/
def advance (offset size : Nat) (geometry : BMF_Geometry) : Nat :=
  (offset + (if size ≠ 0 then geometry.indices.length % U32 else 0)) % U32

/-- The second loop over the geometries ("Write out the models"), entered with
the offsets `po`, `uo`, `no`. -/
def modelPass (fuel : Nat) : List BMF_Geometry → Nat → Nat → Nat → Except Fault (List Line)
  | [], _, _, _ => .ok []
  | g :: gs, po, uo, no => do
    let fs ← faceLines g po uo no fuel 0
    let rest ← modelPass fuel gs (advance po g.positions.length g)
      (advance uo g.uvs.length g) (advance no g.normals.length g)
    pure (Line.o g.name :: fs ++ rest)

/-- The function `ExportToOBJ`: the lines written to the file at `path`, in
order.  Each loop with a `uint32_t` counter may run `fuel` times. -/
def ExportToOBJ (fuel : Nat) (object : BMF_Object) : Except Fault (List Line) := do
  let elements ← elementPass fuel object.geometries
  let models ← modelPass fuel object.geometries 1 1 1
  pure (elements ++ models)

/-- The text of one field of a corner: `x ? std::to_string(x) : ""`. -/
def fieldText (x : Nat) : String := if x ≠ 0 then toString x else ""

/-- The text written for one corner: `" " + p + "/" + u + "/" + n`. -/
def cornerText (c : Corner) : String :=
  " " ++ fieldText c.p ++ "/" ++ fieldText c.u ++ "/" ++ fieldText c.n

/-- The text of a line; `fmt` is `std::to_string` on floats. -/
def lineText (fmt : Nat → String) : Line → String
  | .v x y z => "v " ++ fmt x ++ " " ++ fmt y ++ " " ++ fmt z ++ "\n"
  | .vt u v => "vt " ++ fmt u ++ " " ++ fmt v ++ "\n"
  | .vn x y z => "vn " ++ fmt x ++ " " ++ fmt y ++ " " ++ fmt z ++ "\n"
  | .o name => "o " ++ name ++ "\n"
  | .f a b c => "f" ++ cornerText a ++ cornerText b ++ cornerText c ++ "\n"

/-- The contents of the file written by `ExportToOBJ`. -/
def objText (fmt : Nat → String) (lines : List Line) : String :=
  String.join (lines.map (lineText fmt))

/-- The function `main` called with the input files `files` and an output
path (`argc >= 3`, so there is at least one input file; the branch that prints
the usage message is not part of the embedding): the lines of the output file,
when the run gets that far. -/
def main (fuel : Nat) (files : List (List Byte)) : Except Fault (List Line) := do
  let object ← files.foldlM Read {}
  ExportToOBJ fuel object

deriving instance DecidableEq for Except

/-! ## Reading the output of the exporter -/

/-- The data-model invariant of the specification for one geometry: one
position triple per corner, one pair of UVs and one normal per corner when
these are present, and a number of corners that is a multiple of 3. -/
abbrev DataModel (g : BMF_Geometry) : Prop :=
  g.positions.length = 3 * g.indices.length ∧
  (g.uvs ≠ [] → g.uvs.length = 2 * g.indices.length) ∧
  (g.normals ≠ [] → g.normals.length = 3 * g.indices.length) ∧
  g.indices.length % 3 = 0

/-- The number of corners of the geometries of a list. -/
def cornerCount (gs : List BMF_Geometry) : Nat :=
  (gs.map (fun g => g.indices.length)).sum

/-- The number of corners of the geometries before the `i`-th one in which the
attribute `attr` is not empty. -/
def cornersBefore (attr : BMF_Geometry → List Nat) (gs : List BMF_Geometry) (i : Nat) : Nat :=
  cornerCount ((gs.take i).filter (fun g => decide (attr g ≠ [])))

/-- A `v` line. -/
def Line.isV : Line → Bool
  | .v _ _ _ => true
  | _ => false

/-- A `vt` line. -/
def Line.isVT : Line → Bool
  | .vt _ _ => true
  | _ => false

/-- A `vn` line. -/
def Line.isVN : Line → Bool
  | .vn _ _ _ => true
  | _ => false

/-- An `f` line. -/
def Line.isF : Line → Bool
  | .f _ _ _ => true
  | _ => false

/-- The lines of an output that follow its `i`-th `o` line (counted from 0). -/
def afterObject : List Line → Nat → List Line
  | [], _ => []
  | .o _ :: ls, 0 => ls
  | .o _ :: ls, i + 1 => afterObject ls i
  | _ :: ls, i => afterObject ls i

/-- The `f` lines of the `i`-th object of an output: the `f` lines that follow
its `i`-th `o` line. -/
def faceBlock (out : List Line) (i : Nat) : List Line :=
  (afterObject out i).takeWhile Line.isF

/-- The corner with the local index `k` in the `f` lines of one object: the
corner `k % 3` of the line `k / 3`. -/
def cornerAt (fs : List Line) (k : Nat) : Option Corner :=
  match fs[k / 3]? with
  | some (.f a b c) => some (if k % 3 = 0 then a else if k % 3 = 1 then b else c)
  | _ => none

/-- The `v` lines for a vector of positions, one for every three floats. -/
def vLinesOf : List Nat → List Line
  | x :: y :: z :: rest => .v x y z :: vLinesOf rest
  | _ => []

/-- The `vt` lines for a vector of UVs, one for every two floats. -/
def vtLinesOf : List Nat → List Line
  | u :: v :: rest => .vt u v :: vtLinesOf rest
  | _ => []

/-- The `vn` lines for a vector of normals, one for every three floats. -/
def vnLinesOf : List Nat → List Line
  | x :: y :: z :: rest => .vn x y z :: vnLinesOf rest
  | _ => []

/-- The lines of one geometry in the first part of the output. -/
def elementsOf (g : BMF_Geometry) : List Line :=
  vLinesOf g.positions ++ vtLinesOf g.uvs ++ vnLinesOf g.normals

/-- The `f` lines of the triangles `t, t + 1, ..., t + count - 1` of a geometry
for the offsets `po`, `uo`, `no`. -/
def faceLinesOf (g : BMF_Geometry) (po uo no : Nat) : Nat → Nat → List Line
  | _, 0 => []
  | t, count + 1 =>
    .f (faceCorner g po uo no (3 * t)) (faceCorner g po uo no (3 * t + 1))
       (faceCorner g po uo no (3 * t + 2)) :: faceLinesOf g po uo no (t + 1) count

/-- The second part of the output for a list of geometries and the offsets
`po`, `uo`, `no` at its start. -/
def modelLinesOf : List BMF_Geometry → Nat → Nat → Nat → List Line
  | [], _, _, _ => []
  | g :: gs, po, uo, no =>
    .o g.name :: faceLinesOf g po uo no 0 (g.indices.length / 3) ++
      modelLinesOf gs (advance po g.positions.length g) (advance uo g.uvs.length g)
        (advance no g.normals.length g)

/-- What the loops of `ExportToOBJ` need in order to end without a fault
after at most `fuel` passes each: vectors of fewer than `2^32` elements, whose
lengths are multiples of the stride of their loop. -/
def Exportable (fuel : Nat) (g : BMF_Geometry) : Prop :=
  (g.positions.length % 3 = 0 ∧ g.positions.length < U32 ∧ g.positions.length / 3 ≤ fuel) ∧
  (g.uvs.length % 2 = 0 ∧ g.uvs.length < U32 ∧ g.uvs.length / 2 ≤ fuel) ∧
  (g.normals.length % 3 = 0 ∧ g.normals.length < U32 ∧ g.normals.length / 3 ≤ fuel) ∧
  (g.indices.length % 3 = 0 ∧ g.indices.length < U32 ∧ g.indices.length / 3 ≤ fuel)

/-- The value of an offset of `ExportToOBJ` (`po`, `uo` or `no`) when the
second loop comes to the `i`-th geometry; `size` is the size of the attribute
vector of a geometry and `offset` the value at the start of the list. -/
def offsetAt (size : BMF_Geometry → Nat) : List BMF_Geometry → Nat → Nat → Nat
  | [], offset, _ => offset
  | _ :: _, offset, 0 => offset
  | g :: gs, offset, i + 1 => offsetAt size gs (advance offset (size g) g) i

/-- A line that is not an `o` line. -/
def Line.notO : Line → Bool
  | .o _ => false
  | _ => true

/-! ## What a step of the reader depends on -/

/-- The step `R`, run from the state `st`, has returned `a` in the state `st'`
after reading exactly the bytes `c`: it does the same on every file that starts
with `c`, it fails an assertion on every file that stops inside `c`, and every
tag that it has recorded is a word of `c` which cannot be changed without
making the step fail an assertion. -/
structure Reads {α : Type} (R : Rd α) (st : Stream) (a : α) (st' : Stream)
    (c : List Byte) : Prop where
  rest : st.rest = c ++ st'.rest
  pos : st'.pos = st.pos + c.length
  same : ∀ t, R { rest := c ++ t, pos := st.pos, tags := st.tags } =
    .ok (a, { rest := t, pos := st'.pos, tags := st'.tags })
  short : ∀ m, m < c.length →
    R { rest := c.take m, pos := st.pos, tags := st.tags } = .error .assertFailed
  tag : ∀ q ∈ st'.tags, q ∈ st.tags ∨ ∃ pre w post, c = pre ++ w ++ post ∧ w.length = 4 ∧
    q = st.pos + pre.length ∧ ∀ w', w'.length = 4 → w' ≠ w → ∀ t,
      R { rest := pre ++ w' ++ post ++ t, pos := st.pos, tags := st.tags } =
        .error .assertFailed

/-- Every successful run of the step `R` reads at least `n` bytes and depends
on the bytes it reads only. -/
def Local {α : Type} (n : Nat) (R : Rd α) : Prop :=
  ∀ st a st', R st = .ok (a, st') → ∃ c, n ≤ c.length ∧ Reads R st a st' c

/-- The step `R` never reports that fuel was used up. -/
def NoFuelFault {α : Type} (R : Rd α) : Prop := ∀ st, R st ≠ .error .outOfFuel

/-! ## Concrete files -/

/-- The bytes of a mesh with a name block and neither UVs nor normals:
`HAS_MESH HAS_NAME length name GOT_NAME triangleCount indices GOT_INDICES GOT_MESH`. -/
def namedMesh (name : List Byte) (triangleCount : Nat) (indices : List Nat) : List Byte :=
  u32s [BMF_HAS_MESH, BMF_HAS_NAME, name.length] ++ name ++
    u32s ([BMF_GOT_NAME, triangleCount] ++ indices ++ [BMF_GOT_INDICES, BMF_GOT_MESH])

/-- The bytes `HAS_BMF HAS_POSITIONS count floats GOT_POSITIONS`. -/
def positionBlock (count : Nat) (floats : List Nat) : List Byte :=
  u32s ([BMF_HAS_BMF, BMF_HAS_POSITIONS, count] ++ floats ++ [BMF_GOT_POSITIONS])

/-- The name `Foo`. -/
def nameFoo : List Byte := [70, 111, 111]

/-- The name `Foo.2`. -/
def nameFoo2 : List Byte := [70, 111, 111, 46, 50]

/-- A pool of one vertex and one triangle whose first index is 1. -/
def fileIndexOne : List Byte :=
  positionBlock 1 [10, 11, 12] ++ namedMesh nameFoo 1 [1, 0, 0] ++ u32s [BMF_GOT_BMF]

/-- Three meshes named `Foo`, `Foo.2`, `Foo`. -/
def fileFooTwice : List Byte :=
  positionBlock 1 [10, 11, 12] ++ namedMesh nameFoo 1 [0, 0, 0] ++
    namedMesh nameFoo2 1 [0, 0, 0] ++ namedMesh nameFoo 1 [0, 0, 0] ++ u32s [BMF_GOT_BMF]

/-- Three meshes named `Foo.2`, `Foo`, `Foo`. -/
def fileFooClash : List Byte :=
  positionBlock 1 [10, 11, 12] ++ namedMesh nameFoo2 1 [0, 0, 0] ++
    namedMesh nameFoo 1 [0, 0, 0] ++ namedMesh nameFoo 1 [0, 0, 0] ++ u32s [BMF_GOT_BMF]

/-- A geometry named `Foo`. -/
def geometryFoo : BMF_Geometry :=
  { name := "Foo", indices := [0, 0, 0], positions := [10, 12, 11, 10, 12, 11, 10, 12, 11] }

/-- The file just after the tag `HAS_MESH` of a mesh named `Foo`, the last
mesh of the file. -/
def streamFoo : Stream :=
  { rest := (namedMesh nameFoo 1 [0, 0, 0]).drop 4 ++ u32s [BMF_GOT_BMF], pos := 0, tags := [] }

/-- The file of the scenario of the specification: three vertices and one
triangle named `Tri`. -/
def fileTri : List Byte :=
  positionBlock 3 [10, 11, 12, 20, 21, 22, 30, 31, 32] ++ namedMesh [84, 114, 105] 1 [0, 1, 2] ++
    u32s [BMF_GOT_BMF]

/-- The geometry that `Read` makes of `fileTri`. -/
def geometryTri : BMF_Geometry :=
  { name := "Tri", indices := [0, 1, 2], positions := [10, 12, 11, 20, 22, 21, 30, 32, 31] }

/-- The state of `Read` at the test of `while (d == BMF_HAS_MESH)`: the pool of
colours, the geometries of the object, the word `d` and the file. -/
structure LoopState where
  colors : List Nat
  geometries : List BMF_Geometry
  d : Nat
  file : Stream

/-- The loop `while (d == BMF_HAS_MESH)`, entered in the state `s`, comes to
its test in the state `s'` after some number of complete passes. -/
inductive LoopReaches (positions : List Nat) : LoopState → LoopState → Prop where
  | here (s : LoopState) : LoopReaches positions s s
  | pass (s s' : LoopState) (r : MeshResult) (st : Stream) :
      s.d = BMF_HAS_MESH →
      readMesh positions s.colors s.geometries s.file = .ok (r, st) →
      LoopReaches positions
        { colors := r.colors, geometries := s.geometries ++ [r.geometry], d := r.d, file := st }
        s' →
      LoopReaches positions s s'

/-- The run of `Read` on `file` comes to the body of the mesh loop in the
state `s` (the tag `HAS_MESH` has just been read); `positions` is the pool of
the file and `positionCount` its declared count. -/
def ReachesMesh (object : BMF_Object) (file : List Byte) (positions : List Nat)
    (s : LoopState) : Prop :=
  ∃ positionCount st1 c st2, readPositions (openFile file) = .ok ((positionCount, positions), st1) ∧
    readColors positionCount st1 = .ok (c, st2) ∧
    LoopReaches positions
      { colors := c.1, geometries := object.geometries, d := c.2, file := st2 } s ∧
    s.d = BMF_HAS_MESH

/-- The run of `Read` on `file` comes to a block of colours, of UVs or of
normals whose count word is not the value `required` that the assertion after
it asks for: `positionCount` for the colours, `required triangleCount` for the
UVs and the normals of a mesh. -/
inductive CountMismatch (required : Nat → Nat) (object : BMF_Object) (file : List Byte) : Prop where
  | colors (p : Nat × List Nat) (st1 st2 st3 : Stream) (count : Nat) :
      readPositions (openFile file) = .ok (p, st1) →
      GetUint32 st1 = .ok (BMF_HAS_COLORS, st2) →
      GetUint32 st2 = .ok (count, st3) →
      count ≠ p.1 →
      CountMismatch required object file
  | uvs (positions : List Nat) (s : LoopState) (h : MeshHead) (st1 st2 : Stream) (count : Nat) :
      ReachesMesh object file positions s →
      readMeshHead s.geometries s.file = .ok (h, st1) →
      h.d = BMF_HAS_UVS →
      GetUint32 st1 = .ok (count, st2) →
      count ≠ required h.triangleCount →
      CountMismatch required object file
  | normals (positions : List Nat) (s : LoopState) (h : MeshHead) (uv : List Nat × Nat)
      (st1 st2 st3 : Stream) (count : Nat) :
      ReachesMesh object file positions s →
      readMeshHead s.geometries s.file = .ok (h, st1) →
      readAttribute BMF_HAS_UVS BMF_GOT_UVS 2 h.triangleCount h.d st1 = .ok (uv, st2) →
      uv.2 = BMF_HAS_NORMALS →
      GetUint32 st2 = .ok (count, st3) →
      count ≠ required h.triangleCount →
      CountMismatch required object file

/-- One vertex and a mesh `Foo` with `triangleCount = 1431655766`, for which
`3 * triangleCount` is `2` in 32-bit arithmetic: two indices, and a block of
UVs with the count 2. -/
def fileWrap : List Byte :=
  positionBlock 1 [10, 11, 12] ++ u32s [BMF_HAS_MESH, BMF_HAS_NAME, 3] ++ nameFoo ++
    u32s [BMF_GOT_NAME, 1431655766, 0, 0, BMF_GOT_INDICES, BMF_HAS_UVS, 2, 1, 2, 3, 4,
      BMF_GOT_UVS, BMF_GOT_MESH, BMF_GOT_BMF]

/-- The geometry that `Read` makes of `fileWrap`. -/
def geometryWrap : BMF_Geometry :=
  { name := "Foo", indices := [0, 0], uvs := [1, 2, 3, 4],
    positions := [10, 12, 11, 10, 12, 11] }

/-- The state of the mesh loop of `fileWrap` at its only mesh. -/
def loopWrap : LoopState :=
  { colors := [], geometries := [], d := BMF_HAS_MESH,
    file := { rest := fileWrap.drop 32, pos := 32, tags := [0, 4, 24] } }

/-- One vertex and a mesh `Foo` of one triangle with a block of UVs whose count
is 2 instead of 3. -/
def fileShortUvs : List Byte :=
  positionBlock 1 [10, 11, 12] ++ u32s [BMF_HAS_MESH, BMF_HAS_NAME, 3] ++ nameFoo ++
    u32s [BMF_GOT_NAME, 1, 0, 0, 0, BMF_GOT_INDICES, BMF_HAS_UVS, 2, 1, 2, 3, 4,
      BMF_GOT_UVS, BMF_GOT_MESH, BMF_GOT_BMF]

/-- The state of the mesh loop of `fileShortUvs` at its only mesh. -/
def loopShortUvs : LoopState :=
  { colors := [], geometries := [], d := BMF_HAS_MESH,
    file := { rest := fileShortUvs.drop 32, pos := 32, tags := [0, 4, 24] } }

/-- The three floats that the loop "Process positions" stores for a corner
with the index `idx`: `positions[3 * idx + 0]`, `positions[3 * idx + 2]`,
`positions[3 * idx + 1]`, the products taken in 32-bit arithmetic. -/
def CornerOf (positions : List Nat) (idx : Nat) (out : List Nat) (k : Nat) : Prop :=
  ∃ x y z, positions[(3 * idx + 0) % U32]? = some x ∧
    positions[(3 * idx + 1) % U32]? = some y ∧ positions[(3 * idx + 2) % U32]? = some z ∧
    out[3 * k]? = some x ∧ out[3 * k + 1]? = some z ∧ out[3 * k + 2]? = some y

/-- One vertex in the file, a declared count of `2147483649` vertices, and a
triangle `Foo` with the indices `1431655766, 0, 0`. -/
def fileBig : List Byte :=
  positionBlock 2147483649 [10, 11, 12] ++ namedMesh nameFoo 1 [1431655766, 0, 0] ++
    u32s [BMF_GOT_BMF]

/-- The pool that `Read` makes of `fileBig`: `3 * 2147483649` is `2147483651` in
32-bit arithmetic, and the byte count `4 * 2147483651` passed to `GetData` is 12. -/
def poolBig : List Nat := [10, 11, 12] ++ List.replicate 2147483648 0

/-- The geometry that `Read` makes of `fileBig`. -/
def geometryBig : BMF_Geometry :=
  { name := "Foo", indices := [1431655766, 0, 0], positions := [12, 0, 0, 10, 12, 11, 10, 12, 11] }

/-- Three geometries of one triangle each: the first and the third have
normals, the second has none. -/
def objectThree : BMF_Object :=
  { geometries :=
      [{ name := "G1", indices := [0, 1, 2], positions := [1, 2, 3, 4, 5, 6, 7, 8, 9],
         normals := [1, 0, 0, 1, 0, 0, 1, 0, 0] },
       { name := "G2", indices := [0, 1, 2], positions := [1, 2, 3, 4, 5, 6, 7, 8, 9] },
       { name := "G3", indices := [0, 1, 2], positions := [1, 2, 3, 4, 5, 6, 7, 8, 9],
         normals := [0, 1, 0, 0, 1, 0, 0, 1, 0] }] }

/-- A geometry of `n` corners, all with the index 0 and the position
`(0, 0, 0)`, without UVs and normals. -/
def flatGeometry (n : Nat) : BMF_Geometry :=
  { name := "G", indices := List.replicate n 0, positions := List.replicate (3 * n) 0 }

/-- Four geometries of `1431655764` corners each: `3 * 1431655764` is below
`2^32`, the total number of corners is not. -/
def objectWrap : BMF_Object :=
  { geometries := [flatGeometry 1431655764, flatGeometry 1431655764, flatGeometry 1431655764,
      flatGeometry 1431655764] }

/-- One geometry of `1431655767` corners, which has `3 * 1431655767 = 2^32 + 5`
floats of positions. -/
def objectHuge : BMF_Object :=
  { geometries := [flatGeometry 1431655767] }

/-- Two geometries of one triangle each, both with UVs, the second with
normals. -/
def objectTwo : BMF_Object :=
  { geometries :=
      [{ name := "A", indices := [0, 1, 2], positions := [1, 2, 3, 4, 5, 6, 7, 8, 9],
         uvs := [1, 2, 3, 4, 5, 6] },
       { name := "B", indices := [0, 1, 2], positions := [9, 8, 7, 6, 5, 4, 3, 2, 1],
         uvs := [7, 8, 9, 10, 11, 12], normals := [0, 1, 0, 0, 1, 0, 0, 1, 0] }] }

/-- The run of `Read` on `file` comes to a look-ahead word `d` that is none of
the tags accepted at that point: after the positions or the colours, and after
a mesh, a word that is neither `HAS_MESH` nor `GOT_BMF`; in a mesh, after the
indices and the blocks of UVs and normals that the look-ahead words have
opened, a word that is not `GOT_MESH`. -/
inductive UnexpectedTag (object : BMF_Object) (file : List Byte) : Prop where
  | afterColors (p : Nat × List Nat) (st1 st2 : Stream) (c : List Nat × Nat) :
      readPositions (openFile file) = .ok (p, st1) →
      readColors p.1 st1 = .ok (c, st2) →
      c.2 ≠ BMF_HAS_MESH → c.2 ≠ BMF_GOT_BMF →
      UnexpectedTag object file
  | endOfMesh (positions : List Nat) (s : LoopState) (h : MeshHead) (uv nr : List Nat × Nat)
      (st1 st2 st3 : Stream) :
      ReachesMesh object file positions s →
      readMeshHead s.geometries s.file = .ok (h, st1) →
      readAttribute BMF_HAS_UVS BMF_GOT_UVS 2 h.triangleCount h.d st1 = .ok (uv, st2) →
      readAttribute BMF_HAS_NORMALS BMF_GOT_NORMALS 3 h.triangleCount uv.2 st2 = .ok (nr, st3) →
      nr.2 ≠ BMF_GOT_MESH →
      UnexpectedTag object file
  | afterMesh (positions : List Nat) (s : LoopState) (r : MeshResult) (st : Stream) :
      ReachesMesh object file positions s →
      readMesh positions s.colors s.geometries s.file = .ok (r, st) →
      r.d ≠ BMF_HAS_MESH → r.d ≠ BMF_GOT_BMF →
      UnexpectedTag object file

/-- The scenario file with the word 7 in the place of the tag `HAS_MESH`. -/
def fileSeven : List Byte :=
  fileTri.take 52 ++ u32 7 ++ fileTri.drop 56

/-- The passes of the loop `while (d == BMF_HAS_MESH)` from the state `s` to the
state `s'`, with the geometries that they push, in the order of the passes:
each pass reads one mesh where the pass before it stopped, and is given the
geometries of the object at that moment. -/
inductive LoopPushes (positions : List Nat) : LoopState → List BMF_Geometry → LoopState → Prop where
  | here (s : LoopState) : LoopPushes positions s [] s
  | pass (s s' : LoopState) (r : MeshResult) (st : Stream) (new : List BMF_Geometry) :
      s.d = BMF_HAS_MESH →
      readMesh positions s.colors s.geometries s.file = .ok (r, st) →
      LoopPushes positions
        { colors := r.colors, geometries := s.geometries ++ [r.geometry], d := r.d, file := st }
        new s' →
      LoopPushes positions s (r.geometry :: new) s'

/-- The run of `Read` on `file`, called with the geometries `geometries` in the
object, goes through the mesh loop until the word `GOT_BMF` and pushes the
geometries `new`, one for each mesh of the file and in the order of the file. -/
def Pushes (geometries : List BMF_Geometry) (file : List Byte) (new : List BMF_Geometry) : Prop :=
  ∃ positionCount positions st1 c st2 s',
    readPositions (openFile file) = .ok ((positionCount, positions), st1) ∧
    readColors positionCount st1 = .ok (c, st2) ∧
    LoopPushes positions { colors := c.1, geometries := geometries, d := c.2, file := st2 }
      new s' ∧
    s'.d = BMF_GOT_BMF ∧ s'.geometries = geometries ++ new

/-- The geometry that `Read` makes of `fileTri` when the object holds a
geometry named `Tri`. -/
def geometryTri1 : BMF_Geometry :=
  { name := "Tri.1", indices := [0, 1, 2], positions := [10, 12, 11, 20, 22, 21, 30, 32, 31] }

/-- The scenario file with a block of UVs and a block of normals in its mesh. -/
def fileTriFull : List Byte :=
  positionBlock 3 [10, 11, 12, 20, 21, 22, 30, 31, 32] ++
    u32s [BMF_HAS_MESH, BMF_HAS_NAME, 3] ++ [84, 114, 105] ++
    u32s [BMF_GOT_NAME, 1, 0, 1, 2, BMF_GOT_INDICES, BMF_HAS_UVS, 3, 1, 2, 3, 4, 5, 6,
      BMF_GOT_UVS, BMF_HAS_NORMALS, 3, 7, 8, 9, 7, 8, 9, 7, 8, 9, BMF_GOT_NORMALS,
      BMF_GOT_MESH, BMF_GOT_BMF]

/-- The geometry that `Read` makes of `fileTriFull`. -/
def geometryTriFull : BMF_Geometry :=
  { name := "Tri", indices := [0, 1, 2], uvs := [1, 2, 3, 4, 5, 6],
    normals := [7, 8, 9, 7, 8, 9, 7, 8, 9],
    positions := [10, 12, 11, 20, 22, 21, 30, 32, 31] }

/-- One vertex and a mesh `Foo` with `TriCount = 0`. -/
def fileNoTriangles : List Byte :=
  positionBlock 1 [10, 11, 12] ++ namedMesh nameFoo 0 [] ++ u32s [BMF_GOT_BMF]

/-- A block of positions with `Count = 0` and a mesh `Foo` with `TriCount = 0`. -/
def fileNoVertices : List Byte :=
  positionBlock 0 [] ++ namedMesh nameFoo 0 [] ++ u32s [BMF_GOT_BMF]

/-- A block of positions with `Count = 0` and no mesh. -/
def fileNoVerticesNoMesh : List Byte :=
  positionBlock 0 [] ++ u32s [BMF_GOT_BMF]

/-- One vertex and a mesh of one triangle whose name has the length 0. -/
def fileEmptyName : List Byte :=
  positionBlock 1 [10, 11, 12] ++ namedMesh [] 1 [0, 0, 0] ++ u32s [BMF_GOT_BMF]

/-- One vertex, a block of colours with one colour, and a mesh `Foo` of one
triangle. -/
def fileColors : List Byte :=
  positionBlock 1 [10, 11, 12] ++ u32s [BMF_HAS_COLORS, 1, 1, 2, 3, BMF_GOT_COLORS] ++
    namedMesh nameFoo 1 [0, 0, 0] ++ u32s [BMF_GOT_BMF]

/-- One vertex, a block of colours with one colour, and no mesh. -/
def fileColorsNoMesh : List Byte :=
  positionBlock 1 [10, 11, 12] ++ u32s [BMF_HAS_COLORS, 1, 1, 2, 3, BMF_GOT_COLORS] ++
    u32s [BMF_GOT_BMF]

/-- A pool of two vertices and a triangle `Foo` whose last index is 2. -/
def fileIndexTwo : List Byte :=
  positionBlock 2 [10, 11, 12, 20, 21, 22] ++ namedMesh nameFoo 1 [0, 1, 2] ++
    u32s [BMF_GOT_BMF]

/-- One vertex and a mesh `Foo` with `triangleCount = 715827883`, that is,
`2147483649` corners: the byte count `4 * 2147483649` of the indices is 4 in
32-bit arithmetic, so one index is read from the file; the block of UVs has
the count `2147483649`, and `2 * 2147483649` is 2 in 32-bit arithmetic, so two
floats are read. -/
def fileManyCorners : List Byte :=
  positionBlock 1 [10, 11, 12] ++ u32s [BMF_HAS_MESH, BMF_HAS_NAME, 3] ++ nameFoo ++
    u32s [BMF_GOT_NAME, 715827883, 0, BMF_GOT_INDICES, BMF_HAS_UVS, 2147483649, 1, 2,
      BMF_GOT_UVS, BMF_GOT_MESH, BMF_GOT_BMF]

/-- The mesh that `Read` reads from `fileManyCorners`. -/
def meshManyCorners : MeshData :=
  { name := "Foo", triangleCount := 715827883, indices := [0] ++ List.replicate 2147483648 0,
    uvs := [1, 2], normals := [], d := BMF_GOT_BMF }

/-- The geometry that `Read` makes of `fileManyCorners`, with the positions
`positions`. -/
def geometryManyCorners (positions : List Nat) : BMF_Geometry :=
  { name := "Foo", indices := [0] ++ List.replicate 2147483648 0, uvs := [1, 2],
    positions := positions }

/-- A file of the grammar of the specification with exactly one mesh, which has
a name block and neither UVs nor normals, and without a block of colours. -/
def singleMeshFile (positionCount : Nat) (floats : List Nat) (name : List Byte)
    (triangleCount : Nat) (indices : List Nat) : List Byte :=
  positionBlock positionCount floats ++ namedMesh name triangleCount indices ++
    u32s [BMF_GOT_BMF]

/-- The conditions of the grammar of the specification on the parts of a file
with one mesh: the counts are 32-bit values, the pool has three floats for each
vertex, the mesh three indices for each triangle, and every index names a
vertex of the pool. -/
abbrev ValidSingleMesh (positionCount : Nat) (floats : List Nat) (name : List Byte)
    (triangleCount : Nat) (indices : List Nat) : Prop :=
  positionCount < U32 ∧ floats.length = 3 * positionCount ∧ (∀ x ∈ floats, x < U32) ∧
  name.length < U32 ∧ triangleCount < U32 ∧ indices.length = 3 * triangleCount ∧
  ∀ idx ∈ indices, idx < positionCount

/-- The `v` line that the specification asks for a corner with the index
`idx`: the vertex `idx` of the pool `floats` with its second and third
component exchanged. -/
def specVertexLine (floats : List Nat) (idx : Nat) : Line :=
  .v (floats.getD (3 * idx) 0) (floats.getD (3 * idx + 2) 0) (floats.getD (3 * idx + 1) 0)

/-- The `f` line that the specification asks for the triangle `t` of the only
mesh of a file without UVs and normals: `f a// b// c//` with `a = 3t+1`,
`b = 3t+2`, `c = 3t+3`. -/
def specFaceLine (t : Nat) : Line :=
  .f { p := 3 * t + 1, u := 0, n := 0 } { p := 3 * t + 2, u := 0, n := 0 }
    { p := 3 * t + 3, u := 0, n := 0 }

/-- The output that the specification asks for a file with one mesh and
positions only: one `v` line for each corner, the `o` line, one `f` line for
each triangle. -/
def specLines (floats : List Nat) (name : List Byte) (triangleCount : Nat)
    (indices : List Nat) : List Line :=
  indices.map (specVertexLine floats) ++ [.o (String.mk (name.map byteChar))] ++
    (List.range triangleCount).map specFaceLine

/-- A file of the grammar with one vertex and one mesh `Foo` of `357913942`
triangles, all with the indices `0, 0, 0`: the mesh has `1073741826` indices,
`4294967304` bytes. -/
def fileGiant : List Byte :=
  singleMeshFile 1 [10, 11, 12] nameFoo 357913942 (List.replicate 1073741826 0)

/-- The run of `Read` on `file` comes to an array (the positions, the colours,
the indices, UVs or normals of a mesh) or to the name of a mesh, for which
fewer bytes are left in the file than are needed: `need width count` bytes for
an array with the count word `count` and `width` elements for each unit of the
count, and `n` bytes for a name of the length `n`. -/
inductive ShortPayload (need : Nat → Nat → Nat) (object : BMF_Object) (file : List Byte) : Prop where
  | positions (st1 st2 st3 : Stream) (positionCount : Nat) :
      GetTag BMF_HAS_BMF (openFile file) = .ok ((), st1) →
      GetTag BMF_HAS_POSITIONS st1 = .ok ((), st2) →
      GetUint32 st2 = .ok (positionCount, st3) →
      st3.rest.length < need 3 positionCount →
      ShortPayload need object file
  | colors (p : Nat × List Nat) (st1 st2 st3 : Stream) (count : Nat) :
      readPositions (openFile file) = .ok (p, st1) →
      GetUint32 st1 = .ok (BMF_HAS_COLORS, st2) →
      GetUint32 st2 = .ok (count, st3) →
      st3.rest.length < need 3 count →
      ShortPayload need object file
  | name (positions : List Nat) (s : LoopState) (st1 st2 : Stream) (n : Nat) :
      ReachesMesh object file positions s →
      GetUint32 s.file = .ok (BMF_HAS_NAME, st1) →
      GetUint32 st1 = .ok (n, st2) →
      st2.rest.length < n →
      ShortPayload need object file
  | indices (positions : List Nat) (s : LoopState) (name : String) (st1 st2 : Stream)
      (triangleCount : Nat) :
      ReachesMesh object file positions s →
      readName s.geometries s.file = .ok (name, st1) →
      GetUint32 st1 = .ok (triangleCount, st2) →
      st2.rest.length < need 3 triangleCount →
      ShortPayload need object file
  | uvs (positions : List Nat) (s : LoopState) (h : MeshHead) (st1 st2 : Stream) (count : Nat) :
      ReachesMesh object file positions s →
      readMeshHead s.geometries s.file = .ok (h, st1) →
      h.d = BMF_HAS_UVS →
      GetUint32 st1 = .ok (count, st2) →
      st2.rest.length < need 2 count →
      ShortPayload need object file
  | normals (positions : List Nat) (s : LoopState) (h : MeshHead) (uv : List Nat × Nat)
      (st1 st2 st3 : Stream) (count : Nat) :
      ReachesMesh object file positions s →
      readMeshHead s.geometries s.file = .ok (h, st1) →
      readAttribute BMF_HAS_UVS BMF_GOT_UVS 2 h.triangleCount h.d st1 = .ok (uv, st2) →
      uv.2 = BMF_HAS_NORMALS →
      GetUint32 st2 = .ok (count, st3) →
      st3.rest.length < need 3 count →
      ShortPayload need object file

/-- The state of the mesh loop of the first 80 bytes of `fileTri` at its only
mesh. -/
def loopTriCut : LoopState :=
  { colors := [], geometries := [], d := BMF_HAS_MESH,
    file := { rest := (fileTri.take 80).drop 56, pos := 56, tags := [0, 4, 48] } }

/-- The lines of a text: the sequences of characters that end with a line
break, without the line break (what follows the last line break is not a
line). -/
def linesOf (cs : List Char) : List (List Char) :=
  cs.foldr (fun c acc =>
    if c = '\n' then [] :: acc
    else match acc with
      | [] => []
      | l :: ls => (c :: l) :: ls) []

/-- The lines of the text of a file. -/
def textLines (s : String) : List String := (linesOf s.data).map String.mk

/-- The text that the specification asks for the `v` line of a corner with
the index `idx`; `fmt` prints a float. -/
def specVertexText (fmt : Nat → String) (floats : List Nat) (idx : Nat) : String :=
  "v " ++ fmt (floats.getD (3 * idx) 0) ++ " " ++ fmt (floats.getD (3 * idx + 2) 0) ++ " " ++
    fmt (floats.getD (3 * idx + 1) 0)

/-- The text that the specification asks for the `f` line of the triangle
`t`: `f a// b// c//` with `a = 3t+1`, `b = 3t+2`, `c = 3t+3`. -/
def specFaceText (t : Nat) : String :=
  "f " ++ toString (3 * t + 1) ++ "// " ++ toString (3 * t + 2) ++ "// " ++
    toString (3 * t + 3) ++ "//"

/-- The lines of the output file that the specification asks for a file with
one mesh and positions only. -/
def specText (fmt : Nat → String) (floats : List Nat) (name : List Byte) (triangleCount : Nat)
    (indices : List Nat) : List String :=
  indices.map (specVertexText fmt floats) ++ ["o " ++ String.mk (name.map byteChar)] ++
    (List.range triangleCount).map specFaceText

/-- The bytes of a name with a line break in it: `x`, a line break, `vn 0 0 1`. -/
def nameBreak : List Byte := [120, 10, 118, 110, 32, 48, 32, 48, 32, 49]

/-- A file of the grammar with one vertex and one mesh of one triangle whose
name is `nameBreak`. -/
def fileBreak : List Byte := singleMeshFile 1 [10, 11, 12] nameBreak 1 [0, 0, 0]

/-! ## Theorems -/

/-! ### Steps of the reader -/

theorem Rd.bind_apply {α β : Type} (x : Rd α) (f : α → Rd β) (st : Stream) :
    (x >>= f) st = match x st with
      | .ok (a, st') => f a st'
      | .error e => .error e := rfl

theorem Rd.pure_apply {α : Type} (a : α) (st : Stream) :
    (pure a : Rd α) st = .ok (a, st) := rfl

theorem Rd.bind_ok {α β : Type} {x : Rd α} {f : α → Rd β} {st st' : Stream} {b : β} :
    (x >>= f) st = .ok (b, st') ↔ ∃ a st1, x st = .ok (a, st1) ∧ f a st1 = .ok (b, st') := by
  rw [Rd.bind_apply]
  constructor
  · intro h
    split at h
    · next a st1 hx => exact ⟨a, st1, hx, h⟩
    · cases h
  · rintro ⟨a, st1, hx, hf⟩
    rw [hx]
    exact hf

theorem Rd.lift_ok {α : Type} {x : Except Fault α} {st st' : Stream} {a : α} :
    Rd.lift x st = .ok (a, st') ↔ x = .ok a ∧ st' = st := by
  unfold Rd.lift
  cases x with
  | ok v => simp [eq_comm]
  | error e => simp

theorem Rd.pure_ok {α : Type} {a b : α} {st st' : Stream} :
    (pure a : Rd α) st = .ok (b, st') ↔ b = a ∧ st' = st := by
  rw [Rd.pure_apply]
  simp [eq_comm]

/-! ### Names -/

theorem resolveName_of_fresh (n : Nat) (gs : List BMF_Geometry) (name : String)
    (h : ∀ g ∈ gs, g.name ≠ name) : resolveName n gs name = name := by
  induction gs with
  | nil => rfl
  | cons g gs ih =>
    have hg : g.name ≠ name := h g (List.mem_cons_self _ _)
    simp only [resolveName, if_neg hg]
    exact ih (fun g' hg' => h g' (List.mem_cons_of_mem _ hg'))

theorem resolveName_of_taken (n : Nat) (gs : List BMF_Geometry) (name : String)
    (h : ∃ g ∈ gs, g.name = name)
    (h' : ∀ g ∈ gs, g.name ≠ name ++ "." ++ toString n) :
    resolveName n gs name = name ++ "." ++ toString n := by
  induction gs with
  | nil => simp at h
  | cons g gs ih =>
    by_cases hg : g.name = name
    · simp only [resolveName, if_pos hg]
      exact resolveName_of_fresh n gs _ (fun g' hg' => h' g' (List.mem_cons_of_mem _ hg'))
    · simp only [resolveName, if_neg hg]
      apply ih
      · obtain ⟨g', hg', hn⟩ := h
        rcases List.mem_cons.1 hg' with rfl | hm
        · exact absurd hn hg
        · exact ⟨g', hm, hn⟩
      · exact fun g' hg' => h' g' (List.mem_cons_of_mem _ hg')

theorem processMesh_ok {positions colors : List Nat} {m : MeshData} {r : MeshResult}
    (h : processMesh positions colors m = .ok r) :
    ∃ ps cs, processPositions positions m.indices = .ok ps ∧
      processColors colors m.indices = .ok cs ∧
      r = { geometry := { name := m.name, indices := m.indices, uvs := m.uvs,
                          normals := m.normals, positions := ps, colors := cs.2 },
            colors := cs.1, d := m.d } := by
  unfold processMesh at h
  cases h1 : AssertEq (m.indices.length % U32) (3 * m.triangleCount % U32) with
  | error e => simp [h1, bind, Except.bind] at h
  | ok u =>
    cases h2 : processPositions positions m.indices with
    | error e => simp [h1, h2, bind, Except.bind] at h
    | ok ps =>
      cases h3 : processColors colors m.indices with
      | error e => simp [h1, h2, h3, bind, Except.bind] at h
      | ok cs =>
        simp [h1, h2, h3, bind, Except.bind, pure, Except.pure] at h
        exact ⟨ps, cs, rfl, rfl, h.symm⟩

theorem readMesh_ok {positions colors : List Nat} {gs : List BMF_Geometry} {st st' : Stream}
    {r : MeshResult} (h : readMesh positions colors gs st = .ok (r, st')) :
    ∃ m, readMeshData gs st = .ok (m, st') ∧ processMesh positions colors m = .ok r := by
  unfold readMesh at h
  obtain ⟨m, st1, hm, hp⟩ := Rd.bind_ok.1 h
  obtain ⟨hq, rfl⟩ := Rd.lift_ok.1 hp
  exact ⟨m, hm, hq⟩

theorem readMeshData_ok {gs : List BMF_Geometry} {st st' : Stream} {m : MeshData}
    (h : readMeshData gs st = .ok (m, st')) :
    ∃ hd s1 uv s2 nr s3, readMeshHead gs st = .ok (hd, s1) ∧
      readAttribute BMF_HAS_UVS BMF_GOT_UVS 2 hd.triangleCount hd.d s1 = .ok (uv, s2) ∧
      readAttribute BMF_HAS_NORMALS BMF_GOT_NORMALS 3 hd.triangleCount uv.2 s2 = .ok (nr, s3) ∧
      nr.2 = BMF_GOT_MESH ∧ GetUint32 s3 = .ok (m.d, st') ∧
      m = { name := hd.name, triangleCount := hd.triangleCount, indices := hd.indices,
            uvs := uv.1, normals := nr.1, d := m.d } := by
  unfold readMeshData at h
  obtain ⟨hd, s1, hh, h⟩ := Rd.bind_ok.1 h
  obtain ⟨uv, s2, hu, h⟩ := Rd.bind_ok.1 h
  obtain ⟨nr, s3, hn, h⟩ := Rd.bind_ok.1 h
  obtain ⟨_, s4, ha, h⟩ := Rd.bind_ok.1 h
  obtain ⟨d, s5, hd', h⟩ := Rd.bind_ok.1 h
  obtain ⟨rfl, rfl⟩ := Rd.pure_ok.1 h
  obtain ⟨ha, hs⟩ := Rd.lift_ok.1 ha
  rw [hs] at hd'
  refine ⟨hd, s1, uv, s2, nr, s3, hh, hu, hn, ?_, hd', rfl⟩
  unfold AssertEq at ha
  by_contra hne
  rw [if_neg hne] at ha
  cases ha

theorem readMeshHead_ok {gs : List BMF_Geometry} {st st' : Stream} {hd : MeshHead}
    (h : readMeshHead gs st = .ok (hd, st')) :
    ∃ s1 s2 s3 s4, readName gs st = .ok (hd.name, s1) ∧
      GetUint32 s1 = .ok (hd.triangleCount, s2) ∧
      GetUint32Array ((3 * hd.triangleCount) % U32) s2 = .ok (hd.indices, s3) ∧
      GetTag BMF_GOT_INDICES s3 = .ok ((), s4) ∧ GetUint32 s4 = .ok (hd.d, st') := by
  unfold readMeshHead at h
  obtain ⟨name, s1, hn, h⟩ := Rd.bind_ok.1 h
  obtain ⟨tc, s2, ht, h⟩ := Rd.bind_ok.1 h
  obtain ⟨ix, s3, hi, h⟩ := Rd.bind_ok.1 h
  obtain ⟨_, s4, hg, h⟩ := Rd.bind_ok.1 h
  obtain ⟨d, s5, hd', h⟩ := Rd.bind_ok.1 h
  obtain ⟨rfl, rfl⟩ := Rd.pure_ok.1 h
  exact ⟨s1, s2, s3, s4, hn, ht, hi, hg, hd'⟩

theorem readMeshData_name {gs : List BMF_Geometry} {st st' : Stream} {m : MeshData}
    (h : readMeshData gs st = .ok (m, st')) :
    ∃ st1, readName gs st = .ok (m.name, st1) := by
  obtain ⟨hd, s1, uv, s2, nr, s3, hh, _, _, _, _, hm⟩ := readMeshData_ok h
  obtain ⟨t1, _, _, _, hn, _⟩ := readMeshHead_ok hh
  rw [hm]
  exact ⟨t1, hn⟩

theorem readName_named {gs : List BMF_Geometry} {st st1 st2 st' : Stream} {name N : String}
    (h : readName gs st = .ok (name, st'))
    (h1 : GetUint32 st = .ok (BMF_HAS_NAME, st1)) (h2 : GetString st1 = .ok (N, st2)) :
    name = resolveName gs.length gs N := by
  unfold readName at h
  obtain ⟨d, s1, hd, h⟩ := Rd.bind_ok.1 h
  rw [h1] at hd
  cases hd
  rw [if_pos rfl] at h
  obtain ⟨N', s2, hN, h⟩ := Rd.bind_ok.1 h
  rw [h2] at hN
  cases hN
  obtain ⟨_, s3, _, h⟩ := Rd.bind_ok.1 h
  exact (Rd.pure_ok.1 h).1

/-! ### What a step reads -/

theorem Local.mono {α : Type} {n m : Nat} {R : Rd α} (h : Local n R) (hm : m ≤ n) :
    Local m R := by
  intro st a st' hR
  obtain ⟨c, hc, hr⟩ := h st a st' hR
  exact ⟨c, le_trans hm hc, hr⟩

theorem Local.length_le {α : Type} {n : Nat} {R : Rd α} (h : Local n R) {st st' : Stream}
    {a : α} (hR : R st = .ok (a, st')) : st'.rest.length + n ≤ st.rest.length := by
  obtain ⟨c, hc, hr⟩ := h st a st' hR
  rw [hr.rest, List.length_append]
  omega

theorem Local.pure {α : Type} (a : α) : Local 0 (pure a : Rd α) := by
  intro st b st' h
  obtain ⟨rfl, rfl⟩ := Rd.pure_ok.1 h
  refine ⟨[], le_refl _, ⟨rfl, rfl, fun t => rfl, fun m hm => ?_, fun q hq => Or.inl hq⟩⟩
  simp at hm

theorem Local.lift {α : Type} (x : Except Fault α) : Local 0 (Rd.lift x) := by
  intro st b st' h
  obtain ⟨rfl, rfl⟩ := Rd.lift_ok.1 h
  refine ⟨[], le_refl _, ⟨rfl, rfl, fun t => rfl, fun m hm => ?_, fun q hq => Or.inl hq⟩⟩
  simp at hm

theorem Local.fail {α : Type} (e : Fault) : Local 0 (Rd.fail e : Rd α) := by
  intro st b st' h
  cases h

theorem Local.bind {α β : Type} {n m : Nat} {x : Rd α} {f : α → Rd β}
    (hx : Local n x) (hf : ∀ a, Local m (f a)) : Local (n + m) (x >>= f) := by
  intro st b st2 h
  obtain ⟨a, st1, h1, h2⟩ := Rd.bind_ok.1 h
  obtain ⟨c1, hn, r1⟩ := hx st a st1 h1
  obtain ⟨c2, hm, r2⟩ := hf a st1 b st2 h2
  refine ⟨c1 ++ c2, by rw [List.length_append]; omega, ⟨?_, ?_, ?_, ?_, ?_⟩⟩
  · rw [r1.rest, r2.rest, List.append_assoc]
  · rw [r2.pos, r1.pos, List.length_append, Nat.add_assoc]
  · intro t
    rw [Rd.bind_apply, List.append_assoc, r1.same (c2 ++ t)]
    exact r2.same t
  · intro k hk
    rw [List.length_append] at hk
    rw [Rd.bind_apply, List.take_append_eq_append_take]
    by_cases hlt : k < c1.length
    · have h0 : k - c1.length = 0 := by omega
      rw [h0, List.take_zero, List.append_nil, r1.short k hlt]
    · have hge : c1.length ≤ k := by omega
      rw [List.take_of_length_le hge, r1.same (c2.take (k - c1.length))]
      exact r2.short _ (by omega)
  · intro q hq
    rcases r2.tag q hq with hq1 | ⟨pre, w, post, hc, hw, hqe, hs⟩
    · rcases r1.tag q hq1 with hq0 | ⟨pre, w, post, hc, hw, hqe, hs⟩
      · exact Or.inl hq0
      · refine Or.inr ⟨pre, w, post ++ c2, ?_, hw, hqe, ?_⟩
        · rw [hc]; simp only [List.append_assoc]
        · intro w' hw' hne t
          have := hs w' hw' hne (c2 ++ t)
          rw [Rd.bind_apply]
          simp only [List.append_assoc] at this ⊢
          rw [this]
    · refine Or.inr ⟨c1 ++ pre, w, post, ?_, hw, ?_, ?_⟩
      · rw [hc]; simp only [List.append_assoc]
      · rw [hqe, r1.pos, List.length_append, Nat.add_assoc]
      · intro w' hw' hne t
        have h3 := r1.same (pre ++ w' ++ post ++ t)
        have h4 := hs w' hw' hne t
        rw [Rd.bind_apply]
        simp only [List.append_assoc] at h3 h4 ⊢
        rw [h3]
        exact h4

theorem Local.ite {α : Type} {n : Nat} {p : Prop} [Decidable p] {x y : Rd α}
    (hx : Local n x) (hy : Local n y) : Local n (if p then x else y) := by
  split
  · exact hx
  · exact hy


theorem leValue_inj : ∀ (w w' : List Byte), w.length = w'.length → leValue w = leValue w' →
    w = w'
  | [], [], _, _ => rfl
  | [], _ :: _, h, _ => by simp at h
  | _ :: _, [], h, _ => by simp at h
  | b :: bs, b' :: bs', h, hv => by
    simp only [leValue] at hv
    have hb := b.isLt
    have hb' := b'.isLt
    have h1 : b.val = b'.val := by omega
    have h2 : leValue bs = leValue bs' := by omega
    have hl : bs.length = bs'.length := by simpa using h
    rw [Fin.ext h1, leValue_inj bs bs' hl h2]

theorem GetData_ok {size : Nat} {st st' : Stream} {bs : List Byte}
    (h : GetData size st = .ok (bs, st')) :
    size ≠ 0 ∧ size ≤ st.rest.length ∧ bs = st.rest.take size ∧
      st' = { rest := st.rest.drop size, pos := st.pos + size, tags := st.tags } := by
  unfold GetData at h
  split at h
  · cases h
  · split at h
    · next h0 hle =>
      simp only [Except.ok.injEq, Prod.mk.injEq] at h
      exact ⟨h0, hle, h.1.symm, h.2.symm⟩
    · cases h

theorem GetData_local (size : Nat) : Local size (GetData size) := by
  intro st bs st' h
  obtain ⟨h0, hle, rfl, rfl⟩ := GetData_ok h
  have hlen : (st.rest.take size).length = size := by
    rw [List.length_take]; omega
  refine ⟨st.rest.take size, by omega, ⟨?_, ?_, ?_, ?_, fun q hq => Or.inl hq⟩⟩
  · exact (List.take_append_drop size st.rest).symm
  · show st.pos + size = st.pos + (st.rest.take size).length
    rw [hlen]
  · intro t
    unfold GetData
    have hle' : size ≤ (List.take size st.rest ++ t).length := by
      rw [List.length_append]; omega
    simp only [if_neg h0, if_pos hle']
    have e1 : List.take size (List.take size st.rest ++ t) = List.take size st.rest := by
      rw [List.take_append_of_le_length (by omega), List.take_take, min_self]
    have e2 : List.drop size (List.take size st.rest ++ t) = t := by
      rw [List.drop_append_of_le_length (by omega), List.drop_of_length_le (by omega),
        List.nil_append]
    rw [e1, e2]
  · intro m hm
    unfold GetData
    have hnle : ¬ size ≤ (List.take m (List.take size st.rest)).length := by
      rw [List.length_take]; omega
    simp only [if_neg h0, if_neg hnle]

theorem GetUint32_local : Local 4 GetUint32 := by
  unfold GetUint32
  exact Local.bind (GetData_local 4) (fun bs => Local.pure _)

theorem GetUint32Array_local (size : Nat) : Local 0 (GetUint32Array size) := by
  unfold GetUint32Array
  exact (Local.bind (GetData_local _) (fun bs => Local.pure _)).mono (Nat.zero_le _)

theorem GetFloat32Array_local (size : Nat) : Local 0 (GetFloat32Array size) :=
  GetUint32Array_local size

theorem GetString_local : Local 4 GetString := by
  unfold GetString
  exact Local.bind GetUint32_local (fun n =>
    (Local.bind (GetData_local n) (fun bs => Local.pure _)).mono (Nat.zero_le _))

theorem GetUint32_ok {st st' : Stream} {v : Nat} (h : GetUint32 st = .ok (v, st')) :
    4 ≤ st.rest.length ∧ v = leValue (st.rest.take 4) ∧
      st' = { rest := st.rest.drop 4, pos := st.pos + 4, tags := st.tags } := by
  unfold GetUint32 at h
  obtain ⟨bs, st1, h1, h2⟩ := Rd.bind_ok.1 h
  obtain ⟨_, hle, rfl, rfl⟩ := GetData_ok h1
  obtain ⟨rfl, rfl⟩ := Rd.pure_ok.1 h2
  exact ⟨hle, rfl, rfl⟩

theorem GetUint32_of_length {st : Stream} (h : 4 ≤ st.rest.length) :
    GetUint32 st = .ok (leValue (st.rest.take 4),
      { rest := st.rest.drop 4, pos := st.pos + 4, tags := st.tags }) := by
  unfold GetUint32
  rw [Rd.bind_apply]
  unfold GetData
  simp only [if_pos h]
  rfl

theorem GetUint32_short {st : Stream} (h : st.rest.length < 4) :
    GetUint32 st = .error .assertFailed := by
  unfold GetUint32
  rw [Rd.bind_apply]
  unfold GetData
  have : ¬ 4 ≤ st.rest.length := by omega
  simp only [if_neg this]
  rfl

theorem GetTag_local (tag : Nat) : Local 4 (GetTag tag) := by
  intro st u st' h
  unfold GetTag at h
  split at h
  · next v st1 hv =>
    split at h
    · next hvt =>
      obtain ⟨hle, rfl, rfl⟩ := GetUint32_ok hv
      simp only [Except.ok.injEq, Prod.mk.injEq] at h
      obtain ⟨_, rfl⟩ := h
      have hlen : (st.rest.take 4).length = 4 := by
        rw [List.length_take]; omega
      refine ⟨st.rest.take 4, by omega, ⟨?_, ?_, ?_, ?_, ?_⟩⟩
      · exact (List.take_append_drop 4 st.rest).symm
      · show st.pos + 4 = st.pos + (st.rest.take 4).length
        rw [hlen]
      · intro t
        have hle' : 4 ≤ (List.take 4 st.rest ++ t).length := by
          rw [List.length_append]; omega
        have e1 : List.take 4 (List.take 4 st.rest ++ t) = List.take 4 st.rest := by
          rw [List.take_append_of_le_length (by omega), List.take_take, min_self]
        have e2 : List.drop 4 (List.take 4 st.rest ++ t) = t := by
          rw [List.drop_append_of_le_length (by omega), List.drop_of_length_le (by omega),
            List.nil_append]
        unfold GetTag
        rw [GetUint32_of_length (by exact hle')]
        simp only [e1, e2, if_pos hvt]
      · intro m hm
        unfold GetTag
        rw [GetUint32_short (by
          show (List.take m (List.take 4 st.rest)).length < 4
          rw [List.length_take]; omega)]
      · intro q hq
        rcases List.mem_append.1 hq with hq | hq
        · exact Or.inl hq
        · refine Or.inr ⟨[], st.rest.take 4, [], by simp, hlen, ?_, ?_⟩
          · simpa using hq
          · intro w' hw' hne t
            have hle' : 4 ≤ ([] ++ w' ++ [] ++ t).length := by
              simp only [List.length_append, List.nil_append, List.append_nil]; omega
            have e1 : List.take 4 ([] ++ w' ++ [] ++ t) = w' := by
              simp only [List.nil_append, List.append_nil]
              rw [List.take_append_of_le_length (by omega), List.take_of_length_le (by omega)]
            unfold GetTag
            rw [GetUint32_of_length (by exact hle')]
            have hv' : leValue (List.take 4 ([] ++ w' ++ [] ++ t)) ≠ tag := by
              rw [e1, ← hvt]
              intro he
              exact hne (leValue_inj _ _ (by rw [hw', hlen]) he)
            simp only [if_neg hv']
    · cases h
  · cases h

/-! ### The steps of `Read` are local -/

theorem readName_local (gs : List BMF_Geometry) : Local 4 (readName gs) := by
  unfold readName
  refine Local.bind GetUint32_local (fun d => Local.ite ?_ (Local.pure _))
  exact (Local.bind GetString_local (fun name =>
    Local.bind (GetTag_local _) (fun _ => Local.pure _))).mono (Nat.zero_le _)

theorem readAttribute_local (has got width triangleCount d : Nat) :
    Local 0 (readAttribute has got width triangleCount d) := by
  unfold readAttribute
  refine Local.ite ?_ (Local.pure _)
  exact (Local.bind GetUint32_local (fun count =>
    Local.bind (Local.lift _) (fun _ =>
      Local.bind (GetFloat32Array_local _) (fun data =>
        Local.bind (GetTag_local _) (fun _ =>
          Local.bind GetUint32_local (fun d => Local.pure _)))))).mono (Nat.zero_le _)

theorem readMeshHead_local (gs : List BMF_Geometry) : Local 4 (readMeshHead gs) := by
  unfold readMeshHead
  exact (Local.bind (readName_local gs) (fun name =>
    Local.bind GetUint32_local (fun triangleCount =>
      Local.bind (GetUint32Array_local _) (fun indices =>
        Local.bind (GetTag_local _) (fun _ =>
          Local.bind GetUint32_local (fun d => Local.pure _)))))).mono (by omega)

theorem readMeshData_local (gs : List BMF_Geometry) : Local 4 (readMeshData gs) := by
  unfold readMeshData
  exact (Local.bind (readMeshHead_local gs) (fun h =>
    Local.bind (readAttribute_local _ _ _ _ _) (fun uv =>
      Local.bind (readAttribute_local _ _ _ _ _) (fun nr =>
        Local.bind (Local.lift _) (fun _ =>
          Local.bind GetUint32_local (fun d => Local.pure _)))))).mono (by omega)

theorem readMesh_local (positions colors : List Nat) (gs : List BMF_Geometry) :
    Local 4 (readMesh positions colors gs) := by
  unfold readMesh
  exact Local.bind (readMeshData_local gs) (fun m => Local.lift _)

theorem meshLoop_local (positions : List Nat) :
    ∀ (fuel : Nat) (colors : List Nat) (gs : List BMF_Geometry) (d : Nat),
      Local 0 (meshLoop positions fuel colors gs d)
  | 0, colors, gs, d => by
    unfold meshLoop
    exact Local.ite (Local.fail _) (Local.pure _)
  | fuel + 1, colors, gs, d => by
    unfold meshLoop
    refine Local.ite ?_ (Local.pure _)
    exact (Local.bind (readMesh_local positions colors gs) (fun r =>
      meshLoop_local positions fuel _ _ _)).mono (Nat.zero_le _)

theorem readPositions_local : Local 4 readPositions := by
  unfold readPositions
  exact (Local.bind (GetTag_local _) (fun _ =>
    Local.bind (GetTag_local _) (fun _ =>
      Local.bind GetUint32_local (fun positionCount =>
        Local.bind (GetFloat32Array_local _) (fun positions =>
          Local.bind (GetTag_local _) (fun _ => Local.pure _)))))).mono (by omega)

theorem readColors_local (positionCount : Nat) : Local 4 (readColors positionCount) := by
  unfold readColors
  refine Local.bind GetUint32_local (fun d => Local.ite ?_ (Local.pure _))
  exact (Local.bind GetUint32_local (fun colorCount =>
    Local.bind (Local.lift _) (fun _ =>
      Local.bind (GetFloat32Array_local _) (fun colors =>
        Local.bind (GetTag_local _) (fun _ =>
          Local.bind GetUint32_local (fun d => Local.pure _)))))).mono (Nat.zero_le _)

theorem decode_local (fuel : Nat) (object : BMF_Object) : Local 0 (decode fuel object) := by
  unfold decode
  exact (Local.bind readPositions_local (fun p =>
    Local.bind (readColors_local _) (fun c =>
      Local.bind (meshLoop_local _ _ _ _ _) (fun r =>
        Local.bind (Local.lift _) (fun _ => Local.pure _))))).mono (Nat.zero_le _)

/-! ### The fuel of the mesh loop -/

theorem meshLoop_fuel (positions : List Nat) :
    ∀ (fuel fuel' : Nat) (colors : List Nat) (gs : List BMF_Geometry) (d : Nat) (st : Stream),
      st.rest.length < fuel → st.rest.length < fuel' →
      meshLoop positions fuel colors gs d st = meshLoop positions fuel' colors gs d st
  | 0, _, _, _, _, _, h, _ => by omega
  | _ + 1, 0, _, _, _, _, _, h => by omega
  | fuel + 1, fuel' + 1, colors, gs, d, st, h, h' => by
    rw [meshLoop, meshLoop]
    by_cases hd : d = BMF_HAS_MESH
    · rw [if_pos hd, if_pos hd, Rd.bind_apply, Rd.bind_apply]
      cases hr : readMesh positions colors gs st with
      | error e => rfl
      | ok v =>
        obtain ⟨r, st1⟩ := v
        have hlen := (readMesh_local positions colors gs).length_le hr
        exact meshLoop_fuel positions fuel fuel' _ _ _ st1 (by omega) (by omega)
    · rw [if_neg hd, if_neg hd]

theorem decode_fuel (fuel fuel' : Nat) (object : BMF_Object) (st : Stream)
    (h : st.rest.length < fuel) (h' : st.rest.length < fuel') :
    decode fuel object st = decode fuel' object st := by
  unfold decode
  rw [Rd.bind_apply, Rd.bind_apply]
  cases hp : readPositions st with
  | error e => rfl
  | ok v =>
    obtain ⟨p, st1⟩ := v
    have h1 := readPositions_local.length_le hp
    show (readColors p.1 >>= _) st1 = (readColors p.1 >>= _) st1
    rw [Rd.bind_apply, Rd.bind_apply]
    cases hc : readColors p.1 st1 with
    | error e => rfl
    | ok v =>
      obtain ⟨c, st2⟩ := v
      have h2 := (readColors_local p.1).length_le hc
      show (meshLoop p.2 fuel c.1 object.geometries c.2 >>= _) st2 =
        (meshLoop p.2 fuel' c.1 object.geometries c.2 >>= _) st2
      rw [Rd.bind_apply, Rd.bind_apply,
        meshLoop_fuel p.2 fuel fuel' c.1 object.geometries c.2 st2 (by omega) (by omega)]

/-! ### Reaching a mesh -/

theorem meshLoop_reaches {positions : List Nat} {s s' : LoopState}
    (h : LoopReaches positions s s') :
    ∀ fuel, s.file.rest.length < fuel → ∃ fuel', s'.file.rest.length < fuel' ∧
      meshLoop positions fuel s.colors s.geometries s.d s.file =
        meshLoop positions fuel' s'.colors s'.geometries s'.d s'.file := by
  induction h with
  | here s => exact fun fuel hf => ⟨fuel, hf, rfl⟩
  | pass s s' r st hd hr _ ih =>
    intro fuel hf
    obtain ⟨k, rfl⟩ : ∃ k, fuel = k + 1 := ⟨fuel - 1, by omega⟩
    have hlen := (readMesh_local positions s.colors s.geometries).length_le hr
    obtain ⟨fuel', hf', he⟩ := ih k (by simp only; omega)
    refine ⟨fuel', hf', ?_⟩
    rw [meshLoop, if_pos hd, Rd.bind_apply, hr]
    exact he

theorem Rd.bind_error {α β : Type} {x : Rd α} {f : α → Rd β} {st : Stream} {e : Fault}
    (h : x st = .error e) : (x >>= f) st = .error e := by
  rw [Rd.bind_apply, h]

theorem Rd.bind_eq_of_ok {α β : Type} {x : Rd α} {f : α → Rd β} {st st' : Stream} {a : α}
    (h : x st = .ok (a, st')) : (x >>= f) st = f a st' := by
  rw [Rd.bind_apply, h]

theorem decode_of_meshLoop_error {fuel : Nat} {object : BMF_Object} {st st1 st2 : Stream}
    {p : Nat × List Nat} {c : List Nat × Nat} {e : Fault}
    (hp : readPositions st = .ok (p, st1)) (hc : readColors p.1 st1 = .ok (c, st2))
    (hl : meshLoop p.2 fuel c.1 object.geometries c.2 st2 = .error e) :
    decode fuel object st = .error e := by
  unfold decode
  rw [Rd.bind_eq_of_ok hp, Rd.bind_eq_of_ok hc, Rd.bind_error hl]

theorem decode_of_readMesh_error {object : BMF_Object} {file : List Byte}
    {positions : List Nat} {s : LoopState} {e : Fault}
    (hs : ReachesMesh object file positions s)
    (hr : readMesh positions s.colors s.geometries s.file = .error e) :
    decode (file.length + 1) object (openFile file) = .error e := by
  obtain ⟨positionCount, st1, c, st2, hp, hc, hl, hd⟩ := hs
  have h1 := readPositions_local.length_le hp
  have h2 := (readColors_local positionCount).length_le hc
  have h0 : (openFile file).rest.length = file.length := rfl
  obtain ⟨fuel', hf', he⟩ := meshLoop_reaches hl (file.length + 1) (by simp only; omega)
  apply decode_of_meshLoop_error hp hc
  simp only at he ⊢
  rw [he]
  obtain ⟨k, rfl⟩ : ∃ k, fuel' = k + 1 := ⟨fuel' - 1, by omega⟩
  rw [meshLoop, if_pos hd, Rd.bind_error hr]

theorem Read_of_decode_error {object : BMF_Object} {file : List Byte} {e : Fault}
    (h : decode (file.length + 1) object (openFile file) = .error e) :
    Read object file = .error e := by
  unfold Read decodeFile
  rw [h]
  rfl

theorem AssertEq_ne {a b : Nat} (h : a ≠ b) : AssertEq a b = .error .assertFailed := by
  unfold AssertEq
  rw [if_neg h]

theorem Rd.lift_error {α : Type} {e : Fault} (st : Stream) :
    Rd.lift (.error e : Except Fault α) st = .error e := rfl

theorem readAttribute_mismatch {has got width triangleCount count : Nat} {st st' : Stream}
    (h : GetUint32 st = .ok (count, st')) (hne : count ≠ (3 * triangleCount) % U32) :
    readAttribute has got width triangleCount has st = .error .assertFailed := by
  unfold readAttribute
  rw [if_pos rfl, Rd.bind_eq_of_ok h, Rd.bind_error]
  rw [AssertEq_ne hne]
  rfl

theorem main_of_Read_error {fuel : Nat} {pre post : List (List Byte)} {file : List Byte}
    {object : BMF_Object} {e : Fault} (hpre : pre.foldlM Read {} = .ok object)
    (h : Read object file = .error e) : main fuel (pre ++ file :: post) = .error e := by
  unfold main
  rw [List.foldlM_append, hpre]
  show (List.foldlM Read object (file :: post) >>= _) = _
  rw [List.foldlM_cons, h]
  rfl

/-! ### De-indexing of the positions -/

theorem vecGet_ok {v : List Nat} {i x : Nat} : vecGet v i = .ok x ↔ v[i]? = some x := by
  unfold vecGet
  cases h : v[i]? with
  | none => simp
  | some y => simp

theorem vecSet_ok {v v' : List Nat} {i x : Nat} (h : vecSet v i x = .ok v') :
    i < v.length ∧ v' = v.set i x := by
  unfold vecSet at h
  split at h
  · next hi => exact ⟨hi, by cases h; rfl⟩
  · cases h

theorem Except.bind_ok_iff {ε α β : Type} {x : Except ε α} {f : α → Except ε β} {b : β} :
    (x >>= f) = .ok b ↔ ∃ a, x = .ok a ∧ f a = .ok b := by
  cases x with
  | error e => simp [bind, Except.bind]
  | ok a => simp [bind, Except.bind]

theorem Assert_ok {p : Prop} [Decidable p] (h : Assert (decide p) = .ok ()) : p := by
  unfold Assert at h
  by_contra hp
  simp [hp] at h

theorem positionStep_ok {positions : List Nat} {idx k : Nat} {out out' : List Nat}
    (h : positionStep positions idx k out = .ok out') :
    idx < positions.length ∧ ∃ x y z,
      positions[(3 * idx + 0) % U32]? = some x ∧ positions[(3 * idx + 1) % U32]? = some y ∧
      positions[(3 * idx + 2) % U32]? = some z ∧
      out' = ((out.set ((3 * k + 0) % U32) x).set ((3 * k + 1) % U32) z).set
        ((3 * k + 2) % U32) y := by
  unfold positionStep at h
  obtain ⟨_, ha, h⟩ := Except.bind_ok_iff.1 h
  obtain ⟨x, hx, h⟩ := Except.bind_ok_iff.1 h
  obtain ⟨o1, h1, h⟩ := Except.bind_ok_iff.1 h
  obtain ⟨z, hz, h⟩ := Except.bind_ok_iff.1 h
  obtain ⟨o2, h2, h⟩ := Except.bind_ok_iff.1 h
  obtain ⟨y, hy, h⟩ := Except.bind_ok_iff.1 h
  obtain ⟨_, rfl⟩ := vecSet_ok h1
  obtain ⟨_, rfl⟩ := vecSet_ok h2
  obtain ⟨_, rfl⟩ := vecSet_ok h
  exact ⟨Assert_ok ha, x, y, z, vecGet_ok.1 hx, vecGet_ok.1 hy, vecGet_ok.1 hz, rfl⟩

theorem positionLoop_spec (positions : List Nat) :
    ∀ (indices : List Nat) (k : Nat) (out out' : List Nat),
      positionLoop positions indices k out = .ok out' →
      3 * (k + indices.length) ≤ U32 → 3 * (k + indices.length) ≤ out.length →
      out'.length = out.length ∧ (∀ j, j < 3 * k → out'[j]? = out[j]?) ∧
      ∀ i idx, indices[i]? = some idx → CornerOf positions idx out' (k + i)
  | [], k, out, out', h, _, _ => by
    simp only [positionLoop, Except.ok.injEq] at h
    subst h
    exact ⟨rfl, fun _ _ => rfl, fun i idx hi => by simp at hi⟩
  | idx :: rest, k, out, out', h, hb, hl => by
    simp only [positionLoop] at h
    obtain ⟨o1, hs, h⟩ := Except.bind_ok_iff.1 h
    obtain ⟨_, x, y, z, hx, hy, hz, ho1⟩ := positionStep_ok hs
    simp only [List.length_cons] at hb hl
    have hU : U32 = 4294967296 := rfl
    have e0 : (3 * k + 0) % U32 = 3 * k := by rw [Nat.mod_eq_of_lt (by omega)]; rfl
    have e1 : (3 * k + 1) % U32 = 3 * k + 1 := Nat.mod_eq_of_lt (by omega)
    have e2 : (3 * k + 2) % U32 = 3 * k + 2 := Nat.mod_eq_of_lt (by omega)
    rw [e0, e1, e2] at ho1
    have hlen1 : o1.length = out.length := by rw [ho1]; simp only [List.length_set]
    obtain ⟨hlen, hlow, hc⟩ := positionLoop_spec positions rest (k + 1) o1 out' h
      (by omega) (by omega)
    have hget : ∀ j, o1[j]? = if j = 3 * k then some x else if j = 3 * k + 1 then some z
        else if j = 3 * k + 2 then some y else out[j]? := by
      intro j
      rw [ho1]
      simp only [List.getElem?_set, List.length_set]
      by_cases h2 : 3 * k + 2 = j
      · subst h2
        have : 3 * k + 2 < out.length := by omega
        simp [this]
      · by_cases h1 : 3 * k + 1 = j
        · subst h1
          have : 3 * k + 1 < out.length := by omega
          simp [this]
        · by_cases h0 : 3 * k = j
          · subst h0
            have : 3 * k < out.length := by omega
            simp [this]
          · have h0' : j ≠ 3 * k := fun e => h0 e.symm
            have h1' : j ≠ 3 * k + 1 := fun e => h1 e.symm
            have h2' : j ≠ 3 * k + 2 := fun e => h2 e.symm
            simp [h0, h1, h2, h0', h1', h2']
    refine ⟨by rw [hlen, hlen1], ?_, ?_⟩
    · intro j hj
      rw [hlow j (by omega), hget j]
      have h0 : j ≠ 3 * k := by omega
      have h1 : j ≠ 3 * k + 1 := by omega
      have h2 : j ≠ 3 * k + 2 := by omega
      simp [h0, h1, h2]
    · intro i idx' hi
      cases i with
      | zero =>
        simp only [List.getElem?_cons_zero, Option.some.injEq] at hi
        subst hi
        refine ⟨x, y, z, hx, hy, hz, ?_, ?_, ?_⟩
        · rw [Nat.add_zero, hlow _ (by omega), hget]; simp
        · rw [Nat.add_zero, hlow _ (by omega), hget]; simp
        · rw [Nat.add_zero, hlow _ (by omega), hget]; simp
      | succ i =>
        simp only [List.getElem?_cons_succ] at hi
        have := hc i idx' hi
        rw [show k + 1 + i = k + (i + 1) by omega] at this
        exact this

theorem positionLoop_length (positions : List Nat) :
    ∀ (indices : List Nat) (k : Nat) (out out' : List Nat),
      positionLoop positions indices k out = .ok out' → out'.length = out.length
  | [], k, out, out', h => by
    simp only [positionLoop, Except.ok.injEq] at h
    rw [h]
  | idx :: rest, k, out, out', h => by
    simp only [positionLoop] at h
    obtain ⟨o1, hs, h⟩ := Except.bind_ok_iff.1 h
    obtain ⟨_, x, y, z, _, _, _, ho1⟩ := positionStep_ok hs
    rw [positionLoop_length positions rest (k + 1) o1 out' h, ho1]
    simp only [List.length_set]

theorem vecResize_nil_length (n : Nat) : (vecResize [] n).length = n := by
  simp [vecResize]

theorem processPositions_spec {positions indices out : List Nat}
    (h : processPositions positions indices = .ok out) :
    out.length = 3 * indices.length ∧
    (3 * indices.length ≤ U32 → ∀ k idx, indices[k]? = some idx →
      CornerOf positions idx out k) := by
  unfold processPositions at h
  refine ⟨?_, fun hb k idx hk => ?_⟩
  · rw [positionLoop_length positions indices 0 _ out h, vecResize_nil_length]
  · have := (positionLoop_spec positions indices 0 _ out h (by omega)
      (by rw [vecResize_nil_length]; omega)).2.2 k idx hk
    rw [Nat.zero_add] at this
    exact this

/-! ### What a successful `Read` has done -/

theorem meshLoop_ok (positions : List Nat) :
    ∀ (fuel : Nat) (colors : List Nat) (gs : List BMF_Geometry) (d : Nat) (st st' : Stream)
      (gs' : List BMF_Geometry) (d' : Nat),
      meshLoop positions fuel colors gs d st = .ok ((gs', d'), st') →
      ∃ new, gs' = gs ++ new ∧ ∀ g ∈ new, ∃ colors0 gs0 st0 st1 r,
        readMesh positions colors0 gs0 st0 = .ok (r, st1) ∧ r.geometry = g
  | 0, colors, gs, d, st, st', gs', d', h => by
    rw [meshLoop] at h
    split at h
    · cases h
    · obtain ⟨h1, _⟩ := Rd.pure_ok.1 h
      cases h1
      exact ⟨[], by simp, by simp⟩
  | fuel + 1, colors, gs, d, st, st', gs', d', h => by
    rw [meshLoop] at h
    split at h
    · obtain ⟨r, st1, hr, h⟩ := Rd.bind_ok.1 h
      obtain ⟨new, hnew, hall⟩ := meshLoop_ok positions fuel _ _ _ _ _ _ _ h
      refine ⟨r.geometry :: new, by rw [hnew]; simp, ?_⟩
      intro g hg
      rcases List.mem_cons.1 hg with rfl | hg
      · exact ⟨colors, gs, st, st1, r, hr, rfl⟩
      · exact hall g hg
    · obtain ⟨h1, _⟩ := Rd.pure_ok.1 h
      cases h1
      exact ⟨[], by simp, by simp⟩

theorem Read_ok {object object' : BMF_Object} {file : List Byte}
    (h : Read object file = .ok object') :
    ∃ positionCount positions st1 c st2 d st3,
      readPositions (openFile file) = .ok ((positionCount, positions), st1) ∧
      readColors positionCount st1 = .ok (c, st2) ∧
      meshLoop positions (file.length + 1) c.1 object.geometries c.2 st2 =
        .ok ((object'.geometries, d), st3) := by
  unfold Read decodeFile at h
  cases hd : decode (file.length + 1) object (openFile file) with
  | error e => rw [hd] at h; cases h
  | ok v =>
    obtain ⟨o, st⟩ := v
    rw [hd] at h
    cases h
    unfold decode at hd
    obtain ⟨p, st1, hp, hd⟩ := Rd.bind_ok.1 hd
    obtain ⟨c, st2, hc, hd⟩ := Rd.bind_ok.1 hd
    obtain ⟨r, st3, hl, hd⟩ := Rd.bind_ok.1 hd
    obtain ⟨_, st4, _, hd⟩ := Rd.bind_ok.1 hd
    obtain ⟨rfl, _⟩ := Rd.pure_ok.1 hd
    exact ⟨p.1, p.2, st1, c, st2, r.2, st3, hp, hc, hl⟩

theorem words_length : ∀ (bs : List Byte), (words bs).length = bs.length / 4
  | [] => rfl
  | [_] => by simp [words]
  | [_, _] => by simp [words]
  | [_, _, _] => by simp [words]
  | _ :: _ :: _ :: _ :: bs => by
    simp only [words, List.length_cons, words_length bs]
    omega

theorem GetUint32Array_ok {size : Nat} {st st' : Stream} {data : List Nat}
    (h : GetUint32Array size st = .ok (data, st')) :
    data.length = size ∧ (size * 4) % U32 ≠ 0 ∧
      data = words (st.rest.take ((size * 4) % U32)) ++
        List.replicate (size - (size * 4) % U32 / 4) 0 := by
  unfold GetUint32Array at h
  obtain ⟨bs, st1, hb, h⟩ := Rd.bind_ok.1 h
  obtain ⟨h0, hle, rfl, _⟩ := GetData_ok hb
  obtain ⟨rfl, _⟩ := Rd.pure_ok.1 h
  have hlen : (List.take (size * 4 % U32) st.rest).length = size * 4 % U32 := by
    rw [List.length_take]; omega
  have hU : U32 = 4294967296 := rfl
  refine ⟨?_, h0, ?_⟩
  · rw [List.length_append, List.length_replicate, words_length, hlen, hU]
    omega
  · rw [words_length, hlen]

theorem readPositions_ok {st st' : Stream} {positionCount : Nat} {positions : List Nat}
    (h : readPositions st = .ok ((positionCount, positions), st')) :
    positions.length = (3 * positionCount) % U32 := by
  unfold readPositions at h
  obtain ⟨_, s1, _, h⟩ := Rd.bind_ok.1 h
  obtain ⟨_, s2, _, h⟩ := Rd.bind_ok.1 h
  obtain ⟨pc, s3, _, h⟩ := Rd.bind_ok.1 h
  obtain ⟨ps, s4, hps, h⟩ := Rd.bind_ok.1 h
  obtain ⟨_, s5, _, h⟩ := Rd.bind_ok.1 h
  obtain ⟨h1, _⟩ := Rd.pure_ok.1 h
  cases h1
  exact (GetUint32Array_ok hps).1

/-! ### The file with a wrapped pool -/

theorem readPositions_fileBig :
    readPositions (openFile fileBig) =
      .ok ((2147483649, poolBig), { rest := fileBig.drop 28, pos := 28, tags := [0, 4, 24] }) := by
  rfl

theorem meshLoop_done {positions : List Nat} {fuel : Nat} {colors : List Nat}
    {gs : List BMF_Geometry} {d : Nat} (st : Stream) (h : d ≠ BMF_HAS_MESH) :
    meshLoop positions fuel colors gs d st = .ok ((gs, d), st) := by
  cases fuel with
  | zero => rw [meshLoop, if_neg h]; rfl
  | succ n => rw [meshLoop, if_neg h]; rfl

theorem poolBig_length : poolBig.length = 2147483651 := by
  unfold poolBig
  rw [List.length_append, List.length_replicate]
  rfl

theorem vecGet_append_replicate (v : List Nat) (n i : Nat) :
    vecGet (v ++ List.replicate n 0) i =
      if i < v.length then vecGet v i else if i - v.length < n then .ok 0
        else .error .outOfBounds := by
  unfold vecGet
  rw [List.getElem?_append]
  by_cases h : i < v.length
  · rw [if_pos h, if_pos h]
  · rw [if_neg h, if_neg h, List.getElem?_replicate]
    by_cases h' : i - v.length < n
    · rw [if_pos h', if_pos h']
    · rw [if_neg h', if_neg h']

theorem poolBig_eq : poolBig = [10, 11, 12] ++ List.replicate 2147483648 0 := rfl

theorem vecGet_three_zeros (n i : Nat) :
    vecGet ([10, 11, 12] ++ List.replicate n 0) i = if i < 3 then vecGet [10, 11, 12] i
      else if i - 3 < n then .ok 0 else .error .outOfBounds :=
  vecGet_append_replicate _ _ _

theorem vecGet_poolBig (i : Nat) :
    vecGet poolBig i = if i < 3 then vecGet [10, 11, 12] i
      else if i - 3 < 2147483648 then .ok 0 else .error .outOfBounds := by
  rw [poolBig_eq]
  exact vecGet_three_zeros _ i

theorem positionLoop_cons {positions : List Nat} {idx k : Nat} {rest out out1 : List Nat}
    (h : positionStep positions idx k out = .ok out1) (k' : Nat) (hk : k' = k + 1) :
    positionLoop positions (idx :: rest) k out = positionLoop positions rest k' out1 := by
  rw [positionLoop, h, hk]
  rfl

theorem processPositions_poolBig :
    processPositions poolBig geometryBig.indices = .ok geometryBig.positions := by
  have h2 : vecGet poolBig 2 = .ok 12 := by rw [vecGet_poolBig]; rfl
  have h3 : vecGet poolBig 3 = .ok 0 := by rw [vecGet_poolBig]; rfl
  have h4 : vecGet poolBig 4 = .ok 0 := by rw [vecGet_poolBig]; rfl
  have g0 : vecGet poolBig 0 = .ok 10 := by rw [vecGet_poolBig]; rfl
  have g1 : vecGet poolBig 1 = .ok 11 := by rw [vecGet_poolBig]; rfl
  have a0 : Assert (decide (1431655766 < poolBig.length)) = .ok () := by
    rw [poolBig_length]; rfl
  have a1 : Assert (decide (0 < poolBig.length)) = .ok () := by
    rw [poolBig_length]; rfl
  have e0 : (3 * 1431655766 + 0) % U32 = 2 := by decide
  have e1 : (3 * 1431655766 + 1) % U32 = 3 := by decide
  have e2 : (3 * 1431655766 + 2) % U32 = 4 := by decide
  have f0 : (3 * 0 + 0) % U32 = 0 := by decide
  have f1 : (3 * 0 + 1) % U32 = 1 := by decide
  have f2 : (3 * 0 + 2) % U32 = 2 := by decide
  have s0 : positionStep poolBig 1431655766 0 (vecResize [] 9) =
      .ok [12, 0, 0, 0, 0, 0, 0, 0, 0] := by
    unfold positionStep
    rw [a0, e0, e1, e2, h2, h3, h4]
    rfl
  have s1 : positionStep poolBig 0 1 [12, 0, 0, 0, 0, 0, 0, 0, 0] =
      .ok [12, 0, 0, 10, 12, 11, 0, 0, 0] := by
    unfold positionStep
    rw [a1, f0, f1, f2, h2, g0, g1]
    rfl
  have s2 : positionStep poolBig 0 2 [12, 0, 0, 10, 12, 11, 0, 0, 0] =
      .ok [12, 0, 0, 10, 12, 11, 10, 12, 11] := by
    unfold positionStep
    rw [a1, f0, f1, f2, h2, g0, g1]
    rfl
  unfold processPositions
  rw [show geometryBig.indices = [1431655766, 0, 0] from rfl,
    show vecResize [] (3 * [1431655766, 0, 0].length) = vecResize [] 9 from rfl,
    positionLoop_cons s0 1 rfl, positionLoop_cons s1 2 rfl, positionLoop_cons s2 3 rfl]
  rfl

theorem Read_fileBig : Read {} fileBig = .ok { geometries := [geometryBig] } := by
  have hc : readColors 2147483649 { rest := fileBig.drop 28, pos := 28, tags := [0, 4, 24] } =
      .ok (([], BMF_HAS_MESH), { rest := fileBig.drop 32, pos := 32, tags := [0, 4, 24] }) := by
    decide!
  have hm : readMeshData [] { rest := fileBig.drop 32, pos := 32, tags := [0, 4, 24] } =
      .ok ({ name := "Foo", triangleCount := 1, indices := [1431655766, 0, 0], uvs := [],
             normals := [], d := BMF_GOT_BMF },
           { rest := [], pos := 75, tags := [0, 4, 24, 43, 63] }) := by
    decide!
  have hp : processMesh poolBig []
      { name := "Foo", triangleCount := 1, indices := [1431655766, 0, 0], uvs := [],
        normals := [], d := BMF_GOT_BMF } =
      .ok { geometry := geometryBig, colors := [], d := BMF_GOT_BMF } := by
    have := processPositions_poolBig
    unfold processMesh
    show (AssertEq _ _ >>= fun _ => processPositions poolBig geometryBig.indices >>= _) = _
    rw [this]
    rfl
  have hr : readMesh poolBig [] [] { rest := fileBig.drop 32, pos := 32, tags := [0, 4, 24] } =
      .ok ({ geometry := geometryBig, colors := [], d := BMF_GOT_BMF },
           { rest := [], pos := 75, tags := [0, 4, 24, 43, 63] }) := by
    unfold readMesh
    rw [Rd.bind_eq_of_ok hm, hp]
    rfl
  unfold Read decodeFile decode
  rw [Rd.bind_eq_of_ok readPositions_fileBig, Rd.bind_eq_of_ok hc]
  have hl : meshLoop poolBig (fileBig.length + 1) [] ({} : BMF_Object).geometries BMF_HAS_MESH
      { rest := fileBig.drop 32, pos := 32, tags := [0, 4, 24] } =
      .ok (([geometryBig], BMF_GOT_BMF), { rest := [], pos := 75, tags := [0, 4, 24, 43, 63] }) := by
    rw [meshLoop, if_pos rfl, Rd.bind_eq_of_ok hr]
    exact meshLoop_done _ (by decide)
  rw [Rd.bind_eq_of_ok hl]
  rfl

/-! ### The loops of the exporter -/

theorem vecGet_append_length (pre : List Nat) (x : Nat) (rest : List Nat) :
    vecGet (pre ++ x :: rest) pre.length = .ok x := by
  rw [vecGet_ok, List.getElem?_append_right (le_refl _), Nat.sub_self]
  simp

theorem vecGet_append_length_add_one (pre : List Nat) (x y : Nat) (rest : List Nat) :
    vecGet (pre ++ x :: y :: rest) (pre.length + 1) = .ok y := by
  rw [vecGet_ok, List.getElem?_append_right (Nat.le_add_right _ _), Nat.add_sub_cancel_left]
  simp

theorem vecGet_append_length_add_two (pre : List Nat) (x y z : Nat) (rest : List Nat) :
    vecGet (pre ++ x :: y :: z :: rest) (pre.length + 2) = .ok z := by
  rw [vecGet_ok, List.getElem?_append_right (Nat.le_add_right _ _), Nat.add_sub_cancel_left]
  simp

theorem positionLines_append : ∀ (m : Nat) (pre rest : List Nat) (fuel : Nat),
    rest.length = 3 * m → (pre ++ rest).length < U32 → m ≤ fuel →
    positionLines (pre ++ rest) fuel pre.length = .ok (vLinesOf rest)
  | 0, pre, rest, fuel, hr, _, _ => by
    have : rest = [] := List.length_eq_zero.1 (by omega)
    subst this
    have hlt : ¬ pre.length < (pre ++ []).length := by simp
    cases fuel with
    | zero => rw [positionLines, if_neg hlt]; rfl
    | succ f => rw [positionLines, if_neg hlt]; rfl
  | m + 1, pre, rest, fuel, hr, hU, hf => by
    obtain ⟨f, rfl⟩ : ∃ f, fuel = f + 1 := ⟨fuel - 1, by omega⟩
    match rest, hr with
    | x :: y :: z :: rest', hr =>
      have hlen : (pre ++ x :: y :: z :: rest').length = pre.length + (rest'.length + 3) := by
        simp
      have hlt : pre.length < (pre ++ x :: y :: z :: rest').length := by omega
      have hU' : U32 = 4294967296 := rfl
      have e0 : (pre.length + 0) % U32 = pre.length := Nat.mod_eq_of_lt (by omega)
      have e1 : (pre.length + 1) % U32 = pre.length + 1 := Nat.mod_eq_of_lt (by omega)
      have e2 : (pre.length + 2) % U32 = pre.length + 2 := Nat.mod_eq_of_lt (by omega)
      have e3 : (pre.length + 3) % U32 = (pre ++ [x, y, z]).length := by
        rw [Nat.mod_eq_of_lt (by omega)]; simp
      have hsplit : pre ++ x :: y :: z :: rest' = (pre ++ [x, y, z]) ++ rest' := by simp
      have ih := positionLines_append m (pre ++ [x, y, z]) rest' f
        (by simp only [List.length_cons] at hr; omega) (by rw [← hsplit]; exact hU) (by omega)
      rw [positionLines, if_pos hlt, e0, e1, e2, e3, vecGet_append_length,
        vecGet_append_length_add_one, vecGet_append_length_add_two, hsplit, ih]
      rfl
    | [], hr => simp at hr
    | [_], hr => simp at hr; omega
    | [_, _], hr => simp at hr; omega

theorem positionLines_eq {positions : List Nat} {fuel : Nat} (h3 : positions.length % 3 = 0)
    (hU : positions.length < U32) (hf : positions.length / 3 ≤ fuel) :
    positionLines positions fuel 0 = .ok (vLinesOf positions) :=
  positionLines_append (positions.length / 3) [] positions fuel (by omega) hU hf

theorem normalLines_append : ∀ (m : Nat) (pre rest : List Nat) (fuel : Nat),
    rest.length = 3 * m → (pre ++ rest).length < U32 → m ≤ fuel →
    normalLines (pre ++ rest) fuel pre.length = .ok (vnLinesOf rest)
  | 0, pre, rest, fuel, hr, _, _ => by
    have : rest = [] := List.length_eq_zero.1 (by omega)
    subst this
    have hlt : ¬ pre.length < (pre ++ []).length := by simp
    cases fuel with
    | zero => rw [normalLines, if_neg hlt]; rfl
    | succ f => rw [normalLines, if_neg hlt]; rfl
  | m + 1, pre, rest, fuel, hr, hU, hf => by
    obtain ⟨f, rfl⟩ : ∃ f, fuel = f + 1 := ⟨fuel - 1, by omega⟩
    match rest, hr with
    | x :: y :: z :: rest', hr =>
      have hlen : (pre ++ x :: y :: z :: rest').length = pre.length + (rest'.length + 3) := by
        simp
      have hlt : pre.length < (pre ++ x :: y :: z :: rest').length := by omega
      have hU' : U32 = 4294967296 := rfl
      have e0 : (pre.length + 0) % U32 = pre.length := Nat.mod_eq_of_lt (by omega)
      have e1 : (pre.length + 1) % U32 = pre.length + 1 := Nat.mod_eq_of_lt (by omega)
      have e2 : (pre.length + 2) % U32 = pre.length + 2 := Nat.mod_eq_of_lt (by omega)
      have e3 : (pre.length + 3) % U32 = (pre ++ [x, y, z]).length := by
        rw [Nat.mod_eq_of_lt (by omega)]; simp
      have hsplit : pre ++ x :: y :: z :: rest' = (pre ++ [x, y, z]) ++ rest' := by simp
      have ih := normalLines_append m (pre ++ [x, y, z]) rest' f
        (by simp only [List.length_cons] at hr; omega) (by rw [← hsplit]; exact hU) (by omega)
      rw [normalLines, if_pos hlt, e0, e1, e2, e3, vecGet_append_length,
        vecGet_append_length_add_one, vecGet_append_length_add_two, hsplit, ih]
      rfl
    | [], hr => simp at hr
    | [_], hr => simp at hr; omega
    | [_, _], hr => simp at hr; omega

theorem normalLines_eq {normals : List Nat} {fuel : Nat} (h3 : normals.length % 3 = 0)
    (hU : normals.length < U32) (hf : normals.length / 3 ≤ fuel) :
    normalLines normals fuel 0 = .ok (vnLinesOf normals) :=
  normalLines_append (normals.length / 3) [] normals fuel (by omega) hU hf

theorem uvLines_append : ∀ (m : Nat) (pre rest : List Nat) (fuel : Nat),
    rest.length = 2 * m → (pre ++ rest).length < U32 → m ≤ fuel →
    uvLines (pre ++ rest) fuel pre.length = .ok (vtLinesOf rest)
  | 0, pre, rest, fuel, hr, _, _ => by
    have : rest = [] := List.length_eq_zero.1 (by omega)
    subst this
    have hlt : ¬ pre.length < (pre ++ []).length := by simp
    cases fuel with
    | zero => rw [uvLines, if_neg hlt]; rfl
    | succ f => rw [uvLines, if_neg hlt]; rfl
  | m + 1, pre, rest, fuel, hr, hU, hf => by
    obtain ⟨f, rfl⟩ : ∃ f, fuel = f + 1 := ⟨fuel - 1, by omega⟩
    match rest, hr with
    | x :: y :: rest', hr =>
      have hlen : (pre ++ x :: y :: rest').length = pre.length + (rest'.length + 2) := by
        simp
      have hlt : pre.length < (pre ++ x :: y :: rest').length := by omega
      have hU' : U32 = 4294967296 := rfl
      have e0 : (pre.length + 0) % U32 = pre.length := Nat.mod_eq_of_lt (by omega)
      have e1 : (pre.length + 1) % U32 = pre.length + 1 := Nat.mod_eq_of_lt (by omega)
      have e2 : (pre.length + 2) % U32 = (pre ++ [x, y]).length := by
        rw [Nat.mod_eq_of_lt (by omega)]; simp
      have hsplit : pre ++ x :: y :: rest' = (pre ++ [x, y]) ++ rest' := by simp
      have ih := uvLines_append m (pre ++ [x, y]) rest' f
        (by simp only [List.length_cons] at hr; omega) (by rw [← hsplit]; exact hU) (by omega)
      rw [uvLines, if_pos hlt, e0, e1, e2, vecGet_append_length,
        vecGet_append_length_add_one, hsplit, ih]
      rfl
    | [], hr => simp at hr
    | [_], hr => simp at hr; omega

theorem uvLines_eq {uvs : List Nat} {fuel : Nat} (h2 : uvs.length % 2 = 0)
    (hU : uvs.length < U32) (hf : uvs.length / 2 ≤ fuel) :
    uvLines uvs fuel 0 = .ok (vtLinesOf uvs) :=
  uvLines_append (uvs.length / 2) [] uvs fuel (by omega) hU hf

theorem faceLines_eq (g : BMF_Geometry) (po uo no : Nat) :
    ∀ (count t fuel : Nat), g.indices.length = 3 * (t + count) → g.indices.length < U32 →
      count ≤ fuel → faceLines g po uo no fuel (3 * t) = .ok (faceLinesOf g po uo no t count)
  | 0, t, fuel, hn, _, _ => by
    have hlt : ¬ 3 * t < g.indices.length := by omega
    cases fuel with
    | zero => rw [faceLines, if_neg hlt]; rfl
    | succ f => rw [faceLines, if_neg hlt]; rfl
  | count + 1, t, fuel, hn, hU, hf => by
    obtain ⟨f, rfl⟩ : ∃ f, fuel = f + 1 := ⟨fuel - 1, by omega⟩
    have hlt : 3 * t < g.indices.length := by omega
    have hU' : U32 = 4294967296 := rfl
    have e0 : (3 * t + 0) % U32 = 3 * t := Nat.mod_eq_of_lt (by omega)
    have e1 : (3 * t + 1) % U32 = 3 * t + 1 := Nat.mod_eq_of_lt (by omega)
    have e2 : (3 * t + 2) % U32 = 3 * t + 2 := Nat.mod_eq_of_lt (by omega)
    have e3 : (3 * t + 3) % U32 = 3 * (t + 1) := by
      rw [Nat.mod_eq_of_lt (by omega)]; ring
    rw [faceLines, if_pos hlt, e0, e1, e2, e3,
      faceLines_eq g po uo no count (t + 1) f (by omega) hU (by omega)]
    rfl

theorem Exportable.of_dataModel {fuel : Nat} {g : BMF_Geometry} (h : DataModel g)
    (hU : 3 * g.indices.length < U32) (hf : g.indices.length ≤ fuel) : Exportable fuel g := by
  obtain ⟨hp, hu, hn, h3⟩ := h
  have hU' : U32 = 4294967296 := rfl
  refine ⟨by omega, ?_, ?_, by omega⟩
  · by_cases he : g.uvs = []
    · rw [he]; simp; omega
    · have := hu he; omega
  · by_cases he : g.normals = []
    · rw [he]; simp; omega
    · have := hn he; omega

theorem elementLines_eq {fuel : Nat} {g : BMF_Geometry} (h : Exportable fuel g) :
    elementLines fuel g = .ok (elementsOf g) := by
  obtain ⟨⟨p1, p2, p3⟩, ⟨u1, u2, u3⟩, ⟨n1, n2, n3⟩, _⟩ := h
  unfold elementLines
  rw [positionLines_eq p1 p2 p3, uvLines_eq u1 u2 u3, normalLines_eq n1 n2 n3]
  rfl

theorem elementPass_eq {fuel : Nat} : ∀ (gs : List BMF_Geometry),
    (∀ g ∈ gs, Exportable fuel g) → elementPass fuel gs = .ok (gs.flatMap elementsOf)
  | [], _ => rfl
  | g :: gs, h => by
    rw [elementPass, elementLines_eq (h g (List.mem_cons_self _ _)),
      elementPass_eq gs (fun g' hg' => h g' (List.mem_cons_of_mem _ hg'))]
    rfl

theorem modelPass_eq {fuel : Nat} : ∀ (gs : List BMF_Geometry) (po uo no : Nat),
    (∀ g ∈ gs, Exportable fuel g) → modelPass fuel gs po uo no = .ok (modelLinesOf gs po uo no)
  | [], _, _, _, _ => rfl
  | g :: gs, po, uo, no, h => by
    obtain ⟨_, _, _, i1, i2, i3⟩ := h g (List.mem_cons_self _ _)
    rw [modelPass, faceLines_eq g po uo no (g.indices.length / 3) 0 fuel (by omega) i2 i3,
      modelPass_eq gs _ _ _ (fun g' hg' => h g' (List.mem_cons_of_mem _ hg'))]
    rfl

theorem ExportToOBJ_eq {fuel : Nat} {object : BMF_Object}
    (h : ∀ g ∈ object.geometries, Exportable fuel g) :
    ExportToOBJ fuel object =
      .ok (object.geometries.flatMap elementsOf ++ modelLinesOf object.geometries 1 1 1) := by
  unfold ExportToOBJ
  rw [elementPass_eq _ h, modelPass_eq _ 1 1 1 h]
  rfl

/-! ### The structure of the output -/

theorem vLinesOf_isV : ∀ (xs : List Nat) (l : Line), l ∈ vLinesOf xs → l.isV = true
  | [], l, h => by simp [vLinesOf] at h
  | [_], l, h => by simp [vLinesOf] at h
  | [_, _], l, h => by simp [vLinesOf] at h
  | x :: y :: z :: rest, l, h => by
    rw [vLinesOf] at h
    rcases List.mem_cons.1 h with rfl | h
    · rfl
    · exact vLinesOf_isV rest l h

theorem vtLinesOf_isVT : ∀ (xs : List Nat) (l : Line), l ∈ vtLinesOf xs → l.isVT = true
  | [], l, h => by simp [vtLinesOf] at h
  | [_], l, h => by simp [vtLinesOf] at h
  | x :: y :: rest, l, h => by
    rw [vtLinesOf] at h
    rcases List.mem_cons.1 h with rfl | h
    · rfl
    · exact vtLinesOf_isVT rest l h

theorem vnLinesOf_isVN : ∀ (xs : List Nat) (l : Line), l ∈ vnLinesOf xs → l.isVN = true
  | [], l, h => by simp [vnLinesOf] at h
  | [_], l, h => by simp [vnLinesOf] at h
  | [_, _], l, h => by simp [vnLinesOf] at h
  | x :: y :: z :: rest, l, h => by
    rw [vnLinesOf] at h
    rcases List.mem_cons.1 h with rfl | h
    · rfl
    · exact vnLinesOf_isVN rest l h

theorem faceLinesOf_isF (g : BMF_Geometry) (po uo no : Nat) :
    ∀ (count t : Nat) (l : Line), l ∈ faceLinesOf g po uo no t count → l.isF = true
  | 0, t, l, h => by simp [faceLinesOf] at h
  | count + 1, t, l, h => by
    rw [faceLinesOf] at h
    rcases List.mem_cons.1 h with rfl | h
    · rfl
    · exact faceLinesOf_isF g po uo no count (t + 1) l h

theorem afterObject_append {pre : List Line} (h : ∀ l ∈ pre, l.notO = true) (rest : List Line)
    (i : Nat) : afterObject (pre ++ rest) i = afterObject rest i := by
  induction pre with
  | nil => rfl
  | cons l pre ih =>
    have hl := h l (List.mem_cons_self _ _)
    have ih' := ih (fun l' hl' => h l' (List.mem_cons_of_mem _ hl'))
    cases l with
    | o name => simp [Line.notO] at hl
    | v x y z => cases i <;> simpa [afterObject] using ih'
    | vt u v => cases i <;> simpa [afterObject] using ih'
    | vn x y z => cases i <;> simpa [afterObject] using ih'
    | f a b c => cases i <;> simpa [afterObject] using ih'

theorem elementsOf_notO (g : BMF_Geometry) (l : Line) (h : l ∈ elementsOf g) :
    l.notO = true := by
  unfold elementsOf at h
  rcases List.mem_append.1 h with h | h
  · rcases List.mem_append.1 h with h | h
    · have := vLinesOf_isV _ l h
      cases l <;> simp_all [Line.isV, Line.notO]
    · have := vtLinesOf_isVT _ l h
      cases l <;> simp_all [Line.isVT, Line.notO]
  · have := vnLinesOf_isVN _ l h
    cases l <;> simp_all [Line.isVN, Line.notO]

theorem isF_notO (l : Line) (h : l.isF = true) : l.notO = true := by
  cases l <;> simp_all [Line.isF, Line.notO]

theorem afterObject_o_succ (name : String) (ls : List Line) (i : Nat) :
    afterObject (.o name :: ls) (i + 1) = afterObject ls i := by
  simp [afterObject]

theorem afterObject_modelLinesOf : ∀ (gs : List BMF_Geometry) (po uo no i : Nat)
    (g : BMF_Geometry), gs[i]? = some g →
    afterObject (modelLinesOf gs po uo no) i =
      faceLinesOf g (offsetAt (fun g => g.positions.length) gs po i)
        (offsetAt (fun g => g.uvs.length) gs uo i)
        (offsetAt (fun g => g.normals.length) gs no i) 0 (g.indices.length / 3) ++
      modelLinesOf (gs.drop (i + 1))
        (offsetAt (fun g => g.positions.length) gs po (i + 1))
        (offsetAt (fun g => g.uvs.length) gs uo (i + 1))
        (offsetAt (fun g => g.normals.length) gs no (i + 1))
  | [], _, _, _, i, g, h => by simp at h
  | g0 :: gs, po, uo, no, 0, g, h => by
    simp only [List.getElem?_cons_zero, Option.some.injEq] at h
    subst h
    cases gs <;> simp [modelLinesOf, afterObject, offsetAt]
  | g0 :: gs, po, uo, no, i + 1, g, h => by
    simp only [List.getElem?_cons_succ] at h
    rw [modelLinesOf, List.cons_append, afterObject_o_succ,
      afterObject_append (fun l hl => isF_notO l (faceLinesOf_isF _ _ _ _ _ _ l hl)),
      afterObject_modelLinesOf gs _ _ _ i g h]
    simp [offsetAt]

theorem takeWhile_isF_append {fs rest : List Line} (h : ∀ l ∈ fs, l.isF = true)
    (hrest : ∀ l, rest.head? = some l → l.isF = false) :
    (fs ++ rest).takeWhile Line.isF = fs := by
  induction fs with
  | nil =>
    cases rest with
    | nil => rfl
    | cons l rest =>
      have := hrest l rfl
      simp [List.takeWhile, this]
  | cons l fs ih =>
    have hl := h l (List.mem_cons_self _ _)
    rw [List.cons_append, List.takeWhile_cons, if_pos hl,
      ih (fun l' hl' => h l' (List.mem_cons_of_mem _ hl'))]

theorem modelLinesOf_head (gs : List BMF_Geometry) (po uo no : Nat) (l : Line)
    (h : (modelLinesOf gs po uo no).head? = some l) : l.isF = false := by
  cases gs with
  | nil => simp [modelLinesOf] at h
  | cons g gs =>
    rw [modelLinesOf] at h
    have h' : some (Line.o g.name) = some l := h
    cases h'
    rfl

theorem faceLinesOf_getElem? (g : BMF_Geometry) (po uo no : Nat) :
    ∀ (count t j : Nat), j < count → (faceLinesOf g po uo no t count)[j]? =
      some (.f (faceCorner g po uo no (3 * (t + j))) (faceCorner g po uo no (3 * (t + j) + 1))
        (faceCorner g po uo no (3 * (t + j) + 2)))
  | 0, _, _, h => by omega
  | count + 1, t, 0, _ => by simp [faceLinesOf]
  | count + 1, t, j + 1, h => by
    rw [faceLinesOf, List.getElem?_cons_succ,
      faceLinesOf_getElem? g po uo no count (t + 1) j (by omega)]
    rw [show t + 1 + j = t + (j + 1) by omega]

theorem cornerAt_faceLinesOf (g : BMF_Geometry) (po uo no count k : Nat) (h : k < 3 * count) :
    cornerAt (faceLinesOf g po uo no 0 count) k = some (faceCorner g po uo no k) := by
  unfold cornerAt
  rw [faceLinesOf_getElem? g po uo no count 0 (k / 3) (by omega)]
  simp only [Nat.zero_add]
  have h3 : k % 3 = 0 ∨ k % 3 = 1 ∨ k % 3 = 2 := by omega
  rcases h3 with h3 | h3 | h3
  · rw [if_pos h3, show 3 * (k / 3) = k by omega]
  · rw [if_neg (by omega), if_pos h3, show 3 * (k / 3) + 1 = k by omega]
  · rw [if_neg (by omega), if_neg (by omega), show 3 * (k / 3) + 2 = k by omega]

theorem faceBlock_export (gs : List BMF_Geometry) (i : Nat) (g : BMF_Geometry)
    (h : gs[i]? = some g) :
    faceBlock (gs.flatMap elementsOf ++ modelLinesOf gs 1 1 1) i =
      faceLinesOf g (offsetAt (fun g => g.positions.length) gs 1 i)
        (offsetAt (fun g => g.uvs.length) gs 1 i)
        (offsetAt (fun g => g.normals.length) gs 1 i) 0 (g.indices.length / 3) := by
  unfold faceBlock
  rw [afterObject_append, afterObject_modelLinesOf gs 1 1 1 i g h,
    takeWhile_isF_append (fun l hl => faceLinesOf_isF _ _ _ _ _ _ l hl)
      (modelLinesOf_head _ _ _ _)]
  intro l hl
  obtain ⟨g', _, hg'⟩ := List.mem_flatMap.1 hl
  exact elementsOf_notO g' l hg'

/-! ### The offsets of the exporter -/

theorem cornerCount_cons (g : BMF_Geometry) (gs : List BMF_Geometry) :
    cornerCount (g :: gs) = g.indices.length + cornerCount gs := by
  simp [cornerCount]

theorem cornersBefore_zero (attr : BMF_Geometry → List Nat) (gs : List BMF_Geometry) :
    cornersBefore attr gs 0 = 0 := by
  simp [cornersBefore, cornerCount]

theorem cornersBefore_nil (attr : BMF_Geometry → List Nat) (i : Nat) :
    cornersBefore attr [] i = 0 := by
  simp [cornersBefore, cornerCount]

theorem cornersBefore_succ (attr : BMF_Geometry → List Nat) (g : BMF_Geometry)
    (gs : List BMF_Geometry) (i : Nat) :
    cornersBefore attr (g :: gs) (i + 1) =
      (if attr g ≠ [] then g.indices.length else 0) + cornersBefore attr gs i := by
  unfold cornersBefore
  rw [List.take_succ_cons]
  by_cases h : attr g ≠ []
  · rw [List.filter_cons_of_pos (by simpa using h), if_pos h, cornerCount_cons]
  · rw [List.filter_cons_of_neg (by simpa using h), if_neg h, Nat.zero_add]

theorem offsetAt_eq (attr : BMF_Geometry → List Nat) :
    ∀ (gs : List BMF_Geometry) (offset i : Nat), offset < U32 →
      offsetAt (fun g => (attr g).length) gs offset i =
        (offset + cornersBefore attr gs i) % U32
  | [], offset, i, h => by
    rw [cornersBefore_nil, Nat.add_zero, Nat.mod_eq_of_lt h]
    cases i <;> rfl
  | g :: gs, offset, 0, h => by
    rw [cornersBefore_zero, Nat.add_zero, Nat.mod_eq_of_lt h]
    rfl
  | g :: gs, offset, i + 1, h => by
    have hU : U32 = 4294967296 := rfl
    have hadv : advance offset (attr g).length g < U32 := Nat.mod_lt _ (by omega)
    rw [offsetAt, offsetAt_eq attr gs _ i hadv, cornersBefore_succ]
    unfold advance
    have hne : ((attr g).length ≠ 0) ↔ (attr g ≠ []) := by
      rw [Ne, List.length_eq_zero]
    by_cases h0 : attr g ≠ []
    · rw [if_pos (hne.2 h0), if_pos h0, hU]
      omega
    · rw [if_neg (fun hh => h0 (hne.1 hh)), if_neg h0, hU]
      omega

theorem cornersBefore_add_le (attr : BMF_Geometry → List Nat) :
    ∀ (gs : List BMF_Geometry) (i : Nat) (g : BMF_Geometry), gs[i]? = some g →
      cornersBefore attr gs i + g.indices.length ≤ cornerCount gs
  | [], i, g, h => by simp at h
  | g0 :: gs, 0, g, h => by
    simp only [List.getElem?_cons_zero, Option.some.injEq] at h
    subst h
    rw [cornersBefore_zero, cornerCount_cons]
    omega
  | g0 :: gs, i + 1, g, h => by
    simp only [List.getElem?_cons_succ] at h
    have := cornersBefore_add_le attr gs i g h
    rw [cornersBefore_succ, cornerCount_cons]
    split <;> omega

theorem faceCorner_field {size po k cb : Nat} (hpo : po = (1 + cb) % U32)
    (hlt : k + 1 + cb < U32) (hsize : size ≠ 0 → k < size) :
    (if k < size then (k + po) % U32 else 0) = if size = 0 then 0 else k + 1 + cb := by
  have hU : U32 = 4294967296 := rfl
  by_cases h0 : size = 0
  · rw [if_pos h0, if_neg (by omega)]
  · rw [if_neg h0, if_pos (hsize h0), hpo, hU]
    omega

theorem fieldText_field {xs : List Nat} {x v : Nat} (hv : v ≠ 0)
    (h : x = if xs.length = 0 then 0 else v) :
    x = (if xs = [] then 0 else v) ∧ fieldText x = if xs = [] then "" else toString v := by
  unfold fieldText
  by_cases h0 : xs = []
  · have hl : xs.length = 0 := by rw [h0]; rfl
    rw [if_pos hl] at h
    rw [if_pos h0, if_pos h0, h]
    exact ⟨rfl, rfl⟩
  · have hl : xs.length ≠ 0 := fun hh => h0 (List.length_eq_zero.1 hh)
    rw [if_neg hl] at h
    rw [if_neg h0, if_neg h0, h, if_pos hv]
    exact ⟨rfl, rfl⟩

theorem cornerAt_export {fuel : Nat} {object : BMF_Object}
    (hd : ∀ g ∈ object.geometries, DataModel g)
    (h3 : ∀ g ∈ object.geometries, 3 * g.indices.length < U32)
    (ht : cornerCount object.geometries < U32)
    (hf : ∀ g ∈ object.geometries, g.indices.length ≤ fuel) :
    ExportToOBJ fuel object =
      .ok (object.geometries.flatMap elementsOf ++ modelLinesOf object.geometries 1 1 1) ∧
    ∀ i g k, object.geometries[i]? = some g → k < g.indices.length →
      ∃ c, cornerAt (faceBlock (object.geometries.flatMap elementsOf ++
          modelLinesOf object.geometries 1 1 1) i) k = some c ∧
        c.p = (if g.positions.length = 0 then 0
          else k + 1 + cornersBefore (fun g => g.positions) object.geometries i) ∧
        c.u = (if g.uvs.length = 0 then 0
          else k + 1 + cornersBefore (fun g => g.uvs) object.geometries i) ∧
        c.n = (if g.normals.length = 0 then 0
          else k + 1 + cornersBefore (fun g => g.normals) object.geometries i) := by
  have hU : U32 = 4294967296 := rfl
  refine ⟨ExportToOBJ_eq (fun g hg => Exportable.of_dataModel (hd g hg) (h3 g hg) (hf g hg)), ?_⟩
  intro i g k hi hk
  have hg : g ∈ object.geometries := by
    obtain ⟨hlt, he⟩ := List.getElem?_eq_some.1 hi
    rw [← he]
    exact List.getElem_mem hlt
  obtain ⟨hp, hu, hn, hm⟩ := hd g hg
  rw [faceBlock_export _ i g hi, cornerAt_faceLinesOf _ _ _ _ _ k (by omega)]
  refine ⟨_, rfl, ?_, ?_, ?_⟩
  · have hle := cornersBefore_add_le (fun g => g.positions) _ i g hi
    exact faceCorner_field (offsetAt_eq (fun g => g.positions) _ 1 i (by omega))
      (by omega) (fun _ => by omega)
  · have hle := cornersBefore_add_le (fun g => g.uvs) _ i g hi
    refine faceCorner_field (offsetAt_eq (fun g => g.uvs) _ 1 i (by omega))
      (by omega) (fun h0 => ?_)
    have := hu (fun he => h0 (by rw [he]; rfl))
    omega
  · have hle := cornersBefore_add_le (fun g => g.normals) _ i g hi
    refine faceCorner_field (offsetAt_eq (fun g => g.normals) _ 1 i (by omega))
      (by omega) (fun h0 => ?_)
    have := hn (fun he => h0 (by rw [he]; rfl))
    omega

/-! ### Geometries with very many corners -/

theorem flatGeometry_indices_length (n : Nat) : (flatGeometry n).indices.length = n :=
  List.length_replicate _ _

theorem flatGeometry_positions_length (n : Nat) : (flatGeometry n).positions.length = 3 * n :=
  List.length_replicate _ _

theorem flatGeometry_positions_ne_nil (n : Nat) (h : n ≠ 0) : (flatGeometry n).positions ≠ [] := by
  intro he
  have := flatGeometry_positions_length n
  rw [he] at this
  simp at this
  omega

theorem flatGeometry_dataModel (n : Nat) (h : n % 3 = 0) : DataModel (flatGeometry n) := by
  refine ⟨?_, fun hu => absurd rfl hu, fun hn => absurd rfl hn, ?_⟩
  · rw [flatGeometry_positions_length, flatGeometry_indices_length]
  · rw [flatGeometry_indices_length]; exact h

theorem faceCorner_p (g : BMF_Geometry) (po uo no idx : Nat) :
    (faceCorner g po uo no idx).p =
      if idx < g.positions.length then (idx + po) % U32 else 0 := rfl

theorem cornersBefore_four (n : Nat) (h : n ≠ 0) :
    cornersBefore (fun g => g.positions)
      [flatGeometry n, flatGeometry n, flatGeometry n, flatGeometry n] 3 = 3 * n := by
  have hne := flatGeometry_positions_ne_nil n h
  rw [cornersBefore_succ, cornersBefore_succ, cornersBefore_succ, cornersBefore_zero]
  simp only [if_pos hne, flatGeometry_indices_length]
  omega

theorem cornerAt_four (n fuel : Nat) (h3 : n % 3 = 0) (h0 : 3 < n) (hU : 3 * n < U32)
    (hf : n ≤ fuel) :
    ∃ out, ExportToOBJ fuel
        { geometries := [flatGeometry n, flatGeometry n, flatGeometry n, flatGeometry n] } =
        .ok out ∧
      cornerAt (faceBlock out 3) 3 = some (faceCorner (flatGeometry n) ((1 + 3 * n) % U32)
        (offsetAt (fun g => g.uvs.length)
          [flatGeometry n, flatGeometry n, flatGeometry n, flatGeometry n] 1 3)
        (offsetAt (fun g => g.normals.length)
          [flatGeometry n, flatGeometry n, flatGeometry n, flatGeometry n] 1 3) 3) := by
  have hall : ∀ g ∈ [flatGeometry n, flatGeometry n, flatGeometry n, flatGeometry n],
      g = flatGeometry n := by
    intro g hg
    simpa using hg
  have hex : ∀ g ∈ ({ geometries := [flatGeometry n, flatGeometry n, flatGeometry n,
      flatGeometry n] } : BMF_Object).geometries, Exportable fuel g := by
    intro g hg
    rw [hall g hg]
    exact Exportable.of_dataModel (flatGeometry_dataModel n h3)
      (by rw [flatGeometry_indices_length]; exact hU)
      (by rw [flatGeometry_indices_length]; exact hf)
  refine ⟨_, ExportToOBJ_eq hex, ?_⟩
  have hU' : U32 = 4294967296 := rfl
  rw [faceBlock_export _ 3 (flatGeometry n) rfl,
    cornerAt_faceLinesOf _ _ _ _ _ 3 (by rw [flatGeometry_indices_length]; omega),
    offsetAt_eq (fun g => g.positions) _ 1 3 (by omega), cornersBefore_four n (by omega)]

/-! ### The attribute lines of the output -/

theorem vLinesOf_length : ∀ (xs : List Nat), (vLinesOf xs).length = xs.length / 3
  | [] => rfl
  | [_] => by simp [vLinesOf]
  | [_, _] => by simp [vLinesOf]
  | _ :: _ :: _ :: rest => by
    simp only [vLinesOf, List.length_cons, vLinesOf_length rest]
    omega

theorem vtLinesOf_length : ∀ (xs : List Nat), (vtLinesOf xs).length = xs.length / 2
  | [] => rfl
  | [_] => by simp [vtLinesOf]
  | _ :: _ :: rest => by
    simp only [vtLinesOf, List.length_cons, vtLinesOf_length rest]
    omega

theorem vnLinesOf_length : ∀ (xs : List Nat), (vnLinesOf xs).length = xs.length / 3
  | [] => rfl
  | [_] => by simp [vnLinesOf]
  | [_, _] => by simp [vnLinesOf]
  | _ :: _ :: _ :: rest => by
    simp only [vnLinesOf, List.length_cons, vnLinesOf_length rest]
    omega

theorem vLinesOf_getElem? : ∀ (xs : List Nat) (k : Nat), 3 * k + 2 < xs.length →
    ∃ x y z, xs[3 * k]? = some x ∧ xs[3 * k + 1]? = some y ∧ xs[3 * k + 2]? = some z ∧
      (vLinesOf xs)[k]? = some (.v x y z)
  | [], k, h => by simp at h
  | [_], k, h => by simp at h
  | [_, _], k, h => by simp at h
  | x :: y :: z :: rest, 0, _ => ⟨x, y, z, by simp, by simp, by simp, by simp [vLinesOf]⟩
  | x :: y :: z :: rest, k + 1, h => by
    obtain ⟨a, b, c, ha, hb, hc, hl⟩ := vLinesOf_getElem? rest k
      (by simp only [List.length_cons] at h; omega)
    refine ⟨a, b, c, ?_, ?_, ?_, ?_⟩
    · rw [show 3 * (k + 1) = 3 * k + 1 + 1 + 1 by omega]; simpa using ha
    · rw [show 3 * (k + 1) + 1 = 3 * k + 1 + 1 + 1 + 1 by omega]; simpa using hb
    · rw [show 3 * (k + 1) + 2 = 3 * k + 2 + 1 + 1 + 1 by omega]; simpa using hc
    · rw [vLinesOf, List.getElem?_cons_succ]; exact hl

theorem vnLinesOf_getElem? : ∀ (xs : List Nat) (k : Nat), 3 * k + 2 < xs.length →
    ∃ x y z, xs[3 * k]? = some x ∧ xs[3 * k + 1]? = some y ∧ xs[3 * k + 2]? = some z ∧
      (vnLinesOf xs)[k]? = some (.vn x y z)
  | [], k, h => by simp at h
  | [_], k, h => by simp at h
  | [_, _], k, h => by simp at h
  | x :: y :: z :: rest, 0, _ => ⟨x, y, z, by simp, by simp, by simp, by simp [vnLinesOf]⟩
  | x :: y :: z :: rest, k + 1, h => by
    obtain ⟨a, b, c, ha, hb, hc, hl⟩ := vnLinesOf_getElem? rest k
      (by simp only [List.length_cons] at h; omega)
    refine ⟨a, b, c, ?_, ?_, ?_, ?_⟩
    · rw [show 3 * (k + 1) = 3 * k + 1 + 1 + 1 by omega]; simpa using ha
    · rw [show 3 * (k + 1) + 1 = 3 * k + 1 + 1 + 1 + 1 by omega]; simpa using hb
    · rw [show 3 * (k + 1) + 2 = 3 * k + 2 + 1 + 1 + 1 by omega]; simpa using hc
    · rw [vnLinesOf, List.getElem?_cons_succ]; exact hl

theorem vtLinesOf_getElem? : ∀ (xs : List Nat) (k : Nat), 2 * k + 1 < xs.length →
    ∃ u v, xs[2 * k]? = some u ∧ xs[2 * k + 1]? = some v ∧
      (vtLinesOf xs)[k]? = some (.vt u v)
  | [], k, h => by simp at h
  | [_], k, h => by simp at h
  | u :: v :: rest, 0, _ => ⟨u, v, by simp, by simp, by simp [vtLinesOf]⟩
  | u :: v :: rest, k + 1, h => by
    obtain ⟨a, b, ha, hb, hl⟩ := vtLinesOf_getElem? rest k
      (by simp only [List.length_cons] at h; omega)
    refine ⟨a, b, ?_, ?_, ?_⟩
    · rw [show 2 * (k + 1) = 2 * k + 1 + 1 by omega]; simpa using ha
    · rw [show 2 * (k + 1) + 1 = 2 * k + 1 + 1 + 1 by omega]; simpa using hb
    · rw [vtLinesOf, List.getElem?_cons_succ]; exact hl

theorem filter_eq_self_of {p : Line → Bool} {ls : List Line} (h : ∀ l ∈ ls, p l = true) :
    ls.filter p = ls :=
  List.filter_eq_self.2 h

theorem filter_eq_nil_of {p : Line → Bool} {ls : List Line} (h : ∀ l ∈ ls, p l = false) :
    ls.filter p = [] := by
  rw [List.filter_eq_nil_iff]
  intro l hl
  rw [h l hl]
  simp

theorem filter_flatMap (p : Line → Bool) (f : BMF_Geometry → List Line) :
    ∀ (gs : List BMF_Geometry), (gs.flatMap f).filter p = gs.flatMap (fun g => (f g).filter p)
  | [] => rfl
  | g :: gs => by
    rw [List.flatMap_cons, List.flatMap_cons, List.filter_append, filter_flatMap p f gs]

theorem modelLinesOf_kind : ∀ (gs : List BMF_Geometry) (po uo no : Nat) (l : Line),
    l ∈ modelLinesOf gs po uo no → l.isV = false ∧ l.isVT = false ∧ l.isVN = false
  | [], _, _, _, l, h => by simp [modelLinesOf] at h
  | g :: gs, po, uo, no, l, h => by
    rw [modelLinesOf, List.cons_append] at h
    rcases List.mem_cons.1 h with rfl | h
    · exact ⟨rfl, rfl, rfl⟩
    · rcases List.mem_append.1 h with h | h
      · have := faceLinesOf_isF _ _ _ _ _ _ l h
        cases l <;> simp_all [Line.isF, Line.isV, Line.isVT, Line.isVN]
      · exact modelLinesOf_kind gs _ _ _ l h

theorem filter_isV_elementsOf (g : BMF_Geometry) :
    (elementsOf g).filter Line.isV = vLinesOf g.positions := by
  unfold elementsOf
  rw [List.filter_append, List.filter_append, filter_eq_self_of (vLinesOf_isV _),
    filter_eq_nil_of, filter_eq_nil_of, List.append_nil, List.append_nil]
  · intro l hl
    have := vnLinesOf_isVN _ l hl
    cases l <;> simp_all [Line.isV, Line.isVN]
  · intro l hl
    have := vtLinesOf_isVT _ l hl
    cases l <;> simp_all [Line.isV, Line.isVT]

theorem filter_isVT_elementsOf (g : BMF_Geometry) :
    (elementsOf g).filter Line.isVT = vtLinesOf g.uvs := by
  unfold elementsOf
  rw [List.filter_append, List.filter_append, filter_eq_self_of (vtLinesOf_isVT _),
    filter_eq_nil_of, filter_eq_nil_of, List.append_nil, List.nil_append]
  · intro l hl
    have := vnLinesOf_isVN _ l hl
    cases l <;> simp_all [Line.isVT, Line.isVN]
  · intro l hl
    have := vLinesOf_isV _ l hl
    cases l <;> simp_all [Line.isV, Line.isVT]

theorem filter_isVN_elementsOf (g : BMF_Geometry) :
    (elementsOf g).filter Line.isVN = vnLinesOf g.normals := by
  unfold elementsOf
  rw [List.filter_append, List.filter_append, filter_eq_self_of (vnLinesOf_isVN _),
    filter_eq_nil_of, filter_eq_nil_of, List.nil_append, List.nil_append]
  · intro l hl
    have := vtLinesOf_isVT _ l hl
    cases l <;> simp_all [Line.isVT, Line.isVN]
  · intro l hl
    have := vLinesOf_isV _ l hl
    cases l <;> simp_all [Line.isV, Line.isVN]

theorem filter_export (gs : List BMF_Geometry) :
    (gs.flatMap elementsOf ++ modelLinesOf gs 1 1 1).filter Line.isV =
      gs.flatMap (fun g => vLinesOf g.positions) ∧
    (gs.flatMap elementsOf ++ modelLinesOf gs 1 1 1).filter Line.isVT =
      gs.flatMap (fun g => vtLinesOf g.uvs) ∧
    (gs.flatMap elementsOf ++ modelLinesOf gs 1 1 1).filter Line.isVN =
      gs.flatMap (fun g => vnLinesOf g.normals) := by
  refine ⟨?_, ?_, ?_⟩
  · rw [List.filter_append, filter_flatMap,
      filter_eq_nil_of (fun l hl => (modelLinesOf_kind _ _ _ _ l hl).1), List.append_nil]
    simp only [filter_isV_elementsOf]
  · rw [List.filter_append, filter_flatMap,
      filter_eq_nil_of (fun l hl => (modelLinesOf_kind _ _ _ _ l hl).2.1), List.append_nil]
    simp only [filter_isVT_elementsOf]
  · rw [List.filter_append, filter_flatMap,
      filter_eq_nil_of (fun l hl => (modelLinesOf_kind _ _ _ _ l hl).2.2), List.append_nil]
    simp only [filter_isVN_elementsOf]

theorem flatMap_getElem? (f : BMF_Geometry → List Line) :
    ∀ (gs : List BMF_Geometry) (i : Nat) (g : BMF_Geometry) (k : Nat), gs[i]? = some g →
      k < (f g).length →
      (gs.flatMap f)[((gs.take i).flatMap f).length + k]? = (f g)[k]?
  | [], i, g, k, h, _ => by simp at h
  | g0 :: gs, 0, g, k, h, hk => by
    simp only [List.getElem?_cons_zero, Option.some.injEq] at h
    subst h
    rw [List.take_zero, List.flatMap_nil, List.length_nil, Nat.zero_add, List.flatMap_cons,
      List.getElem?_append_left hk]
  | g0 :: gs, i + 1, g, k, h, hk => by
    simp only [List.getElem?_cons_succ] at h
    rw [List.take_succ_cons, List.flatMap_cons, List.flatMap_cons, List.length_append,
      Nat.add_assoc, List.getElem?_append_right (Nat.le_add_right _ _),
      Nat.add_sub_cancel_left, flatMap_getElem? f gs i g k h hk]

theorem flatMap_take_length (f : BMF_Geometry → List Line) (attr : BMF_Geometry → List Nat)
    (hlen : ∀ g, DataModel g → (f g).length = if attr g ≠ [] then g.indices.length else 0) :
    ∀ (gs : List BMF_Geometry) (i : Nat), (∀ g ∈ gs, DataModel g) →
      ((gs.take i).flatMap f).length = cornersBefore attr gs i
  | [], i, _ => by rw [cornersBefore_nil]; simp
  | g :: gs, 0, _ => by rw [cornersBefore_zero]; simp
  | g :: gs, i + 1, h => by
    rw [List.take_succ_cons, List.flatMap_cons, List.length_append, cornersBefore_succ,
      hlen g (h g (List.mem_cons_self _ _)),
      flatMap_take_length f attr hlen gs i (fun g' hg' => h g' (List.mem_cons_of_mem _ hg'))]

theorem vLinesOf_length_of_dataModel (g : BMF_Geometry) (h : DataModel g) :
    (vLinesOf g.positions).length = if g.positions ≠ [] then g.indices.length else 0 := by
  rw [vLinesOf_length, h.1]
  by_cases he : g.positions = []
  · have h0 : g.positions.length = 0 := by rw [he]; rfl
    have := h.1
    rw [if_neg (not_not.2 he)]
    omega
  · rw [if_pos he]
    omega

theorem vtLinesOf_length_of_dataModel (g : BMF_Geometry) (h : DataModel g) :
    (vtLinesOf g.uvs).length = if g.uvs ≠ [] then g.indices.length else 0 := by
  rw [vtLinesOf_length]
  by_cases he : g.uvs = []
  · rw [if_neg (not_not.2 he), he]
    rfl
  · rw [if_pos he, h.2.1 he]
    omega

theorem vnLinesOf_length_of_dataModel (g : BMF_Geometry) (h : DataModel g) :
    (vnLinesOf g.normals).length = if g.normals ≠ [] then g.indices.length else 0 := by
  rw [vnLinesOf_length]
  by_cases he : g.normals = []
  · rw [if_neg (not_not.2 he), he]
    rfl
  · rw [if_pos he, h.2.2.1 he]
    omega

/-! ### A loop that does not end -/

theorem vecGet_of_lt {v : List Nat} {i : Nat} (h : i < v.length) : ∃ x, vecGet v i = .ok x :=
  ⟨v[i], vecGet_ok.2 (List.getElem?_eq_getElem h)⟩

theorem positionLines_outOfFuel {positions : List Nat} (h : U32 ≤ positions.length) :
    ∀ (fuel i : Nat), i < U32 → positionLines positions fuel i = .error .outOfFuel
  | 0, i, hi => by
    rw [positionLines, if_pos (by omega)]
  | fuel + 1, i, hi => by
    have hU : U32 = 4294967296 := rfl
    have hm : ∀ j, j % U32 < positions.length := fun j =>
      lt_of_lt_of_le (Nat.mod_lt _ (by omega)) h
    obtain ⟨x, hx⟩ := vecGet_of_lt (hm (i + 0))
    obtain ⟨y, hy⟩ := vecGet_of_lt (hm (i + 1))
    obtain ⟨z, hz⟩ := vecGet_of_lt (hm (i + 2))
    rw [positionLines, if_pos (by omega), hx, hy, hz,
      positionLines_outOfFuel h fuel ((i + 3) % U32) (Nat.mod_lt _ (by omega))]
    rfl

theorem Read_eq (object : BMF_Object) (file : List Byte) (fuel : Nat) (h : file.length < fuel) :
    Read object file = (decode fuel object (openFile file)).map Prod.fst := by
  unfold Read decodeFile
  rw [decode_fuel (file.length + 1) fuel object (openFile file) (Nat.lt_succ_self _) h]

/-! ### Look-ahead words -/

theorem decode_of_loop_exit {object : BMF_Object} {file : List Byte}
    {positions : List Nat} {s : LoopState} {r : MeshResult} {st : Stream}
    (hs : ReachesMesh object file positions s)
    (hr : readMesh positions s.colors s.geometries s.file = .ok (r, st))
    (h1 : r.d ≠ BMF_HAS_MESH) (h2 : r.d ≠ BMF_GOT_BMF) :
    decode (file.length + 1) object (openFile file) = .error .assertFailed := by
  obtain ⟨positionCount, st1, c, st2, hp, hc, hl, hd⟩ := hs
  have l1 := readPositions_local.length_le hp
  have l2 := (readColors_local positionCount).length_le hc
  have h0 : (openFile file).rest.length = file.length := rfl
  obtain ⟨fuel', hf', he⟩ := meshLoop_reaches hl (file.length + 1) (by simp only; omega)
  obtain ⟨k, rfl⟩ : ∃ k, fuel' = k + 1 := ⟨fuel' - 1, by omega⟩
  unfold decode
  rw [Rd.bind_eq_of_ok hp, Rd.bind_eq_of_ok hc]
  simp only at he ⊢
  have hloop : meshLoop positions (file.length + 1) c.1 object.geometries c.2 st2 =
      .ok ((s.geometries ++ [r.geometry], r.d), st) := by
    rw [he, meshLoop, if_pos hd, Rd.bind_eq_of_ok hr]
    exact meshLoop_done _ h1
  rw [Rd.bind_eq_of_ok hloop, Rd.bind_error]
  rw [AssertEq_ne h2]
  rfl

theorem Read_of_unexpectedTag {object : BMF_Object} {file : List Byte}
    (h : UnexpectedTag object file) : Read object file = .error .assertFailed := by
  apply Read_of_decode_error
  cases h with
  | afterColors p st1 st2 c hp hc h1 h2 =>
    unfold decode
    rw [Rd.bind_eq_of_ok hp, Rd.bind_eq_of_ok hc,
      Rd.bind_eq_of_ok (meshLoop_done st2 h1), Rd.bind_error]
    rw [AssertEq_ne h2]
    rfl
  | endOfMesh positions s hd uv nr st1 st2 st3 hs hh hu hn hne =>
    apply decode_of_readMesh_error hs
    unfold readMesh
    apply Rd.bind_error
    unfold readMeshData
    rw [Rd.bind_eq_of_ok hh, Rd.bind_eq_of_ok hu, Rd.bind_eq_of_ok hn, Rd.bind_error]
    rw [AssertEq_ne hne]
    rfl
  | afterMesh positions s r st hs hr h1 h2 =>
    exact decode_of_loop_exit hs hr h1 h2

theorem asserted_tag_is_fatal (object object' : BMF_Object) (file : List Byte)
    (st : Stream) (h : decodeFile object file = .ok (object', st)) (q : Nat) (hq : q ∈ st.tags)
    (w : List Byte) (hw : w.length = 4) (hne : w ≠ (file.drop q).take 4) :
    q + 4 ≤ file.length ∧
    Read object (file.take q ++ w ++ file.drop (q + 4)) = .error .assertFailed := by
  obtain ⟨c, _, r⟩ := decode_local (file.length + 1) object (openFile file) object' st h
  have hfile : file = c ++ st.rest := r.rest
  rcases r.tag q hq with h0 | ⟨pre, w0, post, hc, hw0, hqe, hs⟩
  · simp [openFile] at h0
  · have hq' : q = pre.length := by simpa [openFile] using hqe
    have hfile' : file = pre ++ (w0 ++ (post ++ st.rest)) := by
      rw [hfile, hc]; simp only [List.append_assoc]
    have e1 : file.take q = pre := by
      rw [hfile', hq', List.take_left']
      rfl
    have e2 : (file.drop q).take 4 = w0 := by
      rw [hfile', hq', List.drop_left', ← hw0, List.take_left']
      · rfl
      · rfl
    have e3 : file.drop (q + 4) = post ++ st.rest := by
      rw [hfile', hq', ← List.drop_drop, List.drop_left', ← hw0, List.drop_left']
      · rfl
      · rfl
    have hlenf : file.length = pre.length + (4 + (post.length + st.rest.length)) := by
      rw [hfile']; simp only [List.length_append, hw0]
    refine ⟨by omega, ?_⟩
    have hlen : (file.take q ++ w ++ file.drop (q + 4)).length < file.length + 1 := by
      rw [e1, e3]; simp only [List.length_append, hw]; omega
    rw [Read_eq object _ (file.length + 1) hlen, e1, e3]
    have := hs w hw (by rw [← e2]; exact hne) st.rest
    simp only [openFile, List.append_assoc] at this ⊢
    rw [this]
    rfl

/-! ### The fuel of `Read` is never used up -/

theorem except_bind_ne_outOfFuel {α β : Type} {x : Except Fault α} {f : α → Except Fault β}
    (hx : x ≠ .error .outOfFuel) (hf : ∀ a, f a ≠ .error .outOfFuel) :
    (x >>= f) ≠ .error .outOfFuel := by
  cases x with
  | error e => exact fun h => hx (by cases h; rfl)
  | ok a => exact hf a

theorem rd_bind_ne_outOfFuel {α β : Type} {x : Rd α} {f : α → Rd β} {st : Stream}
    (hx : x st ≠ .error .outOfFuel)
    (hf : ∀ a st', x st = .ok (a, st') → f a st' ≠ .error .outOfFuel) :
    (x >>= f) st ≠ .error .outOfFuel := by
  rw [Rd.bind_apply]
  cases h : x st with
  | error e =>
    intro he
    apply hx
    rw [h]
    cases he
    rfl
  | ok v => exact hf v.1 v.2 h

theorem noFuelFault_bind {α β : Type} {x : Rd α} {f : α → Rd β} (hx : NoFuelFault x)
    (hf : ∀ a, NoFuelFault (f a)) : NoFuelFault (x >>= f) :=
  fun st => rd_bind_ne_outOfFuel (hx st) (fun a st' _ => hf a st')

theorem noFuelFault_pure {α : Type} (a : α) : NoFuelFault (pure a : Rd α) := by
  intro st h
  cases h

theorem noFuelFault_lift {α : Type} {x : Except Fault α} (hx : x ≠ .error .outOfFuel) :
    NoFuelFault (Rd.lift x) := by
  intro st
  cases x with
  | error e => exact fun h => hx (by cases h; rfl)
  | ok a => exact fun h => by cases h

theorem noFuelFault_ite {α : Type} {p : Prop} [Decidable p] {x y : Rd α}
    (hx : NoFuelFault x) (hy : NoFuelFault y) : NoFuelFault (if p then x else y) := by
  split
  · exact hx
  · exact hy

theorem AssertEq_ne_outOfFuel (a b : Nat) : AssertEq a b ≠ .error .outOfFuel := by
  unfold AssertEq
  split <;> exact fun h => by cases h

theorem Assert_ne_outOfFuel (b : Bool) : Assert b ≠ .error .outOfFuel := by
  unfold Assert
  split <;> exact fun h => by cases h

theorem vecGet_ne_outOfFuel (v : List Nat) (i : Nat) : vecGet v i ≠ .error .outOfFuel := by
  unfold vecGet
  split <;> exact fun h => by cases h

theorem vecSet_ne_outOfFuel (v : List Nat) (i x : Nat) : vecSet v i x ≠ .error .outOfFuel := by
  unfold vecSet
  split <;> exact fun h => by cases h

theorem positionStep_ne_outOfFuel (positions : List Nat) (idx k : Nat) (out : List Nat) :
    positionStep positions idx k out ≠ .error .outOfFuel := by
  unfold positionStep
  exact except_bind_ne_outOfFuel (Assert_ne_outOfFuel _) (fun _ =>
    except_bind_ne_outOfFuel (vecGet_ne_outOfFuel _ _) (fun _ =>
      except_bind_ne_outOfFuel (vecSet_ne_outOfFuel _ _ _) (fun _ =>
        except_bind_ne_outOfFuel (vecGet_ne_outOfFuel _ _) (fun _ =>
          except_bind_ne_outOfFuel (vecSet_ne_outOfFuel _ _ _) (fun _ =>
            except_bind_ne_outOfFuel (vecGet_ne_outOfFuel _ _) (fun _ =>
              vecSet_ne_outOfFuel _ _ _))))))

theorem colorStep_ne_outOfFuel (colors : List Nat) (idx k : Nat) (out : List Nat) :
    colorStep colors idx k out ≠ .error .outOfFuel := by
  unfold colorStep
  exact except_bind_ne_outOfFuel (Assert_ne_outOfFuel _) (fun _ =>
    except_bind_ne_outOfFuel (vecGet_ne_outOfFuel _ _) (fun _ =>
      except_bind_ne_outOfFuel (vecSet_ne_outOfFuel _ _ _) (fun _ =>
        except_bind_ne_outOfFuel (vecGet_ne_outOfFuel _ _) (fun _ =>
          except_bind_ne_outOfFuel (vecSet_ne_outOfFuel _ _ _) (fun _ =>
            except_bind_ne_outOfFuel (vecGet_ne_outOfFuel _ _) (fun _ =>
              vecSet_ne_outOfFuel _ _ _))))))

theorem positionLoop_ne_outOfFuel (positions : List Nat) :
    ∀ (indices : List Nat) (k : Nat) (out : List Nat),
      positionLoop positions indices k out ≠ .error .outOfFuel
  | [], _, _ => fun h => by cases h
  | idx :: rest, k, out => by
    rw [positionLoop]
    exact except_bind_ne_outOfFuel (positionStep_ne_outOfFuel _ _ _ _)
      (fun o => positionLoop_ne_outOfFuel positions rest (k + 1) o)

theorem colorLoop_ne_outOfFuel (colors : List Nat) :
    ∀ (indices : List Nat) (k : Nat) (out : List Nat),
      colorLoop colors indices k out ≠ .error .outOfFuel
  | [], _, _ => fun h => by cases h
  | idx :: rest, k, out => by
    rw [colorLoop]
    exact except_bind_ne_outOfFuel (colorStep_ne_outOfFuel _ _ _ _)
      (fun o => colorLoop_ne_outOfFuel colors rest (k + 1) o)

theorem processColors_ne_outOfFuel (colors indices : List Nat) :
    processColors colors indices ≠ .error .outOfFuel := by
  unfold processColors
  split
  · exact except_bind_ne_outOfFuel (colorLoop_ne_outOfFuel _ _ _ _) (fun _ h => by cases h)
  · exact fun h => by cases h

theorem processMesh_ne_outOfFuel (positions colors : List Nat) (m : MeshData) :
    processMesh positions colors m ≠ .error .outOfFuel := by
  unfold processMesh
  exact except_bind_ne_outOfFuel (AssertEq_ne_outOfFuel _ _) (fun _ =>
    except_bind_ne_outOfFuel (positionLoop_ne_outOfFuel _ _ _ _) (fun _ =>
      except_bind_ne_outOfFuel (processColors_ne_outOfFuel _ _) (fun _ h => by cases h)))

theorem GetData_noFuelFault (size : Nat) : NoFuelFault (GetData size) := by
  intro st
  unfold GetData
  split
  · exact fun h => by cases h
  · split <;> exact fun h => by cases h

theorem GetUint32_noFuelFault : NoFuelFault GetUint32 := by
  unfold GetUint32
  exact noFuelFault_bind (GetData_noFuelFault 4) (fun _ => noFuelFault_pure _)

theorem GetUint32Array_noFuelFault (size : Nat) : NoFuelFault (GetUint32Array size) := by
  unfold GetUint32Array
  exact noFuelFault_bind (GetData_noFuelFault _) (fun _ => noFuelFault_pure _)

theorem GetString_noFuelFault : NoFuelFault GetString := by
  unfold GetString
  exact noFuelFault_bind GetUint32_noFuelFault (fun n =>
    noFuelFault_bind (GetData_noFuelFault n) (fun _ => noFuelFault_pure _))

theorem GetTag_noFuelFault (tag : Nat) : NoFuelFault (GetTag tag) := by
  intro st
  unfold GetTag
  cases h : GetUint32 st with
  | error e =>
    intro he
    simp only at he
    cases he
    exact GetUint32_noFuelFault st h
  | ok v =>
    simp only
    split <;> exact fun h => by cases h

theorem readName_noFuelFault (gs : List BMF_Geometry) : NoFuelFault (readName gs) := by
  unfold readName
  refine noFuelFault_bind GetUint32_noFuelFault (fun d => noFuelFault_ite ?_ (noFuelFault_pure _))
  exact noFuelFault_bind GetString_noFuelFault (fun _ =>
    noFuelFault_bind (GetTag_noFuelFault _) (fun _ => noFuelFault_pure _))

theorem readAttribute_noFuelFault (has got width triangleCount d : Nat) :
    NoFuelFault (readAttribute has got width triangleCount d) := by
  unfold readAttribute
  refine noFuelFault_ite ?_ (noFuelFault_pure _)
  exact noFuelFault_bind GetUint32_noFuelFault (fun _ =>
    noFuelFault_bind (noFuelFault_lift (AssertEq_ne_outOfFuel _ _)) (fun _ =>
      noFuelFault_bind (GetUint32Array_noFuelFault _) (fun _ =>
        noFuelFault_bind (GetTag_noFuelFault _) (fun _ =>
          noFuelFault_bind GetUint32_noFuelFault (fun _ => noFuelFault_pure _)))))

theorem readMesh_noFuelFault (positions colors : List Nat) (gs : List BMF_Geometry) :
    NoFuelFault (readMesh positions colors gs) := by
  unfold readMesh readMeshData readMeshHead
  exact noFuelFault_bind
    (noFuelFault_bind
      (noFuelFault_bind (readName_noFuelFault gs) (fun _ =>
        noFuelFault_bind GetUint32_noFuelFault (fun _ =>
          noFuelFault_bind (GetUint32Array_noFuelFault _) (fun _ =>
            noFuelFault_bind (GetTag_noFuelFault _) (fun _ =>
              noFuelFault_bind GetUint32_noFuelFault (fun _ => noFuelFault_pure _))))))
      (fun _ =>
        noFuelFault_bind (readAttribute_noFuelFault _ _ _ _ _) (fun _ =>
          noFuelFault_bind (readAttribute_noFuelFault _ _ _ _ _) (fun _ =>
            noFuelFault_bind (noFuelFault_lift (AssertEq_ne_outOfFuel _ _)) (fun _ =>
              noFuelFault_bind GetUint32_noFuelFault (fun _ => noFuelFault_pure _))))))
    (fun m => noFuelFault_lift (processMesh_ne_outOfFuel _ _ m))

theorem meshLoop_ne_outOfFuel (positions : List Nat) :
    ∀ (fuel : Nat) (colors : List Nat) (gs : List BMF_Geometry) (d : Nat) (st : Stream),
      st.rest.length < fuel → meshLoop positions fuel colors gs d st ≠ .error .outOfFuel
  | 0, _, _, _, _, h => by omega
  | fuel + 1, colors, gs, d, st, h => by
    rw [meshLoop]
    by_cases hd : d = BMF_HAS_MESH
    · rw [if_pos hd]
      refine rd_bind_ne_outOfFuel (readMesh_noFuelFault positions colors gs st) ?_
      intro r st1 hr
      have hlen := (readMesh_local positions colors gs).length_le hr
      exact meshLoop_ne_outOfFuel positions fuel _ _ _ st1 (by omega)
    · rw [if_neg hd]
      exact fun he => by cases he

theorem readPositions_noFuelFault : NoFuelFault readPositions := by
  unfold readPositions
  exact noFuelFault_bind (GetTag_noFuelFault _) (fun _ =>
    noFuelFault_bind (GetTag_noFuelFault _) (fun _ =>
      noFuelFault_bind GetUint32_noFuelFault (fun _ =>
        noFuelFault_bind (GetUint32Array_noFuelFault _) (fun _ =>
          noFuelFault_bind (GetTag_noFuelFault _) (fun _ => noFuelFault_pure _)))))

theorem readColors_noFuelFault (positionCount : Nat) : NoFuelFault (readColors positionCount) := by
  unfold readColors
  refine noFuelFault_bind GetUint32_noFuelFault (fun d => noFuelFault_ite ?_ (noFuelFault_pure _))
  exact noFuelFault_bind GetUint32_noFuelFault (fun _ =>
    noFuelFault_bind (noFuelFault_lift (AssertEq_ne_outOfFuel _ _)) (fun _ =>
      noFuelFault_bind (GetUint32Array_noFuelFault _) (fun _ =>
        noFuelFault_bind (GetTag_noFuelFault _) (fun _ =>
          noFuelFault_bind GetUint32_noFuelFault (fun _ => noFuelFault_pure _)))))

/-- The fuel that `Read` gives to the mesh loop is never used up: `Read` ends
with a result, with a failed assertion or with an access outside a vector. -/
theorem Read_ne_outOfFuel (object : BMF_Object) (file : List Byte) :
    Read object file ≠ .error .outOfFuel := by
  have key : decode (file.length + 1) object (openFile file) ≠ .error .outOfFuel := by
    unfold decode
    refine rd_bind_ne_outOfFuel (readPositions_noFuelFault _) (fun p st1 hp => ?_)
    refine rd_bind_ne_outOfFuel (readColors_noFuelFault _ _) (fun c st2 hc => ?_)
    have h1 := readPositions_local.length_le hp
    have h2 := (readColors_local p.1).length_le hc
    have h0 : (openFile file).rest.length = file.length := rfl
    refine rd_bind_ne_outOfFuel (meshLoop_ne_outOfFuel _ _ _ _ _ _ (by omega))
      (fun r st3 _ => ?_)
    exact noFuelFault_bind (noFuelFault_lift (AssertEq_ne_outOfFuel _ _))
      (fun _ => noFuelFault_pure _) st3
  unfold Read decodeFile
  cases hd : decode (file.length + 1) object (openFile file) with
  | error e =>
    intro h
    apply key
    rw [hd]
    cases h
    rfl
  | ok v => exact fun h => by cases h

/-! ### The geometries that `Read` pushes -/

theorem decode_append {fuel : Nat} {object object' : BMF_Object} {b : List Byte} {st : Stream}
    (h : decode fuel object (openFile b) = .ok (object', st)) (t : List Byte) :
    decode fuel object (openFile (b ++ t)) =
      .ok (object', { rest := st.rest ++ t, pos := st.pos, tags := st.tags }) := by
  obtain ⟨c, _, r⟩ := decode_local fuel object (openFile b) object' st h
  have hb : b = c ++ st.rest := r.rest
  have := r.same (st.rest ++ t)
  simp only [openFile] at this ⊢
  rw [← List.append_assoc, ← hb] at this
  exact this

theorem meshLoop_pushes (positions : List Nat) :
    ∀ (fuel : Nat) (colors : List Nat) (gs : List BMF_Geometry) (d : Nat) (st st' : Stream)
      (gs' : List BMF_Geometry) (d' : Nat),
      meshLoop positions fuel colors gs d st = .ok ((gs', d'), st') →
      ∃ new s', LoopPushes positions { colors := colors, geometries := gs, d := d, file := st }
        new s' ∧ s'.d = d' ∧ s'.geometries = gs' ∧ gs' = gs ++ new
  | 0, colors, gs, d, st, st', gs', d', h => by
    rw [meshLoop] at h
    split at h
    · cases h
    · obtain ⟨h1, _⟩ := Rd.pure_ok.1 h
      cases h1
      exact ⟨[], _, .here _, rfl, rfl, by simp⟩
  | fuel + 1, colors, gs, d, st, st', gs', d', h => by
    rw [meshLoop] at h
    split at h
    · rename_i hd
      obtain ⟨r, st1, hr, h⟩ := Rd.bind_ok.1 h
      obtain ⟨new, s', hp, h1, h2, h3⟩ := meshLoop_pushes positions fuel _ _ _ _ _ _ _ h
      exact ⟨r.geometry :: new, s', .pass _ _ r st1 new hd hr hp, h1, h2, by rw [h3]; simp⟩
    · obtain ⟨h1, _⟩ := Rd.pure_ok.1 h
      cases h1
      exact ⟨[], _, .here _, rfl, rfl, by simp⟩

theorem Read_pushes {object object' : BMF_Object} {file : List Byte}
    (h : Read object file = .ok object') :
    ∃ new, object'.geometries = object.geometries ++ new ∧ Pushes object.geometries file new := by
  unfold Read decodeFile at h
  cases hd : decode (file.length + 1) object (openFile file) with
  | error e => rw [hd] at h; cases h
  | ok v =>
    obtain ⟨o, st⟩ := v
    rw [hd] at h
    cases h
    unfold decode at hd
    obtain ⟨p, st1, hp, hd⟩ := Rd.bind_ok.1 hd
    obtain ⟨c, st2, hc, hd⟩ := Rd.bind_ok.1 hd
    obtain ⟨r, st3, hl, hd⟩ := Rd.bind_ok.1 hd
    obtain ⟨_, st4, ha, hd⟩ := Rd.bind_ok.1 hd
    obtain ⟨rfl, _⟩ := Rd.pure_ok.1 hd
    obtain ⟨ha, _⟩ := Rd.lift_ok.1 ha
    have hgot : r.2 = BMF_GOT_BMF := by
      unfold AssertEq at ha
      by_contra hne
      rw [if_neg hne] at ha
      cases ha
    obtain ⟨new, s', hps, h1, h2, h3⟩ := meshLoop_pushes p.2 _ _ _ _ _ _ r.1 r.2 hl
    exact ⟨new, h3, p.1, p.2, st1, c, st2, s', hp, hc, hps, h1.trans hgot, h2.trans h3⟩

theorem loopPushes_reaches {positions : List Nat} {s s' : LoopState}
    {new : List BMF_Geometry} (h : LoopPushes positions s new s') :
    ∀ g ∈ new, ∃ s1 r st, LoopReaches positions s s1 ∧ s1.d = BMF_HAS_MESH ∧
      readMesh positions s1.colors s1.geometries s1.file = .ok (r, st) ∧ r.geometry = g := by
  induction h with
  | here s => exact fun g hg => by simp at hg
  | pass s s' r st new hd hr _ ih =>
    intro g hg
    rcases List.mem_cons.1 hg with rfl | hg
    · exact ⟨s, r, st, LoopReaches.here s, hd, hr, rfl⟩
    · obtain ⟨s1, r1, st1, hreach, hd1, hr1, hg1⟩ := ih g hg
      exact ⟨s1, r1, st1, LoopReaches.pass s s1 r st hd hr hreach, hd1, hr1, hg1⟩

/-- Every geometry that a successful `Read` appends was pushed by a pass of
the mesh loop of the run on `file`. -/
theorem Read_meshes {object object' : BMF_Object} {file : List Byte}
    (h : Read object file = .ok object') :
    ∃ new positions, object'.geometries = object.geometries ++ new ∧ ∀ g ∈ new,
      ∃ s r st, ReachesMesh object file positions s ∧
        readMesh positions s.colors s.geometries s.file = .ok (r, st) ∧ r.geometry = g := by
  obtain ⟨new, hnew, positionCount, positions, st1, c, st2, s', hp, hc, hl, _, _⟩ :=
    Read_pushes h
  refine ⟨new, positions, hnew, fun g hg => ?_⟩
  obtain ⟨s1, r, st, hreach, hd, hr, hg'⟩ := loopPushes_reaches hl g hg
  exact ⟨s1, r, st, ⟨positionCount, st1, c, st2, hp, hc, hreach, hd⟩, hr, hg'⟩

theorem readAttribute_absent {has got width triangleCount d : Nat} {st st' : Stream}
    {res : List Nat × Nat} (hd : d ≠ has)
    (h : readAttribute has got width triangleCount d st = .ok (res, st')) :
    res = ([], d) ∧ st' = st := by
  unfold readAttribute at h
  rw [if_neg hd] at h
  obtain ⟨h1, h2⟩ := Rd.pure_ok.1 h
  exact ⟨h1, h2⟩

theorem readAttribute_present {has got width triangleCount d : Nat} {st st' : Stream}
    {res : List Nat × Nat} (hd : d = has)
    (h : readAttribute has got width triangleCount d st = .ok (res, st')) :
    ∃ s1 s2 s3, GetUint32 st = .ok ((3 * triangleCount) % U32, s1) ∧
      GetFloat32Array ((width * ((3 * triangleCount) % U32)) % U32) s1 = .ok (res.1, s2) ∧
      GetTag got s2 = .ok ((), s3) ∧ GetUint32 s3 = .ok (res.2, st') := by
  unfold readAttribute at h
  rw [if_pos hd] at h
  obtain ⟨count, s1, hc, h⟩ := Rd.bind_ok.1 h
  obtain ⟨_, s1', ha, h⟩ := Rd.bind_ok.1 h
  obtain ⟨data, s2, hdata, h⟩ := Rd.bind_ok.1 h
  obtain ⟨_, s3, hg, h⟩ := Rd.bind_ok.1 h
  obtain ⟨d', s4, hd', h⟩ := Rd.bind_ok.1 h
  obtain ⟨h1, h2⟩ := Rd.pure_ok.1 h
  obtain ⟨ha, hs⟩ := Rd.lift_ok.1 ha
  have hcount : count = (3 * triangleCount) % U32 := by
    unfold AssertEq at ha
    by_contra hne
    rw [if_neg hne] at ha
    cases ha
  subst h1
  rw [← h2] at hd'
  rw [hs] at hdata
  rw [hcount] at hc hdata
  exact ⟨_, s2, s3, hc, hdata, hg, hd'⟩

theorem readAttribute_length {has got width triangleCount d : Nat} {st st' : Stream}
    {res : List Nat × Nat}
    (h : readAttribute has got width triangleCount d st = .ok (res, st')) :
    res.1.length = 0 ∨ res.1.length = (width * ((3 * triangleCount) % U32)) % U32 := by
  by_cases hd : d = has
  · obtain ⟨s1, s2, s3, _, hdata, _⟩ := readAttribute_present hd h
    exact Or.inr (GetUint32Array_ok hdata).1
  · rw [(readAttribute_absent hd h).1]
    exact Or.inl rfl

/-- What the pass of the mesh loop that has pushed a geometry has read. -/
theorem readMesh_geometry {positions colors : List Nat} {gs : List BMF_Geometry}
    {st st' : Stream} {r : MeshResult} (h : readMesh positions colors gs st = .ok (r, st')) :
    ∃ hd s1 uv s2 nr s3, readMeshHead gs st = .ok (hd, s1) ∧
      readAttribute BMF_HAS_UVS BMF_GOT_UVS 2 hd.triangleCount hd.d s1 = .ok (uv, s2) ∧
      readAttribute BMF_HAS_NORMALS BMF_GOT_NORMALS 3 hd.triangleCount uv.2 s2 = .ok (nr, s3) ∧
      processPositions positions hd.indices = .ok r.geometry.positions ∧
      r.geometry.name = hd.name ∧ r.geometry.indices = hd.indices ∧
      r.geometry.uvs = uv.1 ∧ r.geometry.normals = nr.1 ∧
      hd.indices.length = (3 * hd.triangleCount) % U32 := by
  obtain ⟨m, hm, hp⟩ := readMesh_ok h
  obtain ⟨hd, s1, uv, s2, nr, s3, hh, hu, hn, _, _, hm'⟩ := readMeshData_ok hm
  obtain ⟨ps, cs, hps, _, hr⟩ := processMesh_ok hp
  obtain ⟨_, _, t3, _, _, _, hi, _⟩ := readMeshHead_ok hh
  rw [hm'] at hps hr
  rw [hr]
  exact ⟨hd, s1, uv, s2, nr, s3, hh, hu, hn, hps, rfl, rfl, rfl, rfl, (GetUint32Array_ok hi).1⟩

theorem Read_new {object object' : BMF_Object} {file : List Byte}
    (h : Read object file = .ok object') :
    ∃ new, object'.geometries = object.geometries ++ new ∧ ∀ g ∈ new,
      ∃ positions colors gs st st' r,
        readMesh positions colors gs st = .ok (r, st') ∧ r.geometry = g := by
  obtain ⟨pc, positions, st1, c, st2, d, st3, _, _, hl⟩ := Read_ok h
  obtain ⟨new, hnew, hall⟩ := meshLoop_ok positions _ _ _ _ _ _ _ _ hl
  refine ⟨new, hnew, fun g hg => ?_⟩
  obtain ⟨colors0, gs0, st0, st1', r, hr, hg'⟩ := hall g hg
  exact ⟨positions, colors0, gs0, st0, st1', r, hr, hg'⟩

theorem faceLines_of_count (g : BMF_Geometry) (po uo no count fuel : Nat)
    (hn : g.indices.length = 3 * count) (hU : 3 * count < U32) (hf : count ≤ fuel) :
    faceLines g po uo no fuel 0 = .ok (faceLinesOf g po uo no 0 count) :=
  faceLines_eq g po uo no count 0 fuel (by omega) (by omega) hf

theorem readAttribute_payload {has got width triangleCount d : Nat} {st st' : Stream}
    {res : List Nat × Nat} (hd : d = has)
    (h : readAttribute has got width triangleCount d st = .ok (res, st')) :
    ∃ count p, GetUint32 st = .ok (count, p) ∧ count = (3 * triangleCount) % U32 ∧
      (4 * (width * count) < U32 →
        res.1 = words (p.rest.take (4 * (width * count))) ∧ res.1.length = width * count) := by
  obtain ⟨s1, s2, s3, hc, hdata, _, _⟩ := readAttribute_present hd h
  refine ⟨_, s1, hc, rfl, fun hb => ?_⟩
  obtain ⟨hlen, _, heq⟩ := GetUint32Array_ok hdata
  have hU : U32 = 4294967296 := rfl
  have e1 : (width * ((3 * triangleCount) % U32)) % U32 = width * ((3 * triangleCount) % U32) :=
    Nat.mod_eq_of_lt (by omega)
  rw [e1] at hlen heq
  have e2 : (width * ((3 * triangleCount) % U32) * 4) % U32 =
      4 * (width * ((3 * triangleCount) % U32)) := by
    rw [Nat.mod_eq_of_lt (by omega)]; omega
  rw [e2] at heq
  have e3 : width * ((3 * triangleCount) % U32) - 4 * (width * ((3 * triangleCount) % U32)) / 4
      = 0 := by omega
  rw [e3, List.replicate_zero, List.append_nil] at heq
  exact ⟨heq, hlen⟩

theorem colorStep_nil (colors : List Nat) (idx : Nat) (out : List Nat) :
    colorStep colors idx 0 [] ≠ .ok out := by
  unfold colorStep
  intro h
  obtain ⟨_, _, h⟩ := Except.bind_ok_iff.1 h
  obtain ⟨x, _, h⟩ := Except.bind_ok_iff.1 h
  obtain ⟨o1, h1, _⟩ := Except.bind_ok_iff.1 h
  unfold vecSet at h1
  rw [if_neg (by decide)] at h1
  cases h1

theorem processColors_faults (colors indices : List Nat) (hc : colors ≠ []) (hi : indices ≠ [])
    (r : List Nat × List Nat) : processColors colors indices ≠ .ok r := by
  unfold processColors
  have hlen : colors.length ≠ 0 := fun h => hc (List.length_eq_zero.1 h)
  rw [if_pos hlen]
  intro h
  obtain ⟨out, ho, _⟩ := Except.bind_ok_iff.1 h
  cases indices with
  | nil => exact hi rfl
  | cons idx rest =>
    rw [colorLoop] at ho
    obtain ⟨o1, h1, _⟩ := Except.bind_ok_iff.1 ho
    exact colorStep_nil _ _ _ h1

/-! ### A mesh with more than `2^31` corners -/

theorem readMeshData_fileManyCorners :
    readMeshData [] { rest := fileManyCorners.drop 32, pos := 32, tags := [0, 4, 24] } =
      .ok (meshManyCorners, { rest := [], pos := 87, tags := [0, 4, 24, 43, 55, 75] }) := by
  rfl


theorem vecSet_of_lt {v : List Nat} {i : Nat} (x : Nat) (h : i < v.length) :
    vecSet v i x = .ok (v.set i x) := by
  unfold vecSet
  rw [if_pos h]

theorem positionStep_total {positions : List Nat} {idx : Nat} (k : Nat) (out : List Nat)
    (hi : idx < positions.length) (h0 : (3 * idx + 0) % U32 < positions.length)
    (h1 : (3 * idx + 1) % U32 < positions.length) (h2 : (3 * idx + 2) % U32 < positions.length)
    (hk : 3 * k + 2 < out.length) :
    ∃ out', positionStep positions idx k out = .ok out' ∧ out'.length = out.length := by
  obtain ⟨x, hx⟩ := vecGet_of_lt h0
  obtain ⟨y, hy⟩ := vecGet_of_lt h1
  obtain ⟨z, hz⟩ := vecGet_of_lt h2
  have k0 : (3 * k + 0) % U32 < out.length := lt_of_le_of_lt (Nat.mod_le _ _) (by omega)
  have k1 : (3 * k + 1) % U32 < (out.set ((3 * k + 0) % U32) x).length := by
    rw [List.length_set]; exact lt_of_le_of_lt (Nat.mod_le _ _) (by omega)
  have k2 : (3 * k + 2) % U32 <
      ((out.set ((3 * k + 0) % U32) x).set ((3 * k + 1) % U32) z).length := by
    rw [List.length_set, List.length_set]; exact lt_of_le_of_lt (Nat.mod_le _ _) (by omega)
  refine ⟨((out.set ((3 * k + 0) % U32) x).set ((3 * k + 1) % U32) z).set
    ((3 * k + 2) % U32) y, ?_, by simp only [List.length_set]⟩
  unfold positionStep Assert
  rw [decide_eq_true hi, if_pos rfl, hx, hz, hy]
  show vecSet out _ x >>= _ = _
  rw [vecSet_of_lt x k0]
  show vecSet _ _ z >>= _ = _
  rw [vecSet_of_lt z k1]
  exact vecSet_of_lt y k2

theorem positionLoop_total (positions : List Nat) :
    ∀ (indices : List Nat) (k : Nat) (out : List Nat),
      (∀ idx ∈ indices, idx < positions.length ∧ (3 * idx + 0) % U32 < positions.length ∧
        (3 * idx + 1) % U32 < positions.length ∧ (3 * idx + 2) % U32 < positions.length) →
      3 * (k + indices.length) ≤ out.length →
      ∃ out', positionLoop positions indices k out = .ok out'
  | [], k, out, _, _ => ⟨out, rfl⟩
  | idx :: rest, k, out, h, hl => by
    obtain ⟨hi, h0, h1, h2⟩ := h idx (List.mem_cons_self _ _)
    simp only [List.length_cons] at hl
    obtain ⟨o1, hs, hlen⟩ := positionStep_total k out hi h0 h1 h2 (by omega)
    obtain ⟨out', ho⟩ := positionLoop_total positions rest (k + 1) o1
      (fun i hi => h i (List.mem_cons_of_mem _ hi)) (by rw [hlen]; omega)
    exact ⟨out', by rw [positionLoop_cons hs (k + 1) rfl, ho]⟩

theorem processPositions_total {positions indices : List Nat}
    (h : ∀ idx ∈ indices, idx < positions.length ∧ (3 * idx + 0) % U32 < positions.length ∧
      (3 * idx + 1) % U32 < positions.length ∧ (3 * idx + 2) % U32 < positions.length) :
    ∃ ps, processPositions positions indices = .ok ps := by
  unfold processPositions
  exact positionLoop_total positions indices 0 _ h (by rw [vecResize_nil_length]; omega)

theorem processMesh_of_positions {positions : List Nat} {m : MeshData} {ps : List Nat}
    (ha : m.indices.length % U32 = (3 * m.triangleCount) % U32)
    (hp : processPositions positions m.indices = .ok ps) :
    processMesh positions [] m =
      .ok { geometry := { name := m.name, indices := m.indices, uvs := m.uvs,
                          normals := m.normals, positions := ps, colors := [] },
            colors := [], d := m.d } := by
  unfold processMesh AssertEq
  rw [if_pos ha, hp]
  rfl

theorem AssertEq_self (a : Nat) : AssertEq a a = .ok () := if_pos rfl

theorem decode_of_meshLoop_ok {fuel : Nat} {object : BMF_Object} {st st1 st2 st3 : Stream}
    {p : Nat × List Nat} {c : List Nat × Nat} {gs : List BMF_Geometry}
    (hp : readPositions st = .ok (p, st1)) (hc : readColors p.1 st1 = .ok (c, st2))
    (hl : meshLoop p.2 fuel c.1 object.geometries c.2 st2 = .ok ((gs, BMF_GOT_BMF), st3)) :
    decode fuel object st = .ok ({ geometries := gs }, st3) := by
  unfold decode
  rw [Rd.bind_eq_of_ok hp, Rd.bind_eq_of_ok hc, Rd.bind_eq_of_ok hl]
  show (Rd.lift (AssertEq BMF_GOT_BMF BMF_GOT_BMF) >>= _) st3 = _
  rw [AssertEq_self]
  rfl

theorem Read_of_decode_ok {object object' : BMF_Object} {file : List Byte} {st : Stream}
    (h : decode (file.length + 1) object (openFile file) = .ok (object', st)) :
    Read object file = .ok object' := by
  unfold Read decodeFile
  rw [h]
  rfl

theorem meshLoop_one {positions : List Nat} {fuel : Nat} {colors : List Nat}
    {gs : List BMF_Geometry} {st st' : Stream} {r : MeshResult}
    (hr : readMesh positions colors gs st = .ok (r, st')) (hd : r.d ≠ BMF_HAS_MESH) :
    meshLoop positions (fuel + 1) colors gs BMF_HAS_MESH st =
      .ok ((gs ++ [r.geometry], r.d), st') := by
  rw [meshLoop, if_pos rfl, Rd.bind_eq_of_ok hr]
  exact meshLoop_done _ hd

theorem Read_fileManyCorners :
    ∃ ps, Read {} fileManyCorners = .ok { geometries := [geometryManyCorners ps] } := by
  have hi : meshManyCorners.indices = [0] ++ List.replicate 2147483648 0 := rfl
  have hall : ∀ idx ∈ meshManyCorners.indices, idx < [10, 11, 12].length ∧
      (3 * idx + 0) % U32 < [10, 11, 12].length ∧ (3 * idx + 1) % U32 < [10, 11, 12].length ∧
      (3 * idx + 2) % U32 < [10, 11, 12].length := by
    intro idx hidx
    rw [hi, List.mem_append] at hidx
    have h0 : idx = 0 := by
      rcases hidx with h | h
      · exact List.mem_singleton.1 h
      · exact List.eq_of_mem_replicate h
    rw [h0]
    decide
  obtain ⟨ps, hps⟩ := processPositions_total hall
  have ha : meshManyCorners.indices.length % U32 = (3 * meshManyCorners.triangleCount) % U32 := by
    rw [hi, List.length_append, List.length_replicate]
    rfl
  have hp := processMesh_of_positions ha hps
  refine ⟨ps, ?_⟩
  have h1 : readPositions (openFile fileManyCorners) =
      .ok ((1, [10, 11, 12]),
        { rest := fileManyCorners.drop 28, pos := 28, tags := [0, 4, 24] }) := by
    decide!
  have hc : readColors 1 { rest := fileManyCorners.drop 28, pos := 28, tags := [0, 4, 24] } =
      .ok (([], BMF_HAS_MESH),
        { rest := fileManyCorners.drop 32, pos := 32, tags := [0, 4, 24] }) := by
    decide!
  have hr : readMesh [10, 11, 12] [] []
      { rest := fileManyCorners.drop 32, pos := 32, tags := [0, 4, 24] } =
      .ok ({ geometry := geometryManyCorners ps, colors := [], d := BMF_GOT_BMF },
        { rest := [], pos := 87, tags := [0, 4, 24, 43, 55, 75] }) := by
    unfold readMesh
    rw [Rd.bind_eq_of_ok readMeshData_fileManyCorners, hp]
    rfl
  exact Read_of_decode_ok (decode_of_meshLoop_ok h1 hc
    (meshLoop_one hr (by show BMF_GOT_BMF ≠ BMF_HAS_MESH; decide)))

/-! ### A file with one mesh and positions only -/

theorem u32_length (n : Nat) : (u32 n).length = 4 := rfl

theorem leValue_u32 {n : Nat} (h : n < U32) : leValue (u32 n) = n := by
  have hU : U32 = 4294967296 := rfl
  rw [hU] at h
  simp only [u32, leValue, Fin.ofNat, Fin.val_mk]
  omega

theorem u32s_cons (w : Nat) (ws : List Nat) : u32s (w :: ws) = u32 w ++ u32s ws := by
  simp [u32s]

theorem u32s_append (xs ys : List Nat) : u32s (xs ++ ys) = u32s xs ++ u32s ys := by
  simp [u32s]

theorem u32s_length (ws : List Nat) : (u32s ws).length = 4 * ws.length := by
  induction ws with
  | nil => rfl
  | cons w ws ih => rw [u32s_cons, List.length_append, ih, u32_length, List.length_cons]; omega

theorem words_u32s : ∀ (ws : List Nat), (∀ w ∈ ws, w < U32) → words (u32s ws) = ws
  | [], _ => rfl
  | w :: ws, h => by
    have hw := leValue_u32 (h w (List.mem_cons_self _ _))
    have ih := words_u32s ws (fun x hx => h x (List.mem_cons_of_mem _ hx))
    rw [u32s_cons]
    show leValue (u32 w) :: words (u32s ws) = w :: ws
    rw [hw, ih]

theorem GetData_append (size : Nat) (bs rest : List Byte) (p : Nat) (g : List Nat)
    (h0 : size ≠ 0) (hl : bs.length = size) :
    GetData size { rest := bs ++ rest, pos := p, tags := g } =
      .ok (bs, { rest := rest, pos := p + size, tags := g }) := by
  unfold GetData
  rw [if_neg h0, if_pos (by simp only [List.length_append]; omega)]
  simp only [← hl, List.take_left, List.drop_left]

theorem GetUint32_u32 {n : Nat} (h : n < U32) (rest : List Byte) (p : Nat) (g : List Nat) :
    GetUint32 { rest := u32 n ++ rest, pos := p, tags := g } =
      .ok (n, { rest := rest, pos := p + 4, tags := g }) := by
  unfold GetUint32
  rw [Rd.bind_eq_of_ok (GetData_append 4 (u32 n) rest p g (by decide) rfl), leValue_u32 h]
  rfl

theorem GetTag_u32 {tag : Nat} (h : tag < U32) (rest : List Byte) (p : Nat) (g : List Nat) :
    GetTag tag { rest := u32 tag ++ rest, pos := p, tags := g } =
      .ok ((), { rest := rest, pos := p + 4, tags := g ++ [p] }) := by
  unfold GetTag
  rw [GetUint32_u32 h]
  simp only [if_pos]

theorem GetUint32Array_u32s {size : Nat} (ws : List Nat) (hl : ws.length = size)
    (h0 : 0 < size) (hs : size * 4 < U32) (hw : ∀ w ∈ ws, w < U32)
    (rest : List Byte) (p : Nat) (g : List Nat) :
    GetUint32Array size { rest := u32s ws ++ rest, pos := p, tags := g } =
      .ok (ws, { rest := rest, pos := p + size * 4, tags := g }) := by
  unfold GetUint32Array
  rw [Nat.mod_eq_of_lt hs, Rd.bind_eq_of_ok (GetData_append (size * 4) (u32s ws) rest p g (by omega)
    (by rw [u32s_length]; omega)), words_u32s ws hw, hl, Nat.sub_self]
  simp only [List.replicate_zero, List.append_nil]
  rfl

theorem GetString_bytes (name : List Byte) (h0 : 0 < name.length) (hl : name.length < U32)
    (rest : List Byte) (p : Nat) (g : List Nat) :
    GetString { rest := u32 name.length ++ (name ++ rest), pos := p, tags := g } =
      .ok (String.mk (name.map byteChar),
        { rest := rest, pos := p + 4 + name.length, tags := g }) := by
  unfold GetString
  rw [Rd.bind_eq_of_ok (GetUint32_u32 hl _ p g),
    Rd.bind_eq_of_ok (GetData_append name.length name rest (p + 4) g (by omega) rfl)]
  rfl

theorem u32s_nil : u32s [] = [] := rfl

theorem singleMeshFile_eq (positionCount : Nat) (floats : List Nat) (name : List Byte)
    (triangleCount : Nat) (indices : List Nat) :
    singleMeshFile positionCount floats name triangleCount indices =
      u32 BMF_HAS_BMF ++ (u32 BMF_HAS_POSITIONS ++ (u32 positionCount ++ (u32s floats ++
        (u32 BMF_GOT_POSITIONS ++ (u32 BMF_HAS_MESH ++ (u32 BMF_HAS_NAME ++
          (u32 name.length ++ (name ++ (u32 BMF_GOT_NAME ++ (u32 triangleCount ++
            (u32s indices ++ (u32 BMF_GOT_INDICES ++ (u32 BMF_GOT_MESH ++
              (u32 BMF_GOT_BMF ++ [])))))))))))))) := by
  simp only [singleMeshFile, positionBlock, namedMesh, u32s_append, u32s_cons, u32s_nil,
    List.append_assoc, List.append_nil, List.nil_append]

theorem readPositions_block (positionCount : Nat) (floats : List Nat)
    (hc : 0 < positionCount) (hw : 12 * positionCount < U32)
    (hl : floats.length = 3 * positionCount) (hf : ∀ x ∈ floats, x < U32) (rest : List Byte) :
    ∃ p g, readPositions (openFile (u32 BMF_HAS_BMF ++ (u32 BMF_HAS_POSITIONS ++
        (u32 positionCount ++ (u32s floats ++ (u32 BMF_GOT_POSITIONS ++ rest)))))) =
      .ok ((positionCount, floats), { rest := rest, pos := p, tags := g }) := by
  have hU : U32 = 4294967296 := rfl
  apply Exists.intro
  apply Exists.intro
  unfold readPositions openFile
  rw [Rd.bind_eq_of_ok (GetTag_u32 (by decide) _ _ _),
    Rd.bind_eq_of_ok (GetTag_u32 (by decide) _ _ _),
    Rd.bind_eq_of_ok (GetUint32_u32 (by omega) _ _ _),
    Nat.mod_eq_of_lt (by omega)]
  unfold GetFloat32Array
  rw [Rd.bind_eq_of_ok (GetUint32Array_u32s floats hl (by omega) (by omega) hf _ _ _),
    Rd.bind_eq_of_ok (GetTag_u32 (by decide) _ _ _)]
  rfl

theorem readColors_absent (positionCount : Nat) {d : Nat} (hd : d < U32) (hne : d ≠ BMF_HAS_COLORS)
    (rest : List Byte) (p : Nat) (g : List Nat) :
    readColors positionCount { rest := u32 d ++ rest, pos := p, tags := g } =
      .ok (([], d), { rest := rest, pos := p + 4, tags := g }) := by
  unfold readColors
  rw [Rd.bind_eq_of_ok (GetUint32_u32 hd _ _ _), if_neg hne]
  rfl

theorem resolveName_nil (n : Nat) (name : String) : resolveName n [] name = name := rfl

theorem readName_bytes (name : List Byte) (h0 : 0 < name.length) (hl : name.length < U32)
    (rest : List Byte) (p : Nat) (g : List Nat) :
    ∃ p' g', readName [] { rest := u32 BMF_HAS_NAME ++ (u32 name.length ++ (name ++
        (u32 BMF_GOT_NAME ++ rest))), pos := p, tags := g } =
      .ok (String.mk (name.map byteChar), { rest := rest, pos := p', tags := g' }) := by
  apply Exists.intro
  apply Exists.intro
  unfold readName
  rw [Rd.bind_eq_of_ok (GetUint32_u32 (by decide) _ _ _), if_pos rfl,
    Rd.bind_eq_of_ok (GetString_bytes name h0 hl _ _ _),
    Rd.bind_eq_of_ok (GetTag_u32 (by decide) _ _ _)]
  rfl

theorem readAttribute_of_ne {has got width triangleCount d : Nat} (hd : d ≠ has) (st : Stream) :
    readAttribute has got width triangleCount d st = .ok (([], d), st) := by
  unfold readAttribute
  rw [if_neg hd]
  rfl

theorem readMeshHead_bytes (name : List Byte) {triangleCount d : Nat} {indices : List Nat}
    (h0 : 0 < name.length) (hl : name.length < U32)
    (ht : 0 < triangleCount) (hw : 12 * triangleCount < U32)
    (hi : indices.length = 3 * triangleCount) (hx : ∀ x ∈ indices, x < U32)
    (hd : d < U32) (rest : List Byte) (p : Nat) (g : List Nat) :
    ∃ p' g', readMeshHead [] { rest := u32 BMF_HAS_NAME ++ (u32 name.length ++ (name ++
        (u32 BMF_GOT_NAME ++ (u32 triangleCount ++ (u32s indices ++ (u32 BMF_GOT_INDICES ++
          (u32 d ++ rest))))))), pos := p, tags := g } =
      .ok ({ name := String.mk (name.map byteChar), triangleCount := triangleCount,
             indices := indices, d := d },
           { rest := rest, pos := p', tags := g' }) := by
  have hU : U32 = 4294967296 := rfl
  obtain ⟨p1, g1, hn⟩ := readName_bytes name h0 hl
    (u32 triangleCount ++ (u32s indices ++ (u32 BMF_GOT_INDICES ++ (u32 d ++ rest)))) p g
  apply Exists.intro
  apply Exists.intro
  unfold readMeshHead
  rw [Rd.bind_eq_of_ok hn, Rd.bind_eq_of_ok (GetUint32_u32 (by omega) _ _ _),
    Nat.mod_eq_of_lt (by omega),
    Rd.bind_eq_of_ok (GetUint32Array_u32s indices hi (by omega) (by omega) hx _ _ _),
    Rd.bind_eq_of_ok (GetTag_u32 (by decide) _ _ _),
    Rd.bind_eq_of_ok (GetUint32_u32 hd _ _ _)]
  rfl

theorem readMeshData_bytes (name : List Byte) {triangleCount d : Nat} {indices : List Nat}
    (h0 : 0 < name.length) (hl : name.length < U32)
    (ht : 0 < triangleCount) (hw : 12 * triangleCount < U32)
    (hi : indices.length = 3 * triangleCount) (hx : ∀ x ∈ indices, x < U32)
    (hd : d < U32) (rest : List Byte) (p : Nat) (g : List Nat) :
    ∃ p' g', readMeshData [] { rest := u32 BMF_HAS_NAME ++ (u32 name.length ++ (name ++
        (u32 BMF_GOT_NAME ++ (u32 triangleCount ++ (u32s indices ++ (u32 BMF_GOT_INDICES ++
          (u32 BMF_GOT_MESH ++ (u32 d ++ rest)))))))), pos := p, tags := g } =
      .ok ({ name := String.mk (name.map byteChar), triangleCount := triangleCount,
             indices := indices, uvs := [], normals := [], d := d },
           { rest := rest, pos := p', tags := g' }) := by
  obtain ⟨p1, g1, hh⟩ := readMeshHead_bytes name (d := BMF_GOT_MESH) h0 hl ht hw hi hx
    (by decide) (u32 d ++ rest) p g
  apply Exists.intro
  apply Exists.intro
  unfold readMeshData
  rw [Rd.bind_eq_of_ok hh,
    Rd.bind_eq_of_ok (readAttribute_of_ne (show BMF_GOT_MESH ≠ BMF_HAS_UVS by decide) _),
    Rd.bind_eq_of_ok (readAttribute_of_ne (show BMF_GOT_MESH ≠ BMF_HAS_NORMALS by decide) _)]
  show (Rd.lift (AssertEq BMF_GOT_MESH BMF_GOT_MESH) >>= _) _ = _
  rw [AssertEq_self]
  show (GetUint32 >>= _) _ = _
  rw [Rd.bind_eq_of_ok (GetUint32_u32 hd _ _ _)]
  rfl

theorem readMesh_of_data {positions colors : List Nat} {gs : List BMF_Geometry}
    {st st' : Stream} {m : MeshData} {r : MeshResult}
    (hm : readMeshData gs st = .ok (m, st')) (hp : processMesh positions colors m = .ok r) :
    readMesh positions colors gs st = .ok (r, st') := by
  unfold readMesh
  rw [Rd.bind_eq_of_ok hm, hp]
  rfl

theorem Read_singleMeshFile {positionCount : Nat} {floats : List Nat} {name : List Byte}
    {triangleCount : Nat} {indices : List Nat}
    (hv : ValidSingleMesh positionCount floats name triangleCount indices)
    (hp0 : 0 < positionCount) (hpw : 12 * positionCount < U32) (hn0 : 0 < name.length)
    (ht0 : 0 < triangleCount) (htw : 12 * triangleCount < U32) :
    ∃ ps, processPositions floats indices = .ok ps ∧
      Read {} (singleMeshFile positionCount floats name triangleCount indices) =
        .ok { geometries := [{ name := String.mk (name.map byteChar), indices := indices,
                               positions := ps }] } := by
  obtain ⟨_, hfl, hfw, hnl, _, hil, hix⟩ := hv
  have hU : U32 = 4294967296 := rfl
  have hall : ∀ idx ∈ indices, idx < floats.length ∧ (3 * idx + 0) % U32 < floats.length ∧
      (3 * idx + 1) % U32 < floats.length ∧ (3 * idx + 2) % U32 < floats.length := by
    intro idx hidx
    have := hix idx hidx
    rw [Nat.mod_eq_of_lt (by omega), Nat.mod_eq_of_lt (by omega), Nat.mod_eq_of_lt (by omega)]
    omega
  obtain ⟨ps, hps⟩ := processPositions_total hall
  refine ⟨ps, hps, ?_⟩
  rw [singleMeshFile_eq]
  obtain ⟨p1, g1, h1⟩ := readPositions_block positionCount floats hp0 hpw hfl hfw
    (u32 BMF_HAS_MESH ++ (u32 BMF_HAS_NAME ++
      (u32 name.length ++ (name ++ (u32 BMF_GOT_NAME ++ (u32 triangleCount ++
        (u32s indices ++ (u32 BMF_GOT_INDICES ++ (u32 BMF_GOT_MESH ++
          (u32 BMF_GOT_BMF ++ []))))))))))
  have hc := readColors_absent positionCount (show BMF_HAS_MESH < U32 by decide)
    (by decide) (u32 BMF_HAS_NAME ++
      (u32 name.length ++ (name ++ (u32 BMF_GOT_NAME ++ (u32 triangleCount ++
        (u32s indices ++ (u32 BMF_GOT_INDICES ++ (u32 BMF_GOT_MESH ++
          (u32 BMF_GOT_BMF ++ [])))))))))  p1 g1
  obtain ⟨p2, g2, hm⟩ := readMeshData_bytes name (d := BMF_GOT_BMF) hn0 hnl ht0 htw hil
    (fun x hx => by have := hix x hx; omega) (by decide) [] (p1 + 4) g1
  have hpm := processMesh_of_positions
    (m := { name := String.mk (name.map byteChar), triangleCount := triangleCount,
            indices := indices, uvs := [], normals := [], d := BMF_GOT_BMF })
    (by show indices.length % U32 = _; rw [hil]) hps
  exact Read_of_decode_ok (decode_of_meshLoop_ok h1 hc
    (meshLoop_one (readMesh_of_data hm hpm) (by show BMF_GOT_BMF ≠ BMF_HAS_MESH; decide)))

theorem vLinesOf_processPositions {floats indices ps : List Nat}
    (h : processPositions floats indices = .ok ps)
    (hi : ∀ idx ∈ indices, 3 * idx + 2 < floats.length) (hn : 3 * indices.length ≤ U32)
    (hf : floats.length ≤ U32) :
    vLinesOf ps = indices.map (specVertexLine floats) := by
  obtain ⟨hlen, hc⟩ := processPositions_spec h
  apply List.ext_getElem?
  intro k
  by_cases hk : k < indices.length
  · obtain ⟨x, y, z, hx, hy, hz, hl⟩ := vLinesOf_getElem? ps k (by omega)
    have hidx : indices[k]? = some indices[k] := List.getElem?_eq_getElem hk
    obtain ⟨a, b, c, ha, hb, hc', h0, h1, h2⟩ := hc hn k _ hidx
    have hb3 := hi _ (List.getElem_mem hk)
    rw [Nat.mod_eq_of_lt (by omega)] at ha hb hc'
    rw [hl, List.getElem?_map, hidx, Option.map_some']
    rw [h0] at hx
    rw [h1] at hy
    rw [h2] at hz
    cases hx
    cases hy
    cases hz
    simp only [specVertexLine, List.getD_eq_getElem?_getD, Nat.add_zero] at ha ⊢
    rw [ha, hb, hc']
    rfl
  · rw [List.getElem?_eq_none (by rw [vLinesOf_length]; omega),
      List.getElem?_eq_none (by rw [List.length_map]; omega)]

theorem faceLinesOf_positions_only (g : BMF_Geometry) (hu : g.uvs = []) (hn : g.normals = []) :
    ∀ (count t : Nat), 3 * (t + count) ≤ g.positions.length → 3 * (t + count) < U32 →
      faceLinesOf g 1 1 1 t count = (List.range' t count).map specFaceLine
  | 0, t, _, _ => rfl
  | count + 1, t, hp, hU => by
    have hU' : U32 = 4294967296 := rfl
    have hc : ∀ idx, idx < 3 * (t + (count + 1)) →
        faceCorner g 1 1 1 idx = { p := idx + 1, u := 0, n := 0 } := by
      intro idx hidx
      unfold faceCorner
      rw [if_pos (by omega), hu, hn, Nat.mod_eq_of_lt (by omega)]
      rfl
    rw [faceLinesOf, hc _ (by omega), hc _ (by omega), hc _ (by omega),
      faceLinesOf_positions_only g hu hn count (t + 1) (by omega) (by omega),
      List.range'_succ, List.map_cons]
    rfl

theorem fieldText_zero : fieldText 0 = "" := rfl

theorem fieldText_pos {x : Nat} (h : x ≠ 0) : fieldText x = toString x := if_pos h

theorem lineText_specFaceLine (fmt : Nat → String) (t : Nat) :
    lineText fmt (specFaceLine t) =
      "f " ++ toString (3 * t + 1) ++ "// " ++ toString (3 * t + 2) ++ "// " ++
        toString (3 * t + 3) ++ "//\n" := by
  simp only [lineText, specFaceLine, cornerText, fieldText_zero,
    fieldText_pos (Nat.succ_ne_zero _)]
  apply String.ext
  simp only [String.data_append, String.append_assoc, List.append_assoc]
  simp

theorem ExportToOBJ_positions_only (g : BMF_Geometry) (floats : List Nat)
    (triangleCount fuel : Nat) (hu : g.uvs = []) (hn : g.normals = [])
    (hps : processPositions floats g.indices = .ok g.positions)
    (hil : g.indices.length = 3 * triangleCount) (htw : 12 * triangleCount < U32)
    (hix : ∀ idx ∈ g.indices, 3 * idx + 2 < floats.length) (hfl : floats.length ≤ U32)
    (hf : 3 * triangleCount ≤ fuel) :
    ExportToOBJ fuel { geometries := [g] } =
      .ok (g.indices.map (specVertexLine floats) ++ [.o g.name] ++
        (List.range triangleCount).map specFaceLine) := by
  have hU : U32 = 4294967296 := rfl
  have hlen : g.positions.length = 3 * g.indices.length := (processPositions_spec hps).1
  have hv := vLinesOf_processPositions hps hix (by omega) hfl
  have hx : Exportable fuel g := by
    refine ⟨⟨by omega, by omega, by omega⟩, ⟨?_, ?_, ?_⟩, ⟨?_, ?_, ?_⟩,
      ⟨by omega, by omega, by omega⟩⟩
    · rw [hu]; rfl
    · rw [hu]; decide
    · rw [hu]; exact Nat.zero_le _
    · rw [hn]; rfl
    · rw [hn]; decide
    · rw [hn]; exact Nat.zero_le _
  have hfaces := faceLinesOf_positions_only g hu hn triangleCount 0 (by omega) (by omega)
  have he : ExportToOBJ fuel { geometries := [g] } = _ :=
    ExportToOBJ_eq (fun g' hg => by rw [List.mem_singleton.1 hg]; exact hx)
  rw [he]
  simp only [List.flatMap_cons, List.flatMap_nil, List.append_nil, elementsOf, modelLinesOf,
    vtLinesOf, vnLinesOf, hv, hu, hn]
  rw [show g.indices.length / 3 = triangleCount by omega, hfaces, ← List.range_eq_range']
  simp

theorem main_singleMeshFile {positionCount : Nat} {floats : List Nat} {name : List Byte}
    {triangleCount : Nat} {indices : List Nat}
    (hv : ValidSingleMesh positionCount floats name triangleCount indices)
    (hp0 : 0 < positionCount) (hpw : 12 * positionCount < U32) (hn0 : 0 < name.length)
    (ht0 : 0 < triangleCount) (htw : 12 * triangleCount < U32)
    (fuel : Nat) (hf : 3 * triangleCount ≤ fuel) :
    main fuel [singleMeshFile positionCount floats name triangleCount indices] =
      .ok (specLines floats name triangleCount indices) := by
  obtain ⟨ps, hps, hr⟩ := Read_singleMeshFile hv hp0 hpw hn0 ht0 htw
  obtain ⟨_, hfl, hfw, hnl, _, hil, hix⟩ := hv
  have hU : U32 = 4294967296 := rfl
  have he := ExportToOBJ_positions_only
    { name := String.mk (name.map byteChar), indices := indices, positions := ps }
    floats triangleCount fuel rfl rfl hps hil htw
    (fun idx hidx => by have := hix idx hidx; omega) (by omega) hf
  unfold main
  simp only [List.foldlM_cons, List.foldlM_nil, hr]
  exact he

theorem replicate_add_three (n : Nat) :
    List.replicate (n + 3) (0 : Nat) = 0 :: 0 :: 0 :: List.replicate n 0 := rfl

theorem GetUint32Array_wrapped (size : Nat) (bs rest : List Byte)
    (hb : bs.length = (size * 4) % U32) (h0 : (size * 4) % U32 ≠ 0) (p : Nat) (g : List Nat) :
    ∃ data, GetUint32Array size { rest := bs ++ rest, pos := p, tags := g } =
      .ok (data, { rest := rest, pos := p + (size * 4) % U32, tags := g }) := by
  unfold GetUint32Array
  rw [Rd.bind_eq_of_ok (GetData_append _ bs rest p g h0 hb)]
  exact ⟨_, rfl⟩

theorem GetTag_of_ne {n tag : Nat} (h : n < U32) (hne : n ≠ tag) (rest : List Byte)
    (p : Nat) (g : List Nat) :
    GetTag tag { rest := u32 n ++ rest, pos := p, tags := g } = .error .assertFailed := by
  unfold GetTag
  rw [GetUint32_u32 h]
  simp only [if_neg hne]

theorem readMeshHead_zeros (name : List Byte) (triangleCount : Nat) (ws : List Nat)
    (h0 : 0 < name.length) (hl : name.length < U32) (ht : triangleCount < U32)
    (hw : ((3 * triangleCount) % U32 * 4) % U32 = 8)
    (rest : List Byte) (p : Nat) (g : List Nat) :
    readMeshHead []
        { rest := u32 BMF_HAS_NAME ++ (u32 name.length ++ (name ++ (u32 BMF_GOT_NAME ++
            (u32 triangleCount ++ (u32s (0 :: 0 :: 0 :: ws) ++ rest))))),
          pos := p, tags := g } = .error .assertFailed := by
  obtain ⟨p1, g1, hn⟩ := readName_bytes name h0 hl
    (u32 triangleCount ++ (u32s (0 :: 0 :: 0 :: ws) ++ rest)) p g
  have hsplit : u32s (0 :: 0 :: 0 :: ws) ++ rest =
      (u32 0 ++ u32 0) ++ (u32 0 ++ (u32s ws ++ rest)) := by
    simp only [u32s_cons, List.append_assoc]
  obtain ⟨data, ha⟩ := GetUint32Array_wrapped ((3 * triangleCount) % U32) (u32 0 ++ u32 0)
    (u32 0 ++ (u32s ws ++ rest)) (by rw [hw]; rfl) (by rw [hw]; decide) (p1 + 4) g1
  unfold readMeshHead
  rw [Rd.bind_eq_of_ok hn, Rd.bind_eq_of_ok (GetUint32_u32 ht _ _ _), hsplit,
    Rd.bind_eq_of_ok ha]
  exact Rd.bind_error (GetTag_of_ne (by decide) (by decide) _ _ _)

theorem meshLoop_of_readMeshHead_error {positions : List Nat} {fuel : Nat} {colors : List Nat}
    {gs : List BMF_Geometry} {st : Stream} {e : Fault}
    (h : readMeshHead gs st = .error e) :
    meshLoop positions (fuel + 1) colors gs BMF_HAS_MESH st = .error e := by
  rw [meshLoop, if_pos rfl]
  apply Rd.bind_error
  unfold readMesh
  apply Rd.bind_error
  unfold readMeshData
  exact Rd.bind_error h

theorem Read_fileGiant : Read {} fileGiant = .error .assertFailed := by
  unfold fileGiant
  rw [singleMeshFile_eq, show (1073741826 : Nat) = 1073741823 + 3 from rfl,
    replicate_add_three]
  obtain ⟨p1, g1, h1⟩ := readPositions_block 1 [10, 11, 12]
    (by decide) (by decide) rfl (by decide)
    (u32 BMF_HAS_MESH ++ (u32 BMF_HAS_NAME ++
      (u32 nameFoo.length ++ (nameFoo ++ (u32 BMF_GOT_NAME ++ (u32 357913942 ++
        (u32s (0 :: 0 :: 0 :: List.replicate 1073741823 0) ++ (u32 BMF_GOT_INDICES ++
          (u32 BMF_GOT_MESH ++ (u32 BMF_GOT_BMF ++ []))))))))))
  have hc := readColors_absent 1 (show BMF_HAS_MESH < U32 by decide)
    (by decide) (u32 BMF_HAS_NAME ++
      (u32 nameFoo.length ++ (nameFoo ++ (u32 BMF_GOT_NAME ++ (u32 357913942 ++
        (u32s (0 :: 0 :: 0 :: List.replicate 1073741823 0) ++ (u32 BMF_GOT_INDICES ++
          (u32 BMF_GOT_MESH ++ (u32 BMF_GOT_BMF ++ [])))))))))  p1 g1
  have hh := readMeshHead_zeros nameFoo 357913942
    (List.replicate 1073741823 0) (by decide) (by decide) (by decide) (by decide)
    (u32 BMF_GOT_INDICES ++ (u32 BMF_GOT_MESH ++ (u32 BMF_GOT_BMF ++ []))) (p1 + 4) g1
  exact Read_of_decode_error (decode_of_meshLoop_error h1 hc
    (meshLoop_of_readMeshHead_error hh))

/-! ### Payloads that are cut short -/

theorem GetData_short {size : Nat} {st : Stream} (h : st.rest.length < size) :
    GetData size st = .error .assertFailed := by
  unfold GetData
  split
  · rfl
  · rw [if_neg (by omega)]

theorem GetUint32Array_short {size : Nat} {st : Stream}
    (h : st.rest.length < (size * 4) % U32) :
    GetUint32Array size st = .error .assertFailed := by
  unfold GetUint32Array
  exact Rd.bind_error (GetData_short h)

theorem readAttribute_short {has got width triangleCount count : Nat} {st st' : Stream}
    (h : GetUint32 st = .ok (count, st'))
    (hs : st'.rest.length < ((width * count) % U32 * 4) % U32) :
    readAttribute has got width triangleCount has st = .error .assertFailed := by
  by_cases hc : count = (3 * triangleCount) % U32
  · unfold readAttribute
    rw [if_pos rfl, Rd.bind_eq_of_ok h, hc, AssertEq_self]
    show (GetFloat32Array _ >>= _) st' = _
    rw [hc] at hs
    exact Rd.bind_error (GetUint32Array_short hs)
  · exact readAttribute_mismatch h hc

theorem readMesh_of_readMeshHead_error {positions colors : List Nat} {gs : List BMF_Geometry}
    {st : Stream} {e : Fault} (h : readMeshHead gs st = .error e) :
    readMesh positions colors gs st = .error e := by
  unfold readMesh
  apply Rd.bind_error
  unfold readMeshData
  exact Rd.bind_error h

theorem Read_of_shortPayload {object : BMF_Object} {file : List Byte}
    (h : ShortPayload (fun width count => ((width * count) % U32 * 4) % U32) object file) :
    Read object file = .error .assertFailed := by
  apply Read_of_decode_error
  cases h with
  | positions st1 st2 st3 positionCount h1 h2 h3 hs =>
    unfold decode
    apply Rd.bind_error
    unfold readPositions
    rw [Rd.bind_eq_of_ok h1, Rd.bind_eq_of_ok h2, Rd.bind_eq_of_ok h3]
    exact Rd.bind_error (GetUint32Array_short hs)
  | colors p st1 st2 st3 count hp hd hc hs =>
    unfold decode
    rw [Rd.bind_eq_of_ok hp, Rd.bind_error]
    unfold readColors
    rw [Rd.bind_eq_of_ok hd, if_pos rfl, Rd.bind_eq_of_ok hc]
    by_cases he : count = p.1
    · rw [he, AssertEq_self]
      show (GetFloat32Array _ >>= _) st3 = _
      rw [he] at hs
      exact Rd.bind_error (GetUint32Array_short hs)
    · rw [Rd.bind_error]
      rw [AssertEq_ne he]
      rfl
  | name positions s st1 st2 n hs hd hn hl =>
    apply decode_of_readMesh_error hs
    apply readMesh_of_readMeshHead_error
    unfold readMeshHead
    apply Rd.bind_error
    unfold readName
    rw [Rd.bind_eq_of_ok hd, if_pos rfl]
    apply Rd.bind_error
    unfold GetString
    rw [Rd.bind_eq_of_ok hn]
    exact Rd.bind_error (GetData_short hl)
  | indices positions s name st1 st2 triangleCount hs hn ht hl =>
    apply decode_of_readMesh_error hs
    apply readMesh_of_readMeshHead_error
    unfold readMeshHead
    rw [Rd.bind_eq_of_ok hn, Rd.bind_eq_of_ok ht]
    exact Rd.bind_error (GetUint32Array_short hl)
  | uvs positions s hd st1 st2 count hs hh hu hc hl =>
    apply decode_of_readMesh_error hs
    unfold readMesh
    apply Rd.bind_error
    unfold readMeshData
    rw [Rd.bind_eq_of_ok hh, Rd.bind_error]
    rw [hu]
    exact readAttribute_short hc hl
  | normals positions s hd uv st1 st2 st3 count hs hh hu hn hc hl =>
    apply decode_of_readMesh_error hs
    unfold readMesh
    apply Rd.bind_error
    unfold readMeshData
    rw [Rd.bind_eq_of_ok hh, Rd.bind_eq_of_ok hu, Rd.bind_error]
    rw [hn]
    exact readAttribute_short hc hl

theorem Read_of_truncated {object object' : BMF_Object} {file : List Byte} {st : Stream}
    (h : decodeFile object file = .ok (object', st)) {m : Nat} (hm : m < st.pos) :
    Read object (file.take m) = .error .assertFailed := by
  obtain ⟨c, _, r⟩ := decode_local (file.length + 1) object (openFile file) object' st h
  have hpos : st.pos = c.length := by
    have := r.pos
    simpa [openFile] using this
  have hfile : file = c ++ st.rest := r.rest
  have hmc : m < c.length := by omega
  have htake : file.take m = c.take m := by
    rw [hfile, List.take_append_of_le_length (le_of_lt hmc)]
  have hlen : (file.take m).length < file.length + 1 := by
    rw [List.length_take]; omega
  rw [Read_eq object (file.take m) (file.length + 1) hlen, htake]
  have := r.short m hmc
  simp only [openFile] at this ⊢
  rw [this]
  rfl

theorem reachesMesh_fileTriCut :
    ReachesMesh {} (fileTri.take 80) [10, 11, 12, 20, 21, 22, 30, 31, 32] loopTriCut :=
  ⟨3, { rest := (fileTri.take 80).drop 52, pos := 52, tags := [0, 4, 48] }, ([], BMF_HAS_MESH),
    { rest := (fileTri.take 80).drop 56, pos := 56, tags := [0, 4, 48] }, by decide!, by decide!,
    LoopReaches.here _, rfl⟩

/-! ### The lines of the text of the output -/

theorem linesOf_nil : linesOf [] = [] := rfl

theorem linesOf_cons (c : Char) (cs : List Char) :
    linesOf (c :: cs) = if c = '\n' then [] :: linesOf cs
      else match linesOf cs with
        | [] => []
        | l :: ls => (c :: l) :: ls := rfl

theorem linesOf_line : ∀ (body rest : List Char), '\n' ∉ body →
    linesOf (body ++ '\n' :: rest) = body :: linesOf rest
  | [], rest, _ => by rw [List.nil_append, linesOf_cons, if_pos rfl]
  | c :: body, rest, h => by
    have hc : c ≠ '\n' := fun e => h (by rw [e]; exact List.mem_cons_self _ _)
    have hb : '\n' ∉ body := fun e => h (List.mem_cons_of_mem _ e)
    rw [List.cons_append, linesOf_cons, if_neg hc, linesOf_line body rest hb]

theorem foldl_append_data (l : List String) : ∀ (acc : String),
    (l.foldl (fun r s => r ++ s) acc).data = acc.data ++ (l.map String.data).flatten := by
  induction l with
  | nil => intro acc; simp
  | cons s l ih => intro acc; simp [ih, String.data_append]

theorem join_data (l : List String) : (String.join l).data = (l.map String.data).flatten := by
  unfold String.join
  rw [foldl_append_data]
  rfl

theorem linesOf_bodies : ∀ (bodies : List String), (∀ b ∈ bodies, '\n' ∉ b.data) →
    linesOf ((bodies.map (fun b => b.data ++ ['\n'])).flatten) = bodies.map String.data
  | [], _ => rfl
  | b :: bodies, h => by
    have ih := linesOf_bodies bodies (fun x hx => h x (List.mem_cons_of_mem _ hx))
    have hb := h b (List.mem_cons_self _ _)
    rw [List.map_cons, List.flatten_cons, List.append_assoc, List.singleton_append,
      linesOf_line _ _ hb, ih, List.map_cons]

/-- The lines of a text that is written line by line. -/
theorem textLines_join (bodies : List String) (h : ∀ b ∈ bodies, '\n' ∉ b.data) :
    textLines (String.join (bodies.map (fun b => b ++ "\n"))) = bodies := by
  have e : (bodies.map (fun b => b ++ "\n")).map String.data =
      bodies.map (fun b => b.data ++ ['\n']) := by
    rw [List.map_map]
    rfl
  unfold textLines
  rw [join_data, e, linesOf_bodies bodies h, List.map_map]
  exact List.map_id' _


theorem byteChar_ne_newline : ∀ b : Byte, b ≠ 10 → byteChar b ≠ '\n' := by
  decide!

theorem digitChar_ne_newline : ∀ (d : Nat), Nat.digitChar d ≠ '\n'
  | 0 => by decide
  | 1 => by decide
  | 2 => by decide
  | 3 => by decide
  | 4 => by decide
  | 5 => by decide
  | 6 => by decide
  | 7 => by decide
  | 8 => by decide
  | 9 => by decide
  | 10 => by decide
  | 11 => by decide
  | 12 => by decide
  | 13 => by decide
  | 14 => by decide
  | 15 => by decide
  | n + 16 => by
    rw [show Nat.digitChar (n + 16) = '*' from rfl]
    decide

theorem toDigitsCore_ne_newline (base : Nat) : ∀ (fuel n : Nat) (ds : List Char),
    '\n' ∉ ds → '\n' ∉ Nat.toDigitsCore base fuel n ds
  | 0, _, ds, h => by simpa [Nat.toDigitsCore] using h
  | fuel + 1, n, ds, h => by
    have hd : '\n' ∉ Nat.digitChar (n % base) :: ds := by
      intro hm
      rcases List.mem_cons.1 hm with e | e
      · exact digitChar_ne_newline _ e.symm
      · exact h e
    rw [Nat.toDigitsCore]
    split
    · exact hd
    · exact toDigitsCore_ne_newline base fuel _ _ hd

theorem toString_ne_newline (n : Nat) : '\n' ∉ (toString n).data := by
  show '\n' ∉ (Nat.toDigits 10 n)
  exact toDigitsCore_ne_newline 10 _ _ _ (by simp)

theorem not_mem_data_append {c : Char} {a b : String} (ha : c ∉ a.data) (hb : c ∉ b.data) :
    c ∉ (a ++ b).data := by
  rw [String.data_append, List.mem_append]
  exact fun h => h.elim ha hb

theorem specVertexText_ne_newline {fmt : Nat → String} (hfmt : ∀ x, '\n' ∉ (fmt x).data)
    (floats : List Nat) (idx : Nat) : '\n' ∉ (specVertexText fmt floats idx).data := by
  unfold specVertexText
  exact not_mem_data_append (not_mem_data_append (not_mem_data_append (not_mem_data_append
    (not_mem_data_append (by decide) (hfmt _)) (by decide)) (hfmt _)) (by decide)) (hfmt _)

theorem specFaceText_ne_newline (t : Nat) : '\n' ∉ (specFaceText t).data := by
  unfold specFaceText
  exact not_mem_data_append (not_mem_data_append (not_mem_data_append (not_mem_data_append
    (not_mem_data_append (not_mem_data_append (by decide) (toString_ne_newline _)) (by decide))
    (toString_ne_newline _)) (by decide)) (toString_ne_newline _)) (by decide)

theorem nameText_ne_newline {name : List Byte} (h : ∀ b ∈ name, b ≠ 10) :
    '\n' ∉ ("o " ++ String.mk (name.map byteChar)).data := by
  refine not_mem_data_append (by decide) ?_
  show '\n' ∉ name.map byteChar
  intro hm
  obtain ⟨b, hb, he⟩ := List.mem_map.1 hm
  exact byteChar_ne_newline b (h b hb) he

theorem lineText_specVertexLine (fmt : Nat → String) (floats : List Nat) (idx : Nat) :
    lineText fmt (specVertexLine floats idx) = specVertexText fmt floats idx ++ "\n" := rfl

theorem lineText_specFaceLine_text (fmt : Nat → String) (t : Nat) :
    lineText fmt (specFaceLine t) = specFaceText t ++ "\n" := by
  rw [lineText_specFaceLine]
  unfold specFaceText
  simp only [String.append_assoc]
  rfl

theorem objText_specLines (fmt : Nat → String) (floats : List Nat) (name : List Byte)
    (triangleCount : Nat) (indices : List Nat) :
    objText fmt (specLines floats name triangleCount indices) =
      String.join ((specText fmt floats name triangleCount indices).map (fun b => b ++ "\n")) := by
  unfold objText specLines specText
  simp only [List.map_append, List.map_map, List.map_cons, List.map_nil]
  congr 2
  · congr 1
    funext t
    exact lineText_specFaceLine_text fmt t

theorem textLines_specLines {fmt : Nat → String} (hfmt : ∀ x, '\n' ∉ (fmt x).data)
    (floats : List Nat) {name : List Byte} (hname : ∀ b ∈ name, b ≠ 10)
    (triangleCount : Nat) (indices : List Nat) :
    textLines (objText fmt (specLines floats name triangleCount indices)) =
      specText fmt floats name triangleCount indices := by
  rw [objText_specLines]
  apply textLines_join
  intro b hb
  unfold specText at hb
  rw [List.mem_append, List.mem_append] at hb
  rcases hb with (hb | hb) | hb
  · obtain ⟨idx, _, rfl⟩ := List.mem_map.1 hb
    exact specVertexText_ne_newline hfmt floats idx
  · rw [List.mem_singleton.1 hb]
    exact nameText_ne_newline hname
  · obtain ⟨t, _, rfl⟩ := List.mem_map.1 hb
    exact specFaceText_ne_newline t

theorem textLines_fileBreak {fmt : Nat → String} (hfmt : ∀ x, '\n' ∉ (fmt x).data) :
    textLines (objText fmt [.v 10 12 11, .v 10 12 11, .v 10 12 11, .o "x\nvn 0 0 1",
      .f { p := 1, u := 0, n := 0 } { p := 2, u := 0, n := 0 } { p := 3, u := 0, n := 0 }]) =
    ["v " ++ fmt 10 ++ " " ++ fmt 12 ++ " " ++ fmt 11,
     "v " ++ fmt 10 ++ " " ++ fmt 12 ++ " " ++ fmt 11,
     "v " ++ fmt 10 ++ " " ++ fmt 12 ++ " " ++ fmt 11, "o x", "vn 0 0 1", "f 1// 2// 3//"] := by
  have hv : '\n' ∉ ("v " ++ fmt 10 ++ " " ++ fmt 12 ++ " " ++ fmt 11).data :=
    not_mem_data_append (not_mem_data_append (not_mem_data_append (not_mem_data_append
      (not_mem_data_append (by decide) (hfmt _)) (by decide)) (hfmt _)) (by decide)) (hfmt _)
  have e : objText fmt [.v 10 12 11, .v 10 12 11, .v 10 12 11, .o "x\nvn 0 0 1",
      .f { p := 1, u := 0, n := 0 } { p := 2, u := 0, n := 0 } { p := 3, u := 0, n := 0 }] =
      String.join (["v " ++ fmt 10 ++ " " ++ fmt 12 ++ " " ++ fmt 11,
        "v " ++ fmt 10 ++ " " ++ fmt 12 ++ " " ++ fmt 11,
        "v " ++ fmt 10 ++ " " ++ fmt 12 ++ " " ++ fmt 11, "o x", "vn 0 0 1",
        "f 1// 2// 3//"].map (fun b => b ++ "\n")) := by
    apply String.ext
    rw [objText, join_data, join_data]
    rfl
  rw [e]
  apply textLines_join
  intro b hb
  simp only [List.mem_cons, List.mem_singleton, List.not_mem_nil, or_false] at hb
  rcases hb with rfl | rfl | rfl | rfl | rfl | rfl
  · exact hv
  · exact hv
  · exact hv
  · decide
  · decide
  · decide

/-! ### The claims -/

/-- C4, evaluated on a pool of one vertex and a triangle with the index 1:
the check `indices[k] < positions.size()` compares the index with the number of
floats (3), so it passes, and `positions[3 * 1 + 0]` is read past the end of the
pool; no assertion stops `Read`. -/
theorem C4_index_one_passes_the_check :
    Assert (decide (1 < [10, 11, 12].length)) = .ok () ∧
    vecGet [10, 11, 12] ((3 * 1 + 0) % U32) = .error .outOfBounds ∧
    Read {} fileIndexOne = .error .outOfBounds := by
  decide!

/-- C8, counterexample: when the meshes `Foo`, `Foo.2`, `Foo` are read into an
empty object, the third mesh collides with `Foo` and, renamed `Foo.2`, with the
second geometry: the suffix is appended twice. -/
theorem C8_suffix_appended_twice :
    (Read {} fileFooTwice).map (fun o => o.geometries.map (fun g => g.name)) =
      .ok ["Foo", "Foo.2", "Foo.2.2"] := by
  decide!

/-- C9, evaluated on the meshes `Foo.2`, `Foo`, `Foo` read into an empty
object: the third mesh is renamed `Foo.2`, the name of the first geometry. -/
theorem C9_names_not_distinct :
    (Read {} fileFooClash).map (fun o => o.geometries.map (fun g => g.name)) =
      .ok ["Foo.2", "Foo", "Foo.2"] := by
  decide!

/-- C8 (amended): for a mesh with a name block carrying the string `N`, read
when the object holds the geometries `gs`, the geometry that `Read` pushes is
named `N` if no geometry of `gs` is named `N`; it is named `N.n`, with `n` the
number of geometries in `gs`, if some geometry of `gs` is named `N` and none is
named `N.n`.  The pass of the loop goes on with the list `gs` followed by the
new geometry, so the geometries of `gs` keep their names. -/
theorem C8_name_of_named_mesh (positions colors : List Nat) (gs : List BMF_Geometry)
    (st st1 st2 st' : Stream) (N : String) (r : MeshResult) (fuel : Nat)
    (h : readMesh positions colors gs st = .ok (r, st'))
    (h1 : GetUint32 st = .ok (BMF_HAS_NAME, st1)) (h2 : GetString st1 = .ok (N, st2)) :
    ((∀ g ∈ gs, g.name ≠ N) → r.geometry.name = N) ∧
    ((∃ g ∈ gs, g.name = N) → (∀ g ∈ gs, g.name ≠ N ++ "." ++ toString gs.length) →
      r.geometry.name = N ++ "." ++ toString gs.length) ∧
    meshLoop positions (fuel + 1) colors gs BMF_HAS_MESH st =
      meshLoop positions fuel r.colors (gs ++ [r.geometry]) r.d st' := by
  obtain ⟨m, hm, hp⟩ := readMesh_ok h
  obtain ⟨ps, cs, _, _, hr⟩ := processMesh_ok hp
  obtain ⟨s1, hn⟩ := readMeshData_name hm
  have hname : r.geometry.name = resolveName gs.length gs N := by
    rw [hr]
    exact readName_named hn h1 h2
  refine ⟨fun hf => ?_, fun ht hf => ?_, ?_⟩
  · rw [hname, resolveName_of_fresh _ _ _ hf]
  · rw [hname, resolveName_of_taken _ _ _ ht hf]
  · rw [meshLoop, if_pos rfl, Rd.bind_apply, h]

/-- C8, witness: a second mesh named `Foo`, read when the object holds one
geometry named `Foo`, is named `Foo.1`. -/
theorem C8_name_of_named_mesh_witness :
    (∃ g ∈ [geometryFoo], g.name = "Foo") ∧
    ({ name := "Foo.1", indices := [0, 0, 0],
       positions := [10, 12, 11, 10, 12, 11, 10, 12, 11] } : BMF_Geometry).name =
      "Foo" ++ "." ++ toString [geometryFoo].length :=
  ⟨by decide!,
   (C8_name_of_named_mesh [10, 11, 12] [] [geometryFoo] streamFoo
      { rest := streamFoo.rest.drop 4, pos := 4, tags := [] }
      { rest := streamFoo.rest.drop 11, pos := 11, tags := [] }
      { rest := [], pos := 43, tags := [11, 31] } "Foo"
      { geometry := { name := "Foo.1", indices := [0, 0, 0],
                      positions := [10, 12, 11, 10, 12, 11, 10, 12, 11] },
        colors := [], d := BMF_GOT_BMF } 0
      (by decide!) (by decide!) (by decide!)).2.1 (by decide!) (by decide!)⟩

/-- C5 (amended): a wrong tag is fatal wherever `Read` accepts one tag only.
First, when `Read` succeeds on a file, every word that it compared with one
fixed tag by an assertion right after reading it (the offsets recorded in
`tags`: the tags `HAS_BMF`, `HAS_POSITIONS`, `GOT_POSITIONS`, `GOT_COLORS`,
`GOT_NAME`, `GOT_INDICES`, `GOT_UVS`, `GOT_NORMALS`) lies inside the file, and
replacing its four bytes by any other four bytes, all other bytes unchanged,
makes `Read` fail an assertion.  Second, on every file, when the run comes to a
look-ahead word that is none of the tags accepted at that point (`HAS_MESH` or
`GOT_BMF` after the positions, the colours or a mesh; `GOT_MESH` at the end of a
mesh), `Read` fails an assertion. -/
theorem C5_wrong_tag_is_fatal (object : BMF_Object) (file : List Byte) :
    (∀ (object' : BMF_Object) (st : Stream), decodeFile object file = .ok (object', st) →
      ∀ q ∈ st.tags, ∀ w : List Byte, w.length = 4 → w ≠ (file.drop q).take 4 →
        q + 4 ≤ file.length ∧
        Read object (file.take q ++ w ++ file.drop (q + 4)) = .error .assertFailed) ∧
    (UnexpectedTag object file → Read object file = .error .assertFailed) :=
  ⟨fun object' st h q hq w hw hne => asserted_tag_is_fatal object object' file st h q hq w hw hne,
   fun h => Read_of_unexpectedTag h⟩

/-- C5, witness: in the scenario file the word at offset 48 is the tag
`GOT_POSITIONS`; with `GOT_MESH` in its place the file is rejected.  With the
word 7 in the place of the tag `HAS_MESH` the file is rejected too. -/
theorem C5_wrong_tag_is_fatal_witness :
    (48 + 4 ≤ fileTri.length ∧
      Read {} (fileTri.take 48 ++ u32 BMF_GOT_MESH ++ fileTri.drop (48 + 4)) =
        .error .assertFailed) ∧
    Read {} fileSeven = .error .assertFailed :=
  ⟨(C5_wrong_tag_is_fatal {} fileTri).1 { geometries := [geometryTri] }
      { rest := [], pos := 99, tags := [0, 4, 48, 67, 87] } (by decide!) 48 (by decide)
      (u32 BMF_GOT_MESH) (by decide) (by decide!),
   (C5_wrong_tag_is_fatal {} fileSeven).2
      (UnexpectedTag.afterColors (3, [10, 11, 12, 20, 21, 22, 30, 31, 32])
        { rest := fileSeven.drop 52, pos := 52, tags := [0, 4, 48] }
        { rest := fileSeven.drop 56, pos := 56, tags := [0, 4, 48] } ([], 7)
        (by decide!) (by decide!) (by decide) (by decide))⟩

/-- C5, counterexample: in the scenario file the word at offset 52 is the tag
`HAS_MESH`, read as the look-ahead word after the positions.  With `GOT_BMF` in
its place, all other bytes unchanged, `Read` does not fail: it succeeds and
appends no geometry. -/
theorem C5_wrong_look_ahead_tag_is_accepted :
    Read {} fileTri = .ok { geometries := [geometryTri] } ∧
    (fileTri.drop 52).take 4 = u32 BMF_HAS_MESH ∧
    u32 BMF_GOT_BMF ≠ u32 BMF_HAS_MESH ∧
    Read {} (fileTri.take 52 ++ u32 BMF_GOT_BMF ++ fileTri.drop (52 + 4)) = .ok {} := by
  decide!

/-- C6 (amended): when the run of `Read` on a file comes to a block of colours
whose count word differs from `positionCount`, or to a block of UVs or of
normals of a mesh whose count word differs from `3 * triangleCount` taken
modulo `2^32`, `Read` fails an assertion, and a run of `main` that reads this
file after files that were read without a failure ends without output. -/
theorem C6_count_mismatch_is_rejected (object : BMF_Object) (file : List Byte)
    (h : CountMismatch (fun triangleCount => (3 * triangleCount) % U32) object file) :
    Read object file = .error .assertFailed ∧
    ∀ (fuel : Nat) (pre post : List (List Byte)), pre.foldlM Read {} = .ok object →
      main fuel (pre ++ file :: post) = .error .assertFailed := by
  have key : Read object file = .error .assertFailed := by
    apply Read_of_decode_error
    cases h with
    | colors p st1 st2 st3 count hp hd hc hne =>
      unfold decode
      rw [Rd.bind_eq_of_ok hp, Rd.bind_error]
      unfold readColors
      rw [Rd.bind_eq_of_ok hd, if_pos rfl, Rd.bind_eq_of_ok hc, Rd.bind_error]
      rw [AssertEq_ne hne]
      rfl
    | uvs positions s hd st1 st2 count hs hh hu hc hne =>
      apply decode_of_readMesh_error hs
      unfold readMesh
      apply Rd.bind_error
      unfold readMeshData
      rw [Rd.bind_eq_of_ok hh, Rd.bind_error]
      rw [hu]
      exact readAttribute_mismatch hc hne
    | normals positions s hd uv st1 st2 st3 count hs hh hu hn hc hne =>
      apply decode_of_readMesh_error hs
      unfold readMesh
      apply Rd.bind_error
      unfold readMeshData
      rw [Rd.bind_eq_of_ok hh, Rd.bind_eq_of_ok hu, Rd.bind_error]
      rw [hn]
      exact readAttribute_mismatch hc hne
  exact ⟨key, fun fuel pre post hpre => main_of_Read_error hpre key⟩

/-- The run of `Read` on `fileWrap` comes to its mesh. -/
theorem reachesMesh_fileWrap : ReachesMesh {} fileWrap [10, 11, 12] loopWrap :=
  ⟨1, { rest := fileWrap.drop 28, pos := 28, tags := [0, 4, 24] }, ([], BMF_HAS_MESH),
    { rest := fileWrap.drop 32, pos := 32, tags := [0, 4, 24] }, by decide!, by decide!,
    LoopReaches.here _, rfl⟩

/-- C6, counterexample: the mesh of `fileWrap` declares `triangleCount =
1431655766` and a block of UVs with the count 2, which is not `3 * triangleCount`
as a natural number; `Read` succeeds, with a geometry of two corners. -/
theorem C6_wrapped_count_is_accepted :
    CountMismatch (fun triangleCount => 3 * triangleCount) {} fileWrap ∧
    Read {} fileWrap = .ok { geometries := [geometryWrap] } := by
  refine ⟨?_, by decide!⟩
  exact CountMismatch.uvs [10, 11, 12] loopWrap
    { name := "Foo", triangleCount := 1431655766, indices := [0, 0], d := BMF_HAS_UVS }
    { rest := fileWrap.drop 67, pos := 67, tags := [0, 4, 24, 43, 59] }
    { rest := fileWrap.drop 71, pos := 71, tags := [0, 4, 24, 43, 59] } 2
    reachesMesh_fileWrap (by decide!) rfl (by decide!) (by decide)

/-- C6, witness: a mesh of one triangle with a block of UVs of count 2 is
rejected. -/
theorem C6_count_mismatch_is_rejected_witness :
    Read {} fileShortUvs = .error .assertFailed ∧
    ∀ (fuel : Nat) (pre post : List (List Byte)), pre.foldlM Read {} = .ok {} →
      main fuel (pre ++ fileShortUvs :: post) = .error .assertFailed :=
  C6_count_mismatch_is_rejected {} fileShortUvs
    (CountMismatch.uvs [10, 11, 12] loopShortUvs
      { name := "Foo", triangleCount := 1, indices := [0, 0, 0], d := BMF_HAS_UVS }
      { rest := fileShortUvs.drop 71, pos := 71, tags := [0, 4, 24, 43, 63] }
      { rest := fileShortUvs.drop 75, pos := 75, tags := [0, 4, 24, 43, 63] } 2
      ⟨1, { rest := fileShortUvs.drop 28, pos := 28, tags := [0, 4, 24] }, ([], BMF_HAS_MESH),
        { rest := fileShortUvs.drop 32, pos := 32, tags := [0, 4, 24] }, by decide!, by decide!,
        LoopReaches.here _, rfl⟩
      (by decide!) rfl (by decide!) (by decide))

/-- C1 (amended): when `Read` succeeds, the geometries of the object after the
call are those before it followed by new ones, and in every new geometry `g`,
if neither `3 * positionCount` nor `3 * indices.length` wraps in 32 bits, every
corner `k` whose index `idx` is below `positionCount` has the position
`(pool[3*idx+0], pool[3*idx+2], pool[3*idx+1])` of the pool of the file: a
vertex `(x, y, z)` of the pool is stored as `(x, z, y)`, the same floats for
every corner with the same index. -/
theorem C1_positions_deindexed (object object' : BMF_Object) (file : List Byte)
    (h : Read object file = .ok object') :
    ∃ positionCount positions st,
      readPositions (openFile file) = .ok ((positionCount, positions), st) ∧
      ∃ new, object'.geometries = object.geometries ++ new ∧
        ∀ g ∈ new, 3 * positionCount < U32 → 3 * g.indices.length < U32 →
          ∀ k idx, g.indices[k]? = some idx → idx < positionCount →
            ∃ x y z, positions[3 * idx + 0]? = some x ∧ positions[3 * idx + 1]? = some y ∧
              positions[3 * idx + 2]? = some z ∧ g.positions[3 * k + 0]? = some x ∧
              g.positions[3 * k + 1]? = some z ∧ g.positions[3 * k + 2]? = some y := by
  obtain ⟨positionCount, positions, st1, c, st2, d, st3, hp, hc, hl⟩ := Read_ok h
  refine ⟨positionCount, positions, st1, hp, ?_⟩
  obtain ⟨new, hnew, hall⟩ := meshLoop_ok _ _ _ _ _ _ _ _ _ hl
  refine ⟨new, hnew, ?_⟩
  intro g hg hpc hn k idx hk hidx
  obtain ⟨colors0, gs0, st0, st1', r, hr, rfl⟩ := hall g hg
  obtain ⟨m, hm, hpm⟩ := readMesh_ok hr
  obtain ⟨ps, cs, hps, _, rfl⟩ := processMesh_ok hpm
  obtain ⟨x, y, z, hx, hy, hz, h0, h1, h2⟩ :=
    (processPositions_spec hps).2 (le_of_lt hn) k idx hk
  have hU : U32 = 4294967296 := rfl
  rw [Nat.mod_eq_of_lt (by omega)] at hx hy hz
  exact ⟨x, y, z, hx, hy, hz, h0, h1, h2⟩

/-- C1, witness: the scenario file. -/
theorem C1_positions_deindexed_witness :
    ∃ positionCount positions st,
      readPositions (openFile fileTri) = .ok ((positionCount, positions), st) ∧
      ∃ new, [geometryTri] = [] ++ new ∧
        ∀ g ∈ new, 3 * positionCount < U32 → 3 * g.indices.length < U32 →
          ∀ k idx, g.indices[k]? = some idx → idx < positionCount →
            ∃ x y z, positions[3 * idx + 0]? = some x ∧ positions[3 * idx + 1]? = some y ∧
              positions[3 * idx + 2]? = some z ∧ g.positions[3 * k + 0]? = some x ∧
              g.positions[3 * k + 1]? = some z ∧ g.positions[3 * k + 2]? = some y :=
  C1_positions_deindexed {} { geometries := [geometryTri] } fileTri (by decide!)

/-- C1, counterexample: `fileBig` declares `positionCount = 2147483649`, so the
pool has `3 * positionCount mod 2^32 = 2147483651` floats (the first three come
from the file).  The first corner has the index `1431655766`, which is below
`positionCount`; `3 * 1431655766` wraps to 2, and `Read` stores `pool[2]` as the
first float of the corner, while `pool[3 * 1431655766 + 0]` does not exist. -/
theorem C1_wrapped_index_reads_another_vertex :
    readPositions (openFile fileBig) =
      .ok ((2147483649, poolBig), { rest := fileBig.drop 28, pos := 28, tags := [0, 4, 24] }) ∧
    Read {} fileBig = .ok { geometries := [geometryBig] } ∧
    geometryBig.indices[0]? = some 1431655766 ∧ 1431655766 < 2147483649 ∧
    poolBig[3 * 1431655766 + 0]? = none ∧ geometryBig.positions[3 * 0 + 0]? = some 12 ∧
    poolBig[2]? = some 12 := by
  refine ⟨readPositions_fileBig, Read_fileBig, rfl, by decide, ?_, rfl, ?_⟩
  · exact List.getElem?_eq_none (by rw [poolBig_length]; decide)
  · have := vecGet_poolBig 2
    exact vecGet_ok.1 (by rw [this]; rfl)

/-- C3 (amended): for every object whose geometries satisfy the data-model
invariant, have fewer than `2^32 / 3` corners each and fewer than `2^32` corners
in total, `ExportToOBJ` ends (with enough fuel for its loops) and, in the `f`
lines of the `i`-th geometry, each of the three fields of the corner with the
local index `k` is the empty string when that attribute vector of the geometry
is empty, and otherwise the decimal of `k + 1 +` the number of corners of the
geometries before the `i`-th in which that attribute is not empty. -/
theorem C3_face_fields (fuel : Nat) (object : BMF_Object)
    (hd : ∀ g ∈ object.geometries, DataModel g)
    (h3 : ∀ g ∈ object.geometries, 3 * g.indices.length < U32)
    (ht : cornerCount object.geometries < U32)
    (hf : ∀ g ∈ object.geometries, g.indices.length ≤ fuel) :
    ∃ out, ExportToOBJ fuel object = .ok out ∧
      ∀ i g k, object.geometries[i]? = some g → k < g.indices.length →
        ∃ c, cornerAt (faceBlock out i) k = some c ∧
          fieldText c.p = (if g.positions = [] then ""
            else toString (k + 1 + cornersBefore (fun g => g.positions) object.geometries i)) ∧
          fieldText c.u = (if g.uvs = [] then ""
            else toString (k + 1 + cornersBefore (fun g => g.uvs) object.geometries i)) ∧
          fieldText c.n = (if g.normals = [] then ""
            else toString (k + 1 + cornersBefore (fun g => g.normals) object.geometries i)) := by
  obtain ⟨he, hc⟩ := cornerAt_export hd h3 ht hf
  refine ⟨_, he, fun i g k hi hk => ?_⟩
  obtain ⟨c, hc0, hp, hu, hn⟩ := hc i g k hi hk
  exact ⟨c, hc0, (fieldText_field (by omega) hp).2, (fieldText_field (by omega) hu).2,
    (fieldText_field (by omega) hn).2⟩

/-- C3, witness: three geometries of one triangle, the second without
normals. -/
theorem C3_face_fields_witness :
    ∃ out, ExportToOBJ 3 objectThree = .ok out ∧
      ∀ i g k, objectThree.geometries[i]? = some g → k < g.indices.length →
        ∃ c, cornerAt (faceBlock out i) k = some c ∧
          fieldText c.p = (if g.positions = [] then ""
            else toString (k + 1 + cornersBefore (fun g => g.positions)
              objectThree.geometries i)) ∧
          fieldText c.u = (if g.uvs = [] then ""
            else toString (k + 1 + cornersBefore (fun g => g.uvs) objectThree.geometries i)) ∧
          fieldText c.n = (if g.normals = [] then ""
            else toString (k + 1 + cornersBefore (fun g => g.normals)
              objectThree.geometries i)) :=
  C3_face_fields 3 objectThree (by decide!) (by decide!) (by decide!) (by decide!)

/-- In the output for `objectThree` the first corner of the second geometry
has no normal field, and the first corner of the third geometry has the normal
number `4 = 1 + 3`. -/
theorem objectThree_export :
    (ExportToOBJ 3 objectThree).map (fun out => (cornerAt (faceBlock out 1) 0,
      cornerAt (faceBlock out 2) 0)) =
      .ok (some { p := 4, u := 0, n := 0 }, some { p := 7, u := 0, n := 4 }) := by
  decide!

/-- C3, counterexample: four geometries of `1431655764` corners each satisfy
the data-model invariant.  When the second loop comes to the fourth geometry,
`po` is `1 + 3 * 1431655764 = 2^32 - 3`, and for its corner 3 the sum
`idx + po` wraps to 0: the position field of that corner is written as the
empty string although the geometry has positions. -/
theorem C3_offset_wraps :
    (∀ g ∈ objectWrap.geometries, DataModel g) ∧
    objectWrap.geometries[3]? = some (flatGeometry 1431655764) ∧
    (flatGeometry 1431655764).positions ≠ [] ∧
    3 < (flatGeometry 1431655764).indices.length ∧
    ∀ fuel, 1431655764 ≤ fuel → ∃ out c, ExportToOBJ fuel objectWrap = .ok out ∧
      cornerAt (faceBlock out 3) 3 = some c ∧ fieldText c.p = "" := by
  refine ⟨?_, rfl, flatGeometry_positions_ne_nil _ (by decide), ?_, ?_⟩
  · intro g hg
    have : g = flatGeometry 1431655764 := by
      simpa [objectWrap] using hg
    rw [this]
    exact flatGeometry_dataModel _ (by decide)
  · rw [flatGeometry_indices_length]; decide
  · intro fuel hf
    obtain ⟨out, he, hc⟩ := cornerAt_four 1431655764 fuel (by decide) (by decide) (by decide) hf
    refine ⟨out, _, he, hc, ?_⟩
    rw [faceCorner_p, flatGeometry_positions_length, if_pos (by decide)]
    decide!

/-- C2, counterexample: one geometry of `1431655767` corners satisfies the
data-model invariant and has fewer than `2^32` corners, but its vector of
positions has `2^32 + 5` floats: the counter `i` of the loop "Write all
positions" is a `uint32_t` and is always below the size, so the loop never
ends and no `f` line is written, whatever the fuel. -/
theorem C2_position_loop_never_ends :
    (∀ g ∈ objectHuge.geometries, DataModel g) ∧
    cornerCount objectHuge.geometries < U32 ∧
    ∀ fuel, ExportToOBJ fuel objectHuge = .error .outOfFuel := by
  refine ⟨?_, ?_, fun fuel => ?_⟩
  · intro g hg
    have : g = flatGeometry 1431655767 := by
      simpa [objectHuge] using hg
    rw [this]
    exact flatGeometry_dataModel _ (by decide)
  · show cornerCount [flatGeometry 1431655767] < U32
    rw [cornerCount_cons, flatGeometry_indices_length]
    decide
  · have h : positionLines (flatGeometry 1431655767).positions fuel 0 = .error .outOfFuel :=
      positionLines_outOfFuel (by rw [flatGeometry_positions_length]; decide) fuel 0 (by decide)
    show (elementPass fuel [flatGeometry 1431655767] >>= _) = _
    rw [elementPass, elementLines, h]
    rfl

/-- C2 (amended): for every object whose geometries satisfy the data-model
invariant, have fewer than `2^32 / 3` corners each and fewer than `2^32` corners
in total, `ExportToOBJ` ends (with enough fuel for its loops); the `v`, `vt`
and `vn` lines of the output are those of the geometries in order; and for
every corner `k` of the `i`-th geometry `g`, the position number in the `f`
line is the 1-based ordinal among the `v` lines of the line for
`g.positions[3k..3k+2]` (the `k`-th `v` line of `g`, after the `v` lines of the
geometries before `g`), and likewise the UV number among the `vt` lines and the
normal number among the `vn` lines when `g` has that attribute. -/
theorem C2_global_indices (fuel : Nat) (object : BMF_Object)
    (hd : ∀ g ∈ object.geometries, DataModel g)
    (h3 : ∀ g ∈ object.geometries, 3 * g.indices.length < U32)
    (ht : cornerCount object.geometries < U32)
    (hf : ∀ g ∈ object.geometries, g.indices.length ≤ fuel) :
    ∃ out, ExportToOBJ fuel object = .ok out ∧
      out.filter Line.isV = object.geometries.flatMap (fun g => vLinesOf g.positions) ∧
      out.filter Line.isVT = object.geometries.flatMap (fun g => vtLinesOf g.uvs) ∧
      out.filter Line.isVN = object.geometries.flatMap (fun g => vnLinesOf g.normals) ∧
      ∀ i g k, object.geometries[i]? = some g → k < g.indices.length →
        ∃ c, cornerAt (faceBlock out i) k = some c ∧
          (∃ x y z, g.positions[3 * k]? = some x ∧ g.positions[3 * k + 1]? = some y ∧
            g.positions[3 * k + 2]? = some z ∧
            c.p = ((object.geometries.take i).flatMap
              (fun g => vLinesOf g.positions)).length + k + 1 ∧
            (out.filter Line.isV)[c.p - 1]? = some (.v x y z)) ∧
          (g.uvs ≠ [] → ∃ u v, g.uvs[2 * k]? = some u ∧ g.uvs[2 * k + 1]? = some v ∧
            c.u = ((object.geometries.take i).flatMap
              (fun g => vtLinesOf g.uvs)).length + k + 1 ∧
            (out.filter Line.isVT)[c.u - 1]? = some (.vt u v)) ∧
          (g.normals ≠ [] → ∃ x y z, g.normals[3 * k]? = some x ∧
            g.normals[3 * k + 1]? = some y ∧ g.normals[3 * k + 2]? = some z ∧
            c.n = ((object.geometries.take i).flatMap
              (fun g => vnLinesOf g.normals)).length + k + 1 ∧
            (out.filter Line.isVN)[c.n - 1]? = some (.vn x y z)) := by
  obtain ⟨he, hc⟩ := cornerAt_export hd h3 ht hf
  obtain ⟨fv, fvt, fvn⟩ := filter_export object.geometries
  refine ⟨_, he, fv, fvt, fvn, fun i g k hi hk => ?_⟩
  obtain ⟨c, hc0, hp, hu, hn⟩ := hc i g k hi hk
  have hg : g ∈ object.geometries := by
    obtain ⟨hlt, he⟩ := List.getElem?_eq_some.1 hi
    rw [← he]
    exact List.getElem_mem hlt
  obtain ⟨dp, du, dn, dm⟩ := hd g hg
  refine ⟨c, hc0, ?_, fun hune => ?_, fun hnne => ?_⟩
  · obtain ⟨x, y, z, hx, hy, hz, hl⟩ := vLinesOf_getElem? g.positions k (by omega)
    have hlen := flatMap_take_length (fun g => vLinesOf g.positions) (fun g => g.positions)
      vLinesOf_length_of_dataModel object.geometries i hd
    have hcp : c.p = ((object.geometries.take i).flatMap
        (fun g => vLinesOf g.positions)).length + k + 1 := by
      rw [hp, if_neg (by omega), hlen]
      omega
    refine ⟨x, y, z, hx, hy, hz, hcp, ?_⟩
    rw [fv, hcp, Nat.add_sub_cancel,
      flatMap_getElem? (fun g => vLinesOf g.positions) _ i g k hi
        (by rw [vLinesOf_length]; omega)]
    exact hl
  · have hul := du hune
    obtain ⟨u, v, hu0, hu1, hl⟩ := vtLinesOf_getElem? g.uvs k (by omega)
    have hlen := flatMap_take_length (fun g => vtLinesOf g.uvs) (fun g => g.uvs)
      vtLinesOf_length_of_dataModel object.geometries i hd
    have hcu : c.u = ((object.geometries.take i).flatMap
        (fun g => vtLinesOf g.uvs)).length + k + 1 := by
      rw [hu, if_neg (by omega), hlen]
      omega
    refine ⟨u, v, hu0, hu1, hcu, ?_⟩
    rw [fvt, hcu, Nat.add_sub_cancel,
      flatMap_getElem? (fun g => vtLinesOf g.uvs) _ i g k hi
        (by rw [vtLinesOf_length]; omega)]
    exact hl
  · have hnl := dn hnne
    obtain ⟨x, y, z, hx, hy, hz, hl⟩ := vnLinesOf_getElem? g.normals k (by omega)
    have hlen := flatMap_take_length (fun g => vnLinesOf g.normals) (fun g => g.normals)
      vnLinesOf_length_of_dataModel object.geometries i hd
    have hcn : c.n = ((object.geometries.take i).flatMap
        (fun g => vnLinesOf g.normals)).length + k + 1 := by
      rw [hn, if_neg (by omega), hlen]
      omega
    refine ⟨x, y, z, hx, hy, hz, hcn, ?_⟩
    rw [fvn, hcn, Nat.add_sub_cancel,
      flatMap_getElem? (fun g => vnLinesOf g.normals) _ i g k hi
        (by rw [vnLinesOf_length]; omega)]
    exact hl

/-- C2, witness: two geometries of one triangle, both with UVs, the second
with normals. -/
theorem C2_global_indices_witness :
    ∃ out, ExportToOBJ 3 objectTwo = .ok out ∧
      out.filter Line.isV = objectTwo.geometries.flatMap (fun g => vLinesOf g.positions) ∧
      out.filter Line.isVT = objectTwo.geometries.flatMap (fun g => vtLinesOf g.uvs) ∧
      out.filter Line.isVN = objectTwo.geometries.flatMap (fun g => vnLinesOf g.normals) ∧
      ∀ i g k, objectTwo.geometries[i]? = some g → k < g.indices.length →
        ∃ c, cornerAt (faceBlock out i) k = some c ∧
          (∃ x y z, g.positions[3 * k]? = some x ∧ g.positions[3 * k + 1]? = some y ∧
            g.positions[3 * k + 2]? = some z ∧
            c.p = ((objectTwo.geometries.take i).flatMap
              (fun g => vLinesOf g.positions)).length + k + 1 ∧
            (out.filter Line.isV)[c.p - 1]? = some (.v x y z)) ∧
          (g.uvs ≠ [] → ∃ u v, g.uvs[2 * k]? = some u ∧ g.uvs[2 * k + 1]? = some v ∧
            c.u = ((objectTwo.geometries.take i).flatMap
              (fun g => vtLinesOf g.uvs)).length + k + 1 ∧
            (out.filter Line.isVT)[c.u - 1]? = some (.vt u v)) ∧
          (g.normals ≠ [] → ∃ x y z, g.normals[3 * k]? = some x ∧
            g.normals[3 * k + 1]? = some y ∧ g.normals[3 * k + 2]? = some z ∧
            c.n = ((objectTwo.geometries.take i).flatMap
              (fun g => vnLinesOf g.normals)).length + k + 1 ∧
            (out.filter Line.isVN)[c.n - 1]? = some (.vn x y z)) :=
  C2_global_indices 3 objectTwo (by decide!) (by decide!) (by decide!) (by decide!)

/-- C11: when `main` reads the files `files` one after the other into an
object, the geometries of the object are kept, in content and order, and each
file adds behind them the geometries of its meshes, in the order of the file:
the mesh loop of the `i`-th file starts with the geometries of the object and
of the files before it (`Pushes`), and each pass of the loop is given, for the
check of the name, these and the geometries of the earlier meshes of the file
(`LoopPushes`).  One file is the case `files = [file]`. -/
theorem C11_read_appends (files : List (List Byte)) :
    ∀ (object object' : BMF_Object), files.foldlM Read object = .ok object' →
      ∃ news : List (List BMF_Geometry), news.length = files.length ∧
        object'.geometries = object.geometries ++ news.flatten ∧
        ∀ i file new, files[i]? = some file → news[i]? = some new →
          Pushes (object.geometries ++ (news.take i).flatten) file new := by
  induction files with
  | nil =>
    intro object object' h
    cases h
    exact ⟨[], rfl, by simp, by simp⟩
  | cons file files ih =>
    intro object object' h
    rw [List.foldlM_cons] at h
    obtain ⟨o1, h1, h⟩ := Except.bind_ok_iff.1 h
    obtain ⟨new, hnew, hp⟩ := Read_pushes h1
    obtain ⟨news, hlen, hgs, hall⟩ := ih o1 object' h
    refine ⟨new :: news, by simp [hlen], ?_, ?_⟩
    · rw [hgs, hnew]; simp
    · intro i f n hf hn
      cases i with
      | zero =>
        simp only [List.getElem?_cons_zero, Option.some.injEq] at hf hn
        subst hf hn
        simpa using hp
      | succ i =>
        simp only [List.getElem?_cons_succ] at hf hn
        have := hall i f n hf hn
        rw [hnew] at this
        simpa [List.append_assoc] using this

/-- C11, witness: the scenario file read twice into an empty object; the
second mesh `Tri` finds the first and is named `Tri.1`. -/
theorem C11_read_appends_witness :
    [fileTri, fileTri].foldlM Read {} = .ok { geometries := [geometryTri, geometryTri1] } ∧
      ∃ news : List (List BMF_Geometry), news.length = [fileTri, fileTri].length ∧
        [geometryTri, geometryTri1] = ({} : BMF_Object).geometries ++ news.flatten ∧
        ∀ i file new, [fileTri, fileTri][i]? = some file → news[i]? = some new →
          Pushes (({} : BMF_Object).geometries ++ (news.take i).flatten) file new :=
  ⟨by decide!, C11_read_appends [fileTri, fileTri] {}
    { geometries := [geometryTri, geometryTri1] } (by decide!)⟩

/-- C13, with the lengths of the UVs and the normals as `Read` computes them:
every geometry that a successful `Read` appends has `positions.length =
3 * indices.length`; `uvs.length` is 0 or `2 * indices.length` modulo `2^32`;
`normals.length` is 0 or `3 * indices.length` modulo `2^32`. -/
theorem C13_cardinalities (object object' : BMF_Object) (file : List Byte)
    (h : Read object file = .ok object') :
    ∃ new, object'.geometries = object.geometries ++ new ∧ ∀ g ∈ new,
      g.positions.length = 3 * g.indices.length ∧
      (g.uvs.length = 0 ∨ g.uvs.length = (2 * g.indices.length) % U32) ∧
      (g.normals.length = 0 ∨ g.normals.length = (3 * g.indices.length) % U32) := by
  obtain ⟨new, hnew, hall⟩ := Read_new h
  refine ⟨new, hnew, fun g hg => ?_⟩
  obtain ⟨positions, colors, gs, st, st', r, hr, rfl⟩ := hall g hg
  obtain ⟨hd, s1, uv, s2, nr, s3, _, hu, hn, hps, _, hi, huv, hnr, hlen⟩ := readMesh_geometry hr
  rw [hi, huv, hnr, hlen]
  exact ⟨(processPositions_spec hps).1.trans (by rw [hlen]), readAttribute_length hu,
    readAttribute_length hn⟩

/-- C13, witness: the scenario file with UVs and normals. -/
theorem C13_cardinalities_witness :
    Read {} fileTriFull = .ok { geometries := [geometryTriFull] } ∧
      ∃ new, [geometryTriFull] = ({} : BMF_Object).geometries ++ new ∧ ∀ g ∈ new,
        g.positions.length = 3 * g.indices.length ∧
        (g.uvs.length = 0 ∨ g.uvs.length = (2 * g.indices.length) % U32) ∧
        (g.normals.length = 0 ∨ g.normals.length = (3 * g.indices.length) % U32) :=
  ⟨by decide!, C13_cardinalities {} { geometries := [geometryTriFull] } fileTriFull (by decide!)⟩

/-- C14, with the product as `Read` computes it: every geometry that a
successful `Read` appends has `(3 * triangleCount) % 2^32` indices, where
`triangleCount` is the count read for its mesh.  When `3 * triangleCount` is
below `2^32` this is `3 * triangleCount`, a multiple of 3, and the face loop of
`ExportToOBJ` forms the `triangleCount` faces of the corners `3t, 3t+1, 3t+2`,
all of them corners of the geometry. -/
theorem C14_index_count (object object' : BMF_Object) (file : List Byte)
    (h : Read object file = .ok object') :
    ∃ new positions, object'.geometries = object.geometries ++ new ∧ ∀ g ∈ new,
      ∃ s hd st', ReachesMesh object file positions s ∧
        readMeshHead s.geometries s.file = .ok (hd, st') ∧ g.indices = hd.indices ∧
        g.indices.length = (3 * hd.triangleCount) % U32 ∧
        (3 * hd.triangleCount < U32 →
          g.indices.length = 3 * hd.triangleCount ∧ g.indices.length % 3 = 0 ∧
          ∀ po uo no fuel, hd.triangleCount ≤ fuel →
            faceLines g po uo no fuel 0 = .ok (faceLinesOf g po uo no 0 hd.triangleCount)) := by
  obtain ⟨new, positions, hnew, hall⟩ := Read_meshes h
  refine ⟨new, positions, hnew, fun g hg => ?_⟩
  obtain ⟨s, r, st', hs, hr, rfl⟩ := hall g hg
  obtain ⟨hd, s1, uv, s2, nr, s3, hh, _, _, _, _, hi, _, _, hlen⟩ := readMesh_geometry hr
  refine ⟨s, hd, s1, hs, hh, hi, by rw [hi, hlen], fun hb => ?_⟩
  have hl : r.geometry.indices.length = 3 * hd.triangleCount := by
    rw [hi, hlen, Nat.mod_eq_of_lt hb]
  exact ⟨hl, by omega, fun po uo no fuel hf =>
    faceLines_of_count r.geometry po uo no hd.triangleCount fuel hl hb hf⟩

/-- C14, witness: the scenario file, with `triangleCount = 1`. -/
theorem C14_index_count_witness :
    Read {} fileTri = .ok { geometries := [geometryTri] } ∧
      ∃ new positions, [geometryTri] = ({} : BMF_Object).geometries ++ new ∧ ∀ g ∈ new,
        ∃ s hd st', ReachesMesh {} fileTri positions s ∧
          readMeshHead s.geometries s.file = .ok (hd, st') ∧ g.indices = hd.indices ∧
          g.indices.length = (3 * hd.triangleCount) % U32 ∧
          (3 * hd.triangleCount < U32 →
            g.indices.length = 3 * hd.triangleCount ∧ g.indices.length % 3 = 0 ∧
            ∀ po uo no fuel, hd.triangleCount ≤ fuel →
              faceLines g po uo no fuel 0 = .ok (faceLinesOf g po uo no 0 hd.triangleCount)) :=
  ⟨by decide!, C14_index_count {} { geometries := [geometryTri] } fileTri (by decide!)⟩

/-- C14, counterexample: the mesh of `fileWrap` declares `triangleCount =
1431655766`; `3 * triangleCount` is 2 in 32-bit arithmetic and `Read` succeeds
with a geometry of two indices, which is not a multiple of 3.  The face loop of
`ExportToOBJ` then writes one face with the corners 0, 1, 2, the third of which
is past the end of `indices`. -/
theorem C14_two_indices_one_face :
    Read {} fileWrap = .ok { geometries := [geometryWrap] } ∧
    geometryWrap.indices.length = 2 ∧
    ExportToOBJ 2 { geometries := [geometryWrap] } =
      .ok [.v 10 12 11, .v 10 12 11, .vt 1 2, .vt 3 4, .o "Foo",
        .f ⟨1, 1, 0⟩ ⟨2, 2, 0⟩ ⟨3, 3, 0⟩] := by
  decide!

/-- C15, evaluated: a read of zero bytes fails the assertion of `GetData`
(`fread` returns 0 items), so `Read` aborts on a mesh with `TriCount = 0`, on a
block of positions with `Count = 0` (with a mesh of no triangles, and with no
mesh at all) and on a name of length 0. -/
theorem C15_zero_length_is_rejected :
    (∀ st, GetData 0 st = .error .assertFailed) ∧
    Read {} fileNoTriangles = .error .assertFailed ∧
    Read {} fileNoVertices = .error .assertFailed ∧
    Read {} fileNoVerticesNoMesh = .error .assertFailed ∧
    Read {} fileEmptyName = .error .assertFailed :=
  ⟨fun _ => rfl, by decide!, by decide!, by decide!, by decide!⟩

/-- C16, evaluated: on a file with a block of colours and a mesh, the block
"Process colors" writes `geometry.colors[0]` while `geometry.colors` is empty
(the source resizes the pool `colors` instead), so `Read` does not succeed; this
is so for every pool of colours and every mesh with at least one index.  A
file with colours and no mesh is read. -/
theorem C16_colours_are_written_out_of_bounds :
    Read {} fileColors = .error .outOfBounds ∧
    (∀ colors indices, colors ≠ [] → indices ≠ [] →
      ∀ r, processColors colors indices ≠ .ok r) ∧
    Read {} fileColorsNoMesh = .ok {} :=
  ⟨by decide!, processColors_faults, by decide!⟩

/-- C17, for counts whose payload is shorter than `2^32` bytes: a geometry
that a successful `Read` appends has no UVs (normals) when its mesh has no UV
block (normal block); when the mesh has one, with the count `count`, and
`4 * (2 * count)` (resp. `4 * (3 * count)`) is below `2^32`, its UVs (normals)
are the `2 * count` (resp. `3 * count`) words that follow the count in the
file, in the order of the file. -/
theorem C17_uvs_and_normals_as_read (object object' : BMF_Object) (file : List Byte)
    (h : Read object file = .ok object') :
    ∃ new positions, object'.geometries = object.geometries ++ new ∧ ∀ g ∈ new,
      ∃ s hd s1 uv s2 nr s3, ReachesMesh object file positions s ∧
        readMeshHead s.geometries s.file = .ok (hd, s1) ∧
        readAttribute BMF_HAS_UVS BMF_GOT_UVS 2 hd.triangleCount hd.d s1 = .ok (uv, s2) ∧
        readAttribute BMF_HAS_NORMALS BMF_GOT_NORMALS 3 hd.triangleCount uv.2 s2 = .ok (nr, s3) ∧
        (hd.d ≠ BMF_HAS_UVS → g.uvs = []) ∧ (uv.2 ≠ BMF_HAS_NORMALS → g.normals = []) ∧
        (hd.d = BMF_HAS_UVS → ∃ count p, GetUint32 s1 = .ok (count, p) ∧
          (4 * (2 * count) < U32 →
            g.uvs = words (p.rest.take (4 * (2 * count))) ∧ g.uvs.length = 2 * count)) ∧
        (uv.2 = BMF_HAS_NORMALS → ∃ count p, GetUint32 s2 = .ok (count, p) ∧
          (4 * (3 * count) < U32 →
            g.normals = words (p.rest.take (4 * (3 * count))) ∧
              g.normals.length = 3 * count)) := by
  obtain ⟨new, positions, hnew, hall⟩ := Read_meshes h
  refine ⟨new, positions, hnew, fun g hg => ?_⟩
  obtain ⟨s, r, st', hs, hr, rfl⟩ := hall g hg
  obtain ⟨hd, s1, uv, s2, nr, s3, hh, hu, hn, _, _, _, huv, hnr, _⟩ := readMesh_geometry hr
  refine ⟨s, hd, s1, uv, s2, nr, s3, hs, hh, hu, hn, ?_, ?_, ?_, ?_⟩
  · intro hne
    rw [huv, (readAttribute_absent hne hu).1]
  · intro hne
    rw [hnr, (readAttribute_absent hne hn).1]
  · intro he
    obtain ⟨count, p, hc, _, hp⟩ := readAttribute_payload he hu
    rw [huv]
    exact ⟨count, p, hc, hp⟩
  · intro he
    obtain ⟨count, p, hc, _, hp⟩ := readAttribute_payload he hn
    rw [hnr]
    exact ⟨count, p, hc, hp⟩

/-- C17, witness: the scenario file with UVs and normals. -/
theorem C17_uvs_and_normals_as_read_witness :
    Read {} fileTriFull = .ok { geometries := [geometryTriFull] } ∧
    ∃ new positions, [geometryTriFull] = ({} : BMF_Object).geometries ++ new ∧ ∀ g ∈ new,
      ∃ s hd s1 uv s2 nr s3, ReachesMesh {} fileTriFull positions s ∧
        readMeshHead s.geometries s.file = .ok (hd, s1) ∧
        readAttribute BMF_HAS_UVS BMF_GOT_UVS 2 hd.triangleCount hd.d s1 = .ok (uv, s2) ∧
        readAttribute BMF_HAS_NORMALS BMF_GOT_NORMALS 3 hd.triangleCount uv.2 s2 = .ok (nr, s3) ∧
        (hd.d ≠ BMF_HAS_UVS → g.uvs = []) ∧ (uv.2 ≠ BMF_HAS_NORMALS → g.normals = []) ∧
        (hd.d = BMF_HAS_UVS → ∃ count p, GetUint32 s1 = .ok (count, p) ∧
          (4 * (2 * count) < U32 →
            g.uvs = words (p.rest.take (4 * (2 * count))) ∧ g.uvs.length = 2 * count)) ∧
        (uv.2 = BMF_HAS_NORMALS → ∃ count p, GetUint32 s2 = .ok (count, p) ∧
          (4 * (3 * count) < U32 →
            g.normals = words (p.rest.take (4 * (3 * count))) ∧
              g.normals.length = 3 * count)) :=
  ⟨by decide!, C17_uvs_and_normals_as_read {} { geometries := [geometryTriFull] } fileTriFull
    (by decide!)⟩

/-- C18: when `Read` succeeds on the bytes `b`, it succeeds on `b` followed by
any bytes `t`, with the same object. -/
theorem C18_trailing_bytes_are_ignored (object object' : BMF_Object) (b t : List Byte)
    (h : Read object b = .ok object') : Read object (b ++ t) = .ok object' := by
  have hlen : b.length < (b ++ t).length + 1 := by
    rw [List.length_append]; omega
  rw [Read_eq object b ((b ++ t).length + 1) hlen] at h
  cases hd : decode ((b ++ t).length + 1) object (openFile b) with
  | error e => rw [hd] at h; cases h
  | ok v =>
    obtain ⟨o, st⟩ := v
    rw [hd] at h
    cases h
    unfold Read decodeFile
    rw [decode_append hd t]
    rfl

/-- C18, witness: the scenario file followed by three more bytes. -/
theorem C18_trailing_bytes_are_ignored_witness :
    Read {} fileTri = .ok { geometries := [geometryTri] } ∧
      Read {} (fileTri ++ [1, 2, 3]) = .ok { geometries := [geometryTri] } :=
  ⟨by decide!, C18_trailing_bytes_are_ignored {} { geometries := [geometryTri] } fileTri [1, 2, 3]
    (by decide!)⟩

/-- C19, evaluated on a pool of two vertices and a triangle with the index 2:
the check `indices[k] < positions.size()` compares the index with the number of
floats, 6, and passes; the three reads `positions[6]`, `positions[8]`,
`positions[7]` are past the end of the pool, and `Read` runs into them. -/
theorem C19_check_does_not_guard_the_reads :
    Assert (decide (2 < [10, 11, 12, 20, 21, 22].length)) = .ok () ∧
    vecGet [10, 11, 12, 20, 21, 22] ((3 * 2 + 0) % U32) = .error .outOfBounds ∧
    vecGet [10, 11, 12, 20, 21, 22] ((3 * 2 + 1) % U32) = .error .outOfBounds ∧
    vecGet [10, 11, 12, 20, 21, 22] ((3 * 2 + 2) % U32) = .error .outOfBounds ∧
    Read {} fileIndexTwo = .error .outOfBounds := by
  decide!

/-- C13, counterexample: the mesh of `fileManyCorners` has `2147483649`
corners and a block of UVs with that count; the number of floats of the block,
`2 * 2147483649`, is 2 in 32-bit arithmetic.  `Read` succeeds with a geometry
that has `2147483649` indices and 2 UVs, which is neither 0 nor
`2 * indices.length`. -/
theorem C13_two_uvs_for_many_corners :
    ∃ g, Read {} fileManyCorners = .ok { geometries := [g] } ∧
      g.indices.length = 2147483649 ∧ g.uvs.length = 2 := by
  obtain ⟨ps, h⟩ := Read_fileManyCorners
  refine ⟨_, h, ?_, rfl⟩
  show ([0] ++ List.replicate 2147483648 0).length = 2147483649
  rw [List.length_append, List.length_replicate]
  rfl

/-- C17, counterexample: the block of UVs of the mesh of `fileManyCorners`
declares the count `2147483649`; `Read` succeeds and the geometry has the two
floats `1, 2` as its UVs, not `2 * 2147483649` floats. -/
theorem C17_two_floats_for_a_larger_count :
    ∃ g hd s1 p, Read {} fileManyCorners = .ok { geometries := [g] } ∧
      readMeshHead [] { rest := fileManyCorners.drop 32, pos := 32, tags := [0, 4, 24] } =
        .ok (hd, s1) ∧
      hd.d = BMF_HAS_UVS ∧ GetUint32 s1 = .ok (2147483649, p) ∧ g.uvs = [1, 2] := by
  obtain ⟨ps, h⟩ := Read_fileManyCorners
  exact ⟨_, { name := "Foo", triangleCount := 715827883,
              indices := [0] ++ List.replicate 2147483648 0, d := BMF_HAS_UVS },
    { rest := fileManyCorners.drop 63, pos := 63, tags := [0, 4, 24, 43, 55] },
    { rest := fileManyCorners.drop 67, pos := 67, tags := [0, 4, 24, 43, 55] },
    h, rfl, rfl, by decide!, rfl⟩

/-- C7 (amended): truncation is rejected.  First, when `Read` succeeds on a
file after reading `n` bytes of it (`n` is the offset of the file at the end,
just after the tag `GOT_BMF`), `Read` fails an assertion on every prefix of the
file that is shorter than `n`.  Second, on every file, when the run comes to
an array or a name for which fewer bytes are left than `GetData` is asked for,
`Read` fails an assertion; for an array with the count word `count` and
`width` elements for each unit of the count these are
`((width * count) % 2^32 * 4) % 2^32` bytes, the element count and the byte
count as they are computed in `uint32_t`. -/
theorem C7_truncated_file_is_rejected (object : BMF_Object) (file : List Byte) :
    (∀ (object' : BMF_Object) (st : Stream), decodeFile object file = .ok (object', st) →
      ∀ m, m < st.pos → Read object (file.take m) = .error .assertFailed) ∧
    (ShortPayload (fun width count => ((width * count) % U32 * 4) % U32) object file →
      Read object file = .error .assertFailed) :=
  ⟨fun _ _ h _ hm => Read_of_truncated h hm, fun h => Read_of_shortPayload h⟩

/-- C7, witness: the scenario file is read to its end, 99 bytes, and is
rejected when its last byte is missing; cut after 80 bytes, it has 5 bytes left
for the 12 bytes of its three indices and is rejected. -/
theorem C7_truncated_file_is_rejected_witness :
    (98 < 99 ∧ Read {} (fileTri.take 98) = .error .assertFailed) ∧
    Read {} (fileTri.take 80) = .error .assertFailed :=
  ⟨⟨by decide, (C7_truncated_file_is_rejected {} fileTri).1 { geometries := [geometryTri] }
      { rest := [], pos := 99, tags := [0, 4, 48, 67, 87] } (by decide!) 98 (by decide)⟩,
   (C7_truncated_file_is_rejected {} (fileTri.take 80)).2
      (ShortPayload.indices [10, 11, 12, 20, 21, 22, 30, 31, 32] loopTriCut "Tri"
        { rest := (fileTri.take 80).drop 71, pos := 71, tags := [0, 4, 48, 67] }
        { rest := (fileTri.take 80).drop 75, pos := 75, tags := [0, 4, 48, 67] } 1
        reachesMesh_fileTriCut (by decide!) (by decide!) (by decide))⟩

/-- C7, counterexample: the mesh of `fileWrap` declares `triangleCount =
1431655766`, that is `3 * 1431655766` indices of 4 bytes each, and 48 bytes are
left in the file after the count; `Read` succeeds on the file, which is 99
bytes long: the number of indices is 2 in 32-bit arithmetic. -/
theorem C7_wrapped_array_is_accepted :
    ShortPayload (fun width count => 4 * (width * count)) {} fileWrap ∧
    fileWrap.length = 99 ∧
    Read {} fileWrap = .ok { geometries := [geometryWrap] } :=
  ⟨ShortPayload.indices [10, 11, 12] loopWrap "Foo"
      { rest := fileWrap.drop 47, pos := 47, tags := [0, 4, 24, 43] }
      { rest := fileWrap.drop 51, pos := 51, tags := [0, 4, 24, 43] } 1431655766
      reachesMesh_fileWrap (by decide!) (by decide!) (by decide),
    by decide, by decide!⟩

/-- C12, for files within the 32-bit byte counts of `Read` and names without a
line break: a file of the grammar with one vertex pool of `positionCount >= 1`
vertices and one mesh with a name of at least one byte, none of them a line
break (byte 10), `triangleCount >= 1` triangles and neither colours, UVs nor
normals, whose pool and whose indices take fewer than `2^32` bytes each
(`12 * positionCount < 2^32`, `12 * triangleCount < 2^32`), is read and exported
by `main` as `3 * triangleCount` `v` records, the `o` record and
`triangleCount` `f` records.  The text written for them, for every printing
function `fmt` of floats whose results have no line break, consists of these
lines: `3 * triangleCount` lines `v x z y`, the vertex of the index of the
corner with its second and third component exchanged, then the line `o name`,
then `triangleCount` lines, the `t`-th being `f a// b// c//` for `a = 3t+1`,
`b = 3t+2`, `c = 3t+3`; there is no `vt` and no `vn` line. -/
theorem C12_positions_only_end_to_end (positionCount : Nat) (floats : List Nat)
    (name : List Byte) (triangleCount : Nat) (indices : List Nat)
    (hv : ValidSingleMesh positionCount floats name triangleCount indices)
    (hp0 : 0 < positionCount) (hpw : 12 * positionCount < U32) (hn0 : 0 < name.length)
    (hnb : ∀ b ∈ name, b ≠ 10)
    (ht0 : 0 < triangleCount) (htw : 12 * triangleCount < U32)
    (fuel : Nat) (hf : 3 * triangleCount ≤ fuel) :
    main fuel [singleMeshFile positionCount floats name triangleCount indices] =
      .ok (indices.map (specVertexLine floats) ++ [.o (String.mk (name.map byteChar))] ++
        (List.range triangleCount).map specFaceLine) ∧
    (∀ fmt : Nat → String, (∀ x, '\n' ∉ (fmt x).data) →
      textLines (objText fmt (indices.map (specVertexLine floats) ++
        [.o (String.mk (name.map byteChar))] ++ (List.range triangleCount).map specFaceLine)) =
      indices.map (specVertexText fmt floats) ++ ["o " ++ String.mk (name.map byteChar)] ++
        (List.range triangleCount).map specFaceText) ∧
    (indices.map (specVertexText (fun _ => "") floats)).length = 3 * triangleCount ∧
    ((List.range triangleCount).map specFaceText).length = triangleCount :=
  ⟨main_singleMeshFile hv hp0 hpw hn0 ht0 htw fuel hf,
    fun _ hfmt => textLines_specLines hfmt floats hnb triangleCount indices,
    by rw [List.length_map]; exact hv.2.2.2.2.2.1,
    by rw [List.length_map, List.length_range]⟩

/-- C12, witness: the scenario file of the specification, three vertices and
the triangle `Tri` with the indices `0, 1, 2`, which is `fileTri`; it is
exported as three `v` lines, `o Tri` and `f 1// 2// 3//`. -/
theorem C12_positions_only_end_to_end_witness :
    (ValidSingleMesh 3 [10, 11, 12, 20, 21, 22, 30, 31, 32] [84, 114, 105] 1 [0, 1, 2] ∧
      0 < 3 ∧ 12 * 3 < U32 ∧ 0 < [(84 : Byte), 114, 105].length ∧
      (∀ b ∈ [(84 : Byte), 114, 105], b ≠ 10) ∧ 0 < 1 ∧ 12 * 1 < U32 ∧ 3 * 1 ≤ 3) ∧
    (main 3 [singleMeshFile 3 [10, 11, 12, 20, 21, 22, 30, 31, 32] [84, 114, 105] 1 [0, 1, 2]] =
      .ok ([0, 1, 2].map (specVertexLine [10, 11, 12, 20, 21, 22, 30, 31, 32]) ++
        [.o (String.mk ([(84 : Byte), 114, 105].map byteChar))] ++
        (List.range 1).map specFaceLine) ∧
    (∀ fmt : Nat → String, (∀ x, '\n' ∉ (fmt x).data) →
      textLines (objText fmt ([0, 1, 2].map (specVertexLine [10, 11, 12, 20, 21, 22, 30, 31, 32]) ++
        [.o (String.mk ([(84 : Byte), 114, 105].map byteChar))] ++
        (List.range 1).map specFaceLine)) =
      [0, 1, 2].map (specVertexText fmt [10, 11, 12, 20, 21, 22, 30, 31, 32]) ++
        ["o " ++ String.mk ([(84 : Byte), 114, 105].map byteChar)] ++
        (List.range 1).map specFaceText) ∧
    ([0, 1, 2].map (specVertexText (fun _ => "") [10, 11, 12, 20, 21, 22, 30, 31, 32])).length =
      3 * 1 ∧
    ((List.range 1).map specFaceText).length = 1) ∧
    main 3 [fileTri] = .ok [.v 10 12 11, .v 20 22 21, .v 30 32 31, .o "Tri",
      .f { p := 1, u := 0, n := 0 } { p := 2, u := 0, n := 0 } { p := 3, u := 0, n := 0 }] ∧
    "o " ++ String.mk ([(84 : Byte), 114, 105].map byteChar) = "o Tri" ∧
    specFaceText 0 = "f 1// 2// 3//" :=
  ⟨by decide!, C12_positions_only_end_to_end 3 [10, 11, 12, 20, 21, 22, 30, 31, 32]
    [84, 114, 105] 1 [0, 1, 2] (by decide) (by decide) (by decide) (by decide) (by decide!)
    (by decide) (by decide) 3 (by decide), by decide!, by decide, by decide⟩

/-- C12, counterexample, on two files of the grammar with one mesh and no
colours, UVs or normals.  First, `fileGiant` has a mesh `Foo` of `357913942`
triangles; its `1073741826` indices take `4294967304` bytes, which is 8 as the
`uint32_t` argument of `GetData`: `Read` reads two indices, finds the third
index where it asserts the tag `GOT_INDICES`, and aborts; `main` writes no
line.  Second, `fileBreak` has a mesh of one triangle whose name is `x`, a line
break, `vn 0 0 1`: `ExportToOBJ` writes the bytes of the name as they are, and
the text of the output has the lines `o x` and `vn 0 0 1`. -/
theorem C12_many_triangles_or_a_line_break :
    (ValidSingleMesh 1 [10, 11, 12] nameFoo 357913942 (List.replicate 1073741826 0) ∧
      fileGiant =
        singleMeshFile 1 [10, 11, 12] nameFoo 357913942 (List.replicate 1073741826 0) ∧
      ∀ fuel, main fuel [fileGiant] = .error .assertFailed) ∧
    (ValidSingleMesh 1 [10, 11, 12] nameBreak 1 [0, 0, 0] ∧
      fileBreak = singleMeshFile 1 [10, 11, 12] nameBreak 1 [0, 0, 0] ∧
      main 3 [fileBreak] = .ok [.v 10 12 11, .v 10 12 11, .v 10 12 11, .o "x\nvn 0 0 1",
        .f { p := 1, u := 0, n := 0 } { p := 2, u := 0, n := 0 } { p := 3, u := 0, n := 0 }] ∧
      ∀ fmt : Nat → String, (∀ x, '\n' ∉ (fmt x).data) →
        textLines (objText fmt [.v 10 12 11, .v 10 12 11, .v 10 12 11, .o "x\nvn 0 0 1",
          .f { p := 1, u := 0, n := 0 } { p := 2, u := 0, n := 0 } { p := 3, u := 0, n := 0 }]) =
        ["v " ++ fmt 10 ++ " " ++ fmt 12 ++ " " ++ fmt 11,
         "v " ++ fmt 10 ++ " " ++ fmt 12 ++ " " ++ fmt 11,
         "v " ++ fmt 10 ++ " " ++ fmt 12 ++ " " ++ fmt 11, "o x", "vn 0 0 1",
         "f 1// 2// 3//"]) :=
  ⟨⟨⟨by decide, rfl, by decide, by decide, by decide, by rw [List.length_replicate],
      fun idx h => by rw [List.eq_of_mem_replicate h]; decide⟩,
    rfl, fun fuel => @main_of_Read_error fuel [] [] fileGiant {} _ rfl Read_fileGiant⟩,
   ⟨by decide, rfl, by decide!, fun _ hfmt => textLines_fileBreak hfmt⟩⟩

end BMF
